import Mathlib

/-!
A shallow embedding of the matching engine of `Orderbook Server/orderbook.cpp`.

The C++ class `Orderbook` owns two `std::map`s from price to a `std::list` of
shared order pointers and an `std::unordered_map` from order id to an
`OrderEntry`.  The embedding is a value model:

* a `std::map` is the list of its `(key, value)` pairs in iteration order
  (`bids_` uses `std::greater`, so best bid first; `asks_` uses `std::less`);
* the `std::unordered_map` is an association list with at most the first
  binding of a key visible; `erase` removes every binding of the key;
* a `std::shared_ptr<Order>` is the `Order` it points to.  The entry of the
  index and the node of the level share one object in C++, so a `Fill`
  through the level is mirrored on the index copy (`ordersSync`);
* the list iterator `location_` of an `OrderEntry` designates the node of the
  level that holds the entry's order; the embedding identifies that node by
  the id of the order it holds (`eraseNode`);
* structured bindings are read as the values bound when the binding is made;
* `Price` is `Int`, `Quantity` and `OrderID` are `Nat`; the only arithmetic
  that can leave the machine range is written with an explicit `% 2 ^ 32`;
* a call either returns, or throws / has undefined behaviour (`fault`), or is
  still inside `while (true)` after the given number of iterations
  (`outOfFuel`).
-/

namespace SimpleOrderbook

/-! ## Outcomes of a call -/

/-- Ways a call can fail to return normally. -/
inductive Fault where
  | logic_error
  | out_of_range
  | undefined_behaviour
deriving DecidableEq, Repr

/-- Outcome of running a piece of the engine. -/
inductive Result (α : Type) where
  | ok (a : α)
  | fault (f : Fault)
  | outOfFuel
deriving DecidableEq, Repr

/-- Sequencing of two computations: the second runs only if the first returns. -/
def Result.bind {α β : Type} (r : Result α) (k : α → Result β) : Result β :=
  match r with
  | .ok a => k a
  | .fault f => .fault f
  | .outOfFuel => .outOfFuel

/-! ## Data model (orderbook.cpp, lines 33-167) -/

inductive OrderType where
  | GoodTillCancel
  | FillandKill
deriving DecidableEq, Repr

inductive Side where
  | Buy
  | Sell
deriving DecidableEq, Repr

abbrev Price := Int
abbrev Quantity := Nat
abbrev OrderID := Nat

structure LevelInfo where
  price_ : Price
  quantity_ : Quantity
deriving DecidableEq, Repr

abbrev LevelInfos := List LevelInfo

structure OrderbookLevelInfos where
  bids_ : LevelInfos
  asks_ : LevelInfos
deriving DecidableEq, Repr

structure Order where
  orderType_ : OrderType
  orderID_ : OrderID
  side_ : Side
  price_ : Price
  initialQuantity_ : Quantity
  remainingQuantity_ : Quantity
deriving DecidableEq, Repr

/-- The constructor `Order(orderType, orderID, side, price, quantity)`. -/
def Order.new (orderType : OrderType) (orderID : OrderID) (side : Side) (price : Price)
    (quantity : Quantity) : Order :=
  { orderType_ := orderType, orderID_ := orderID, side_ := side, price_ := price,
    initialQuantity_ := quantity, remainingQuantity_ := quantity }

/-- The accessor `GetFilledQuantity`: an unsigned 32-bit subtraction. -/
def Order.GetFilledQuantity (o : Order) : Quantity :=
  (o.initialQuantity_ + 2 ^ 32 - o.remainingQuantity_ % 2 ^ 32) % 2 ^ 32

/-- The test `GetRemainingQuantity() == false`. -/
def Order.isFilled (o : Order) : Bool :=
  o.remainingQuantity_ == 0

/-- The method `Fill`: throws `std::logic_error` when asked for more than the remainder. -/
def Order.Fill (o : Order) (quantity : Quantity) : Result Order :=
  if quantity > o.remainingQuantity_ then .fault .logic_error
  else .ok { o with remainingQuantity_ := o.remainingQuantity_ - quantity }

abbrev OrderPointers := List Order

structure OrderModify where
  orderID_ : OrderID
  price_ : Price
  side_ : Side
  quantity_ : Quantity
deriving DecidableEq, Repr

def OrderModify.ToOrderPointer (m : OrderModify) (type : OrderType) : Order :=
  Order.new type m.orderID_ m.side_ m.price_ m.quantity_

structure TradeInfo where
  orderID_ : OrderID
  price_ : Price
  quantity_ : Quantity
deriving DecidableEq, Repr

structure Trade where
  bidTrade_ : TradeInfo
  askTrade_ : TradeInfo
deriving DecidableEq, Repr

abbrev Trades := List Trade

/-- The struct `OrderEntry`; `location_` is the node of the level holding `order_`. -/
structure OrderEntry where
  order_ : Order
deriving DecidableEq, Repr

/-- A `std::map<Price, OrderPointers, Compare>` in iteration order. -/
abbrev Levels := List (Price × OrderPointers)

/-- The `std::unordered_map<OrderID, OrderEntry>`. -/
abbrev Index := List (OrderID × OrderEntry)

structure Orderbook where
  bids_ : Levels
  asks_ : Levels
  orders_ : Index
deriving DecidableEq, Repr

/-- The book of a freshly constructed `Orderbook`. -/
def Orderbook.empty : Orderbook :=
  { bids_ := [], asks_ := [], orders_ := [] }

/-! ## Container operations -/

/-- The lookup `map.at(price)`; `none` stands for `std::out_of_range`. -/
def mapAt : Levels → Price → Option OrderPointers
  | [], _ => none
  | (k, l) :: rest, price => if k = price then some l else mapAt rest price

/-- The call `map.erase(price)`. -/
def mapErase (m : Levels) (price : Price) : Levels :=
  m.filter (fun e => decide (e.1 ≠ price))

/-- Assignment through the reference returned by `map.at(price)`. -/
def mapSet : Levels → Price → OrderPointers → Levels
  | [], _, _ => []
  | (k, l) :: rest, price, l' =>
    if k = price then (k, l') :: rest else (k, l) :: mapSet rest price l'

/-- The statement pair `auto& orders = map[price]; orders.push_back(order);` on a map whose
comparator puts `a` before `b` iff `before a b`. -/
def pushBackAt (before : Price → Price → Bool) : Levels → Price → Order → Levels
  | [], price, order => [(price, [order])]
  | (k, l) :: rest, price, order =>
    if k = price then (k, l ++ [order]) :: rest
    else if before price k then (price, [order]) :: (k, l) :: rest
    else (k, l) :: pushBackAt before rest price order

/-- Comparator of `bids_`: `std::greater<Price>`. -/
def bidBefore (a b : Price) : Bool := decide (a > b)

/-- Comparator of `asks_`: `std::less<Price>`. -/
def askBefore (a b : Price) : Bool := decide (a < b)

/-- The lookup `orders_.at(orderID)`. -/
def ordersAt : Index → OrderID → Option OrderEntry
  | [], _ => none
  | (k, e) :: rest, orderID => if k = orderID then some e else ordersAt rest orderID

/-- The test `orders_.contains(orderID)`. -/
def ordersContains (idx : Index) (orderID : OrderID) : Bool :=
  (ordersAt idx orderID).isSome

/-- The call `orders_.erase(orderID)`. -/
def ordersErase (idx : Index) (orderID : OrderID) : Index :=
  idx.filter (fun e => decide (e.1 ≠ orderID))

/-- The call `orders_.insert({orderID, entry})`: no effect when the key is present. -/
def ordersInsert (idx : Index) (orderID : OrderID) (entry : OrderEntry) : Index :=
  if ordersContains idx orderID then idx else idx ++ [(orderID, entry)]

/-- Effect on the index of mutating the shared order object behind a level node. -/
def ordersSync (idx : Index) (o : Order) : Index :=
  idx.map (fun e => if e.1 = o.orderID_ then (e.1, { order_ := o }) else e)

/-- The call `orders.erase(orderIterator)`, the iterator being the node that holds the order
with this id; `none` when the list has no such node (an invalid iterator). -/
def eraseNode : OrderPointers → OrderID → Option OrderPointers
  | [], _ => none
  | o :: rest, orderID =>
    if o.orderID_ = orderID then some rest
    else (eraseNode rest orderID).map (fun r => o :: r)

/-! ## The engine (orderbook.cpp, lines 169-380) -/

/-- The method `Orderbook::CanMatch`. -/
def Orderbook.CanMatch (b : Orderbook) (side : Side) (price : Price) : Bool :=
  match side with
  | .Buy =>
    match b.asks_ with
    | [] => false
    | (bestAsk, _) :: _ => decide (price ≥ bestAsk)
  | .Sell =>
    match b.bids_ with
    | [] => false
    | (bestBid, _) :: _ => decide (price ≤ bestBid)

/-- The method `Orderbook::CancelOrder`. -/
def Orderbook.CancelOrder (b : Orderbook) (orderID : OrderID) : Result Orderbook :=
  match ordersAt b.orders_ orderID with
  | none => .ok b
  | some entry =>
    let order := entry.order_
    let orders_ := ordersErase b.orders_ orderID
    if order.side_ = Side.Sell then
      let price := order.price_
      match mapAt b.asks_ price with
      | none => .fault .out_of_range
      | some orders =>
        match eraseNode orders orderID with
        | none => .fault .undefined_behaviour
        | some [] => .ok { bids_ := b.bids_, asks_ := mapErase b.asks_ price, orders_ := orders_ }
        | some (o :: os) =>
          .ok { bids_ := b.bids_, asks_ := mapSet b.asks_ price (o :: os), orders_ := orders_ }
    else
      let price := order.price_
      match mapAt b.bids_ price with
      | none => .fault .out_of_range
      | some orders =>
        match eraseNode orders orderID with
        | none => .fault .undefined_behaviour
        | some [] => .ok { bids_ := mapErase b.bids_ price, asks_ := b.asks_, orders_ := orders_ }
        | some (o :: os) =>
          .ok { bids_ := mapSet b.bids_ price (o :: os), asks_ := b.asks_, orders_ := orders_ }

/-- State threaded through the inner loop of `MatchOrders`: the two best levels, the index and
the trades emitted so far. -/
structure InnerState where
  bids : OrderPointers
  asks : OrderPointers
  orders_ : Index
  trades : Trades
deriving DecidableEq, Repr

/-- One pass through the body of `while (!bids.empty() && !asks.empty())`
(orderbook.cpp, lines 227-251) with `bid` and `ask` the two fronts. -/
def innerBody (bid : Order) (bids : OrderPointers) (ask : Order) (asks : OrderPointers)
    (idx : Index) (trades : Trades) : Result InnerState :=
  let quantity := min bid.remainingQuantity_ ask.remainingQuantity_
  (bid.Fill quantity).bind fun bid1 =>
  (ask.Fill quantity).bind fun ask1 =>
    let idx0 := ordersSync (ordersSync idx bid1) ask1
    let bids1 := if bid1.isFilled then bids else bid1 :: bids
    let idx1 := if bid1.isFilled then ordersErase idx0 bid1.orderID_ else idx0
    let asks1 := if ask1.isFilled then asks else ask1 :: asks
    let idx2 := if ask1.isFilled then ordersErase idx1 ask1.orderID_ else idx1
    .ok { bids := bids1, asks := asks1, orders_ := idx2,
          trades := trades ++ [{ bidTrade_ := { orderID_ := bid1.orderID_, price_ := bid1.price_,
                                                quantity_ := quantity },
                                 askTrade_ := { orderID_ := ask1.orderID_, price_ := ask1.price_,
                                                quantity_ := quantity } }] }

/-- The inner loop `while (!bids.empty() && !asks.empty())`, run for at most `n` passes. -/
def innerLoopN : Nat → InnerState → Result InnerState
  | _, { bids := [], asks := asks, orders_ := idx, trades := ts } =>
    .ok { bids := [], asks := asks, orders_ := idx, trades := ts }
  | _, { bids := bid :: bids, asks := [], orders_ := idx, trades := ts } =>
    .ok { bids := bid :: bids, asks := [], orders_ := idx, trades := ts }
  | 0, { bids := _ :: _, asks := _ :: _, .. } => .outOfFuel
  | n + 1, { bids := bid :: bids, asks := ask :: asks, orders_ := idx, trades := ts } =>
    (innerBody bid bids ask asks idx ts).bind (innerLoopN n)

/-- The inner loop.  Every pass pops a front, so `bids.size() + asks.size()` passes are
enough (`innerLoop_returns` below). -/
def innerLoop (s : InnerState) : Result InnerState :=
  innerLoopN (s.bids.length + s.asks.length) s

/-- The outer loop `while (true)` of `MatchOrders` (orderbook.cpp, lines 214-257), run for at
most `fuel` iterations. -/
def matchLoop : Nat → Orderbook → Trades → Result (Orderbook × Trades)
  | 0, _, _ => .outOfFuel
  | fuel + 1, b, trades =>
    match b.bids_, b.asks_ with
    | [], _ => .ok (b, trades)
    | _ :: _, [] => .ok (b, trades)
    | (bidPrice, bids) :: bidsRest, (askPrice, asks) :: asksRest =>
      if bidPrice < askPrice then .ok (b, trades)
      else
        (innerLoop { bids := bids, asks := asks, orders_ := b.orders_, trades := trades }).bind
          fun s =>
            matchLoop fuel
              { bids_ := (bidPrice, s.bids) :: bidsRest, asks_ := (askPrice, s.asks) :: asksRest,
                orders_ := s.orders_ }
              s.trades

/-- The block `if (!bids_.empty()) ...` after the loop (orderbook.cpp, lines 259-265). -/
def cleanupBids (b : Orderbook) : Result Orderbook :=
  match b.bids_ with
  | [] => .ok b
  | (_, []) :: _ => .fault .undefined_behaviour
  | (_, order :: _) :: _ =>
    if order.orderType_ = OrderType.FillandKill then b.CancelOrder order.orderID_ else .ok b

/-- The block `if (!asks_.empty()) ...` after the loop (orderbook.cpp, lines 267-273). -/
def cleanupAsks (b : Orderbook) : Result Orderbook :=
  match b.asks_ with
  | [] => .ok b
  | (_, []) :: _ => .fault .undefined_behaviour
  | (_, order :: _) :: _ =>
    if order.orderType_ = OrderType.FillandKill then b.CancelOrder order.orderID_ else .ok b

/-- The method `Orderbook::MatchOrders`, its outer loop bounded by `fuel` iterations. -/
def Orderbook.MatchOrders (fuel : Nat) (b : Orderbook) : Result (Trades × Orderbook) :=
  (matchLoop fuel b []).bind fun r =>
  (cleanupBids r.1).bind fun b1 =>
  (cleanupAsks b1).bind fun b2 =>
    .ok (r.2, b2)

/-- The book after the insertion part of `AddOrder` (orderbook.cpp, lines 290-305). -/
def Orderbook.insertOrder (b : Orderbook) (order : Order) : Orderbook :=
  if order.side_ = Side.Buy then
    { bids_ := pushBackAt bidBefore b.bids_ order.price_ order, asks_ := b.asks_,
      orders_ := ordersInsert b.orders_ order.orderID_ { order_ := order } }
  else
    { bids_ := b.bids_, asks_ := pushBackAt askBefore b.asks_ order.price_ order,
      orders_ := ordersInsert b.orders_ order.orderID_ { order_ := order } }

/-- The method `Orderbook::AddOrder`. -/
def Orderbook.AddOrder (fuel : Nat) (b : Orderbook) (order : Order) :
    Result (Trades × Orderbook) :=
  if ordersContains b.orders_ order.orderID_ then .ok ([], b)
  else if order.orderType_ = OrderType.FillandKill
      ∧ b.CanMatch order.side_ order.price_ = false then .ok ([], b)
  else (b.insertOrder order).MatchOrders fuel

/-- The method `Orderbook::MatchOrder` (the modify operation). -/
def Orderbook.MatchOrder (fuel : Nat) (b : Orderbook) (order : OrderModify) :
    Result (Trades × Orderbook) :=
  match ordersAt b.orders_ order.orderID_ with
  | none => .ok ([], b)
  | some existing =>
    (b.CancelOrder order.orderID_).bind fun b1 =>
      b1.AddOrder fuel (order.ToOrderPointer existing.order_.orderType_)

/-- The method `Orderbook::Size`. -/
def Orderbook.Size (b : Orderbook) : Nat :=
  b.orders_.length

/-- The lambda `CreateLevelInfos`: `std::accumulate` over `Quantity`, an unsigned 32-bit sum. -/
def CreateLevelInfos (price : Price) (orders : OrderPointers) : LevelInfo :=
  { price_ := price,
    quantity_ := orders.foldl (fun runningSum order =>
      (runningSum + order.remainingQuantity_) % 2 ^ 32) 0 }

/-- The method `Orderbook::GetOrderInfos`. -/
def Orderbook.GetOrderInfos (b : Orderbook) : OrderbookLevelInfos :=
  { bids_ := b.bids_.map (fun e => CreateLevelInfos e.1 e.2),
    asks_ := b.asks_.map (fun e => CreateLevelInfos e.1 e.2) }

/-! ## Predicates, operation sequences and the specification-side definitions -/

/-- Key of `map.begin()`, the best price of a side. -/
def bestPrice : Levels → Option Price
  | [] => none
  | (k, _) :: _ => some k

/-- The order `map.begin()->second.front()`, the top-of-book order of a side. -/
def topOrder : Levels → Option Order
  | (_, o :: _) :: _ => some o
  | _ => none

/-- Keys of a map in iteration order. -/
def keys (m : Levels) : List Price :=
  m.map Prod.fst

/-- The levels of one side of the book. -/
def Orderbook.levels (b : Orderbook) : Side → Levels
  | .Buy => b.bids_
  | .Sell => b.asks_

/-- The other side. -/
def Side.other : Side → Side
  | .Buy => .Sell
  | .Sell => .Buy

/-- Every order the book holds in a level, bids first. -/
def Orderbook.resting (b : Orderbook) : List Order :=
  (b.bids_.map Prod.snd).flatten ++ (b.asks_.map Prod.snd).flatten

/-- What a `std::map` guarantees of its iteration order: the keys are strictly ordered by the
comparator (descending for `bids_`, ascending for `asks_`), in particular pairwise distinct. -/
def Orderbook.MapsSorted (b : Orderbook) : Prop :=
  (keys b.bids_).Pairwise (fun x y => x > y) ∧ (keys b.asks_).Pairwise (fun x y => x < y)

/-- Every price level of the book holds at least one order. -/
def Orderbook.LevelsNonEmpty (b : Orderbook) : Prop :=
  ∀ e ∈ b.bids_ ++ b.asks_, e.2 ≠ []

/-- If both sides are non-empty then the best bid price is below the best ask price. -/
def Orderbook.Uncrossed (b : Orderbook) : Prop :=
  ∀ bidPrice askPrice, bestPrice b.bids_ = some bidPrice → bestPrice b.asks_ = some askPrice →
    bidPrice < askPrice

/-- The price does not cross the opposite side: that side is empty, or a buy price is below
the best ask, or a sell price is above the best bid. -/
def Orderbook.NoCross (b : Orderbook) (side : Side) (price : Price) : Prop :=
  match side with
  | .Buy => ∀ bestAsk, bestPrice b.asks_ = some bestAsk → price < bestAsk
  | .Sell => ∀ bestBid, bestPrice b.bids_ = some bestBid → price > bestBid

/-- The top-of-book order of neither side is a FillandKill order. -/
def Orderbook.NoFillandKillOnTop (b : Orderbook) : Prop :=
  (∀ o, topOrder b.bids_ = some o → o.orderType_ ≠ OrderType.FillandKill) ∧
  (∀ o, topOrder b.asks_ = some o → o.orderType_ ≠ OrderType.FillandKill)

/-- The index and the levels agree: an indexed order is held by the level of its side and
price, an order held by a level is on that side at that price and is the indexed one, and no
two nodes of the book hold orders with the same id. -/
structure Orderbook.IndexAgrees (b : Orderbook) : Prop where
  indexed_in_level : ∀ orderID entry, ordersAt b.orders_ orderID = some entry →
    entry.order_.orderID_ = orderID ∧
    ∃ l, mapAt (b.levels entry.order_.side_) entry.order_.price_ = some l ∧ entry.order_ ∈ l
  level_indexed : ∀ side e, e ∈ b.levels side → ∀ o ∈ e.2,
    o.side_ = side ∧ o.price_ = e.1 ∧ ordersAt b.orders_ o.orderID_ = some { order_ := o }
  ids_unique : (b.resting.map Order.orderID_).Nodup

/-- A call of one of the three public mutating operations. -/
inductive Op where
  | AddOrder (order : Order)
  | CancelOrder (orderID : OrderID)
  | MatchOrder (order : OrderModify)
deriving DecidableEq, Repr

/-- The book a public call leaves behind when it returns. -/
def Orderbook.run (fuel : Nat) (b : Orderbook) : Op → Result Orderbook
  | .AddOrder order => (b.AddOrder fuel order).bind fun r => .ok r.2
  | .CancelOrder orderID => b.CancelOrder orderID
  | .MatchOrder order => (b.MatchOrder fuel order).bind fun r => .ok r.2

/-- Books reachable from the empty book by public calls that return. -/
inductive Reachable : Orderbook → Prop where
  | empty : Reachable Orderbook.empty
  | step {b b1 : Orderbook} (op : Op) (fuel : Nat) :
      Reachable b → b.run fuel op = .ok b1 → Reachable b1

/-- The order `(type, side, price, quantity, id)` of the end-to-end scenarios. -/
def mkOrder (type : OrderType) (side : Side) (price : Price) (quantity : Quantity)
    (id : OrderID) : Order :=
  Order.new type id side price quantity

/-- A book holding the given orders only, one level each side at most, with its index. -/
def bookOf (bidPrice : Price) (bids : OrderPointers) (askPrice : Price) (asks : OrderPointers) :
    Orderbook :=
  { bids_ := if bids = [] then [] else [(bidPrice, bids)],
    asks_ := if asks = [] then [] else [(askPrice, asks)],
    orders_ := (bids ++ asks).map fun o => (o.orderID_, { order_ := o }) }

/-- Proper top of a side: the first level, if any, is non-empty and its front is not a
FillandKill order. -/
def TopOK : Levels → Prop
  | [] => True
  | (_, []) :: _ => False
  | (_, o :: _) :: _ => o.orderType_ ≠ OrderType.FillandKill

/-- A book with a bid at 100 above an ask at 90. -/
def crossedBook : Orderbook :=
  bookOf 100 [mkOrder .GoodTillCancel .Buy 100 3 5] 90 [mkOrder .GoodTillCancel .Sell 90 3 6]

/-- The book with the levels of one side and the index replaced. -/
def Orderbook.withLevels (b : Orderbook) (side : Side) (m : Levels) (idx : Index) : Orderbook :=
  match side with
  | .Buy => { bids_ := m, asks_ := b.asks_, orders_ := idx }
  | .Sell => { bids_ := b.bids_, asks_ := m, orders_ := idx }

/-- Every bid price is below every ask price. -/
def Orderbook.BidsBelowAsks (b : Orderbook) : Prop :=
  ∀ bidPrice ∈ keys b.bids_, ∀ askPrice ∈ keys b.asks_, bidPrice < askPrice

/-- Sorted maps with every bid below every ask: the invariant behind the uncrossed book. -/
def Orderbook.PriceInv (b : Orderbook) : Prop :=
  b.MapsSorted ∧ b.BidsBelowAsks

/-- Books reachable from the empty book by returning public calls taken from `allowed`. -/
inductive ReachableBy (allowed : Op → Prop) : Orderbook → Prop where
  | empty : ReachableBy allowed Orderbook.empty
  | step {b b1 : Orderbook} (op : Op) (fuel : Nat) :
      ReachableBy allowed b → allowed op → b.run fuel op = .ok b1 → ReachableBy allowed b1

/-- Orders held by the levels of a map, in iteration order. -/
def heldBy (m : Levels) : List Order :=
  (m.map Prod.snd).flatten

/-- Calls whose added or replacement order has a positive quantity: `AddOrder` of an order
as its constructor builds it (remaining = initial) with quantity > 0, `MatchOrder` with a new
quantity > 0, and any `CancelOrder`. -/
def Op.Positive : Op → Prop
  | .AddOrder order => 0 < order.initialQuantity_ ∧ order.remainingQuantity_ = order.initialQuantity_
  | .CancelOrder _ => True
  | .MatchOrder order => 0 < order.quantity_

/-- The book after `add(GTC, Buy, 100, 10, id=1)` then `add(GTC, Sell, 101, 10, id=2)`. -/
def quotedBook : Orderbook :=
  bookOf 100 [mkOrder .GoodTillCancel .Buy 100 10 1] 101 [mkOrder .GoodTillCancel .Sell 101 10 2]

/-- Comparator of the map of a side. -/
def sideBefore : Side → Price → Price → Bool
  | .Buy => bidBefore
  | .Sell => askBefore

/-- The invariant behind index/level agreement: agreement itself, key-ordered maps and an
index without repeated keys. -/
def Orderbook.Coherent (b : Orderbook) : Prop :=
  b.IndexAgrees ∧ b.MapsSorted ∧ (b.orders_.map Prod.fst).Nodup

/-- Sum, as a natural number, of the remaining quantities of a list of orders. -/
def totalRemaining (orders : OrderPointers) : Nat :=
  (orders.map Order.remainingQuantity_).sum

/-- The order object after a call of `Fill`, whichever way the call is left: the throw comes
before the assignment to `remainingQuantity_`. -/
def Order.afterFill (o : Order) (quantity : Quantity) : Order :=
  if quantity > o.remainingQuantity_ then o
  else { o with remainingQuantity_ := o.remainingQuantity_ - quantity }

/-- Two buys of 3000000000 resting at 100, ids 1 and 2. -/
def heavyBook : Orderbook :=
  bookOf 100 [mkOrder .GoodTillCancel .Buy 100 3000000000 1,
              mkOrder .GoodTillCancel .Buy 100 3000000000 2] 0 []

/-- Sum of the quantities of a list of trades (the two sides of a trade carry the same
quantity; the bid side is read). -/
def tradedVolume (trades : Trades) : Nat :=
  (trades.map fun t => t.bidTrade_.quantity_).sum

/-- Size of the level arrays of `OrderbookStatusResponse`. -/
def MAX_LEVELS : Nat := 10

/-- The WinSock function `htonl` on the little-endian host: the 32-bit value with its four
bytes in reverse order. -/
def htonl (x : Nat) : Nat :=
  (x % 256) * 2 ^ 24 + (x / 2 ^ 8 % 256) * 2 ^ 16 + (x / 2 ^ 16 % 256) * 2 ^ 8 + x / 2 ^ 24 % 256

/-- The WinSock function `ntohl` on the little-endian host. -/
def ntohl (x : Nat) : Nat :=
  htonl x

/-- The helper `htonll` on the little-endian host, where its test
`*reinterpret_cast<const char*>(&num) == num` succeeds: `value >> 32` and
`value & 0xFFFFFFFF` are each passed through `htonl` and recombined as
`(low_part << 32) | high_part`. -/
def htonll (value : Nat) : Nat :=
  let high_part := htonl (value / 2 ^ 32 % 2 ^ 32)
  let low_part := htonl (value % 2 ^ 32)
  (low_part * 2 ^ 32 + high_part) % 2 ^ 64

/-- The helper `ntohll`. -/
def ntohll (value : Nat) : Nat :=
  htonll value

/-- Memory image of an `n`-byte unsigned field holding `v` on the little-endian host, lowest
address first. -/
def bytesOf : Nat → Nat → List Nat
  | 0, _ => []
  | n + 1, v => v % 256 :: bytesOf n (v / 256)

/-- The `n` bytes of `v` in network (big-endian) order. -/
def bigEndian (n v : Nat) : List Nat :=
  (bytesOf n v).reverse
/-! ## The wire structs of message_format.h (packed, fields as unsigned numbers) -/

structure MessageHeader where
  type : Nat
  length : Nat
  sequence : Nat
deriving DecidableEq, Repr

def MessageHeader.toNetworkOrder (m : MessageHeader) : MessageHeader :=
  { m with length := htonl m.length, sequence := htonl m.sequence }

def MessageHeader.toHostOrder (m : MessageHeader) : MessageHeader :=
  { m with length := ntohl m.length, sequence := ntohl m.sequence }

structure AddOrderRequest where
  header : MessageHeader
  orderType : Nat
  side : Nat
  price : Nat
  quantity : Nat
  clientOrderId : Nat
deriving DecidableEq, Repr

def AddOrderRequest.toNetworkOrder (m : AddOrderRequest) : AddOrderRequest :=
  { m with header := m.header.toNetworkOrder, price := htonl m.price,
           quantity := htonl m.quantity, clientOrderId := htonll m.clientOrderId }

def AddOrderRequest.toHostOrder (m : AddOrderRequest) : AddOrderRequest :=
  { m with header := m.header.toHostOrder, price := ntohl m.price,
           quantity := ntohl m.quantity, clientOrderId := ntohll m.clientOrderId }

structure AddOrderResponse where
  header : MessageHeader
  clientOrderId : Nat
  serverOrderId : Nat
  status : Nat
deriving DecidableEq, Repr

def AddOrderResponse.toNetworkOrder (m : AddOrderResponse) : AddOrderResponse :=
  { m with header := m.header.toNetworkOrder, clientOrderId := htonll m.clientOrderId,
           serverOrderId := htonll m.serverOrderId }

def AddOrderResponse.toHostOrder (m : AddOrderResponse) : AddOrderResponse :=
  { m with header := m.header.toHostOrder, clientOrderId := ntohll m.clientOrderId,
           serverOrderId := ntohll m.serverOrderId }

structure CancelOrderRequest where
  header : MessageHeader
  orderId : Nat
deriving DecidableEq, Repr

def CancelOrderRequest.toNetworkOrder (m : CancelOrderRequest) : CancelOrderRequest :=
  { m with header := m.header.toNetworkOrder, orderId := htonll m.orderId }

def CancelOrderRequest.toHostOrder (m : CancelOrderRequest) : CancelOrderRequest :=
  { m with header := m.header.toHostOrder, orderId := ntohll m.orderId }

structure CancelOrderResponse where
  header : MessageHeader
  orderId : Nat
  status : Nat
deriving DecidableEq, Repr

def CancelOrderResponse.toNetworkOrder (m : CancelOrderResponse) : CancelOrderResponse :=
  { m with header := m.header.toNetworkOrder, orderId := htonll m.orderId }

def CancelOrderResponse.toHostOrder (m : CancelOrderResponse) : CancelOrderResponse :=
  { m with header := m.header.toHostOrder, orderId := ntohll m.orderId }

structure ModifyOrderRequest where
  header : MessageHeader
  orderId : Nat
  side : Nat
  price : Nat
  quantity : Nat
deriving DecidableEq, Repr

def ModifyOrderRequest.toNetworkOrder (m : ModifyOrderRequest) : ModifyOrderRequest :=
  { m with header := m.header.toNetworkOrder, orderId := htonll m.orderId,
           price := htonl m.price, quantity := htonl m.quantity }

def ModifyOrderRequest.toHostOrder (m : ModifyOrderRequest) : ModifyOrderRequest :=
  { m with header := m.header.toHostOrder, orderId := ntohll m.orderId,
           price := ntohl m.price, quantity := ntohl m.quantity }

structure TradeNotification where
  header : MessageHeader
  buyOrderId : Nat
  sellOrderId : Nat
  price : Nat
  quantity : Nat
deriving DecidableEq, Repr

def TradeNotification.toNetworkOrder (m : TradeNotification) : TradeNotification :=
  { m with header := m.header.toNetworkOrder, buyOrderId := htonll m.buyOrderId,
           sellOrderId := htonll m.sellOrderId, price := htonl m.price,
           quantity := htonl m.quantity }

def TradeNotification.toHostOrder (m : TradeNotification) : TradeNotification :=
  { m with header := m.header.toHostOrder, buyOrderId := ntohll m.buyOrderId,
           sellOrderId := ntohll m.sellOrderId, price := ntohl m.price,
           quantity := ntohl m.quantity }

structure NetworkLevelInfo where
  price : Nat
  quantity : Nat
deriving DecidableEq, Repr

def NetworkLevelInfo.toNetworkOrder (m : NetworkLevelInfo) : NetworkLevelInfo :=
  { price := htonl m.price, quantity := htonl m.quantity }

def NetworkLevelInfo.toHostOrder (m : NetworkLevelInfo) : NetworkLevelInfo :=
  { price := ntohl m.price, quantity := ntohl m.quantity }

/-- The `MAX_LEVELS`-element arrays are lists; `bidLevelsCount` and `askLevelsCount` are the
two count fields. -/
structure OrderbookStatusResponse where
  header : MessageHeader
  bidLevelsCount : Nat
  askLevelsCount : Nat
  bidLevels : List NetworkLevelInfo
  askLevels : List NetworkLevelInfo
deriving DecidableEq, Repr

/-- The loop `for (uint32_t i = 0; i < n; ++i) levels[i].f();`. -/
def forFirst : Nat → (NetworkLevelInfo → NetworkLevelInfo) → List NetworkLevelInfo →
    List NetworkLevelInfo
  | 0, _, levels => levels
  | _ + 1, _, [] => []
  | n + 1, f, x :: xs => f x :: forFirst n f xs

/-- The method `OrderbookStatusResponse::toNetworkOrder`: the two counts are converted first,
and the loop bounds `i < bidLevelsCount && i < MAX_LEVELS` read the converted fields. -/
def OrderbookStatusResponse.toNetworkOrder (m : OrderbookStatusResponse) :
    OrderbookStatusResponse :=
  let header := m.header.toNetworkOrder
  let bidLevelsCount := htonl m.bidLevelsCount
  let askLevelsCount := htonl m.askLevelsCount
  { header := header, bidLevelsCount := bidLevelsCount, askLevelsCount := askLevelsCount,
    bidLevels := forFirst (min bidLevelsCount MAX_LEVELS) NetworkLevelInfo.toNetworkOrder
      m.bidLevels,
    askLevels := forFirst (min askLevelsCount MAX_LEVELS) NetworkLevelInfo.toNetworkOrder
      m.askLevels }

/-- The method `OrderbookStatusResponse::toHostOrder`. -/
def OrderbookStatusResponse.toHostOrder (m : OrderbookStatusResponse) :
    OrderbookStatusResponse :=
  let header := m.header.toHostOrder
  let bidLevelsCount := ntohl m.bidLevelsCount
  let askLevelsCount := ntohl m.askLevelsCount
  { header := header, bidLevelsCount := bidLevelsCount, askLevelsCount := askLevelsCount,
    bidLevels := forFirst (min bidLevelsCount MAX_LEVELS) NetworkLevelInfo.toHostOrder
      m.bidLevels,
    askLevels := forFirst (min askLevelsCount MAX_LEVELS) NetworkLevelInfo.toHostOrder
      m.askLevels }

/-- The values are 32-bit. -/
def AllU32 (fields : List Nat) : Prop :=
  ∀ x ∈ fields, x < 2 ^ 32

/-- The values are 64-bit. -/
def AllU64 (fields : List Nat) : Prop :=
  ∀ x ∈ fields, x < 2 ^ 64

/-- The `uint32_t` fields of each message, header first. -/
def MessageHeader.u32 (m : MessageHeader) : List Nat := [m.length, m.sequence]

def AddOrderRequest.u32 (m : AddOrderRequest) : List Nat := m.header.u32 ++ [m.price, m.quantity]

def AddOrderRequest.u64 (m : AddOrderRequest) : List Nat := [m.clientOrderId]

def AddOrderResponse.u32 (m : AddOrderResponse) : List Nat := m.header.u32

def AddOrderResponse.u64 (m : AddOrderResponse) : List Nat := [m.clientOrderId, m.serverOrderId]

def CancelOrderRequest.u32 (m : CancelOrderRequest) : List Nat := m.header.u32

def CancelOrderRequest.u64 (m : CancelOrderRequest) : List Nat := [m.orderId]

def CancelOrderResponse.u32 (m : CancelOrderResponse) : List Nat := m.header.u32

def CancelOrderResponse.u64 (m : CancelOrderResponse) : List Nat := [m.orderId]

def ModifyOrderRequest.u32 (m : ModifyOrderRequest) : List Nat :=
  m.header.u32 ++ [m.price, m.quantity]

def ModifyOrderRequest.u64 (m : ModifyOrderRequest) : List Nat := [m.orderId]

def TradeNotification.u32 (m : TradeNotification) : List Nat :=
  m.header.u32 ++ [m.price, m.quantity]

def TradeNotification.u64 (m : TradeNotification) : List Nat := [m.buyOrderId, m.sellOrderId]

def NetworkLevelInfo.u32 (m : NetworkLevelInfo) : List Nat := [m.price, m.quantity]

/-- The specified `uint32_t` fields of an `OrderbookStatusResponse` with the given counts:
header, the two counts and the first `bidCount` / `askCount` entries. -/
def OrderbookStatusResponse.u32 (m : OrderbookStatusResponse) (bidCount askCount : Nat) :
    List Nat :=
  m.header.u32 ++ [m.bidLevelsCount, m.askLevelsCount] ++
    ((m.bidLevels.take bidCount).map NetworkLevelInfo.u32).flatten ++
    ((m.askLevels.take askCount).map NetworkLevelInfo.u32).flatten

/-- An order-book status reply with two bid levels and one ask level, the other array
entries zero. -/
def sampleStatus : OrderbookStatusResponse :=
  { header := { type := 23, length := 177, sequence := 7 },
    bidLevelsCount := 2, askLevelsCount := 1,
    bidLevels := [{ price := 100, quantity := 10 }, { price := 99, quantity := 5 }] ++
      List.replicate 8 { price := 0, quantity := 0 },
    askLevels := [{ price := 101, quantity := 4 }] ++
      List.replicate 9 { price := 0, quantity := 0 } }
/-! ## The session handler of server.cpp

A reassembly buffer or a frame is the list of its bytes.  What the handler passes to `send`
is recorded as the memory image of the object and the byte count given.  Reads through a
`reinterpret_cast` of the buffer beyond its end are undefined behaviour (`fault`). -/

abbrev Bytes := List Nat

/-- Value of the `n`-byte unsigned field found at the start of `memory` on the little-endian
host. -/
def readLE : Nat → Bytes → Nat
  | 0, _ => 0
  | _ + 1, [] => 0
  | n + 1, b :: bs => b + 256 * readLE n bs

/-- The `n`-byte field at byte offset `off` of a packed struct laid over `data`. -/
def field (off n : Nat) (data : Bytes) : Nat :=
  readLE n (data.drop off)

/-- The numeric codes of `enum class MessageType`. -/
def REQ_QUIT : Nat := 0x01
def REQ_ECHO : Nat := 0x02
def RSP_ECHO : Nat := 0x03
def REQ_LISTUSERS : Nat := 0x04
def RSP_LISTUSERS : Nat := 0x05
def REQ_ADD_ORDER : Nat := 0x10
def RSP_ADD_ORDER : Nat := 0x11
def REQ_CANCEL_ORDER : Nat := 0x12
def RSP_CANCEL_ORDER : Nat := 0x13
def REQ_MODIFY_ORDER : Nat := 0x14
def RSP_MODIFY_ORDER : Nat := 0x15
def REQ_ORDERBOOK_STATUS : Nat := 0x16
def RSP_ORDERBOOK_STATUS : Nat := 0x17
def NOTIFY_TRADE : Nat := 0x18
def CMD_ERROR : Nat := 0x30

/-- The values of `sizeof` under `#pragma pack(push, 1)`: the sum of the field sizes. -/
def sizeofMessageHeader : Nat := 1 + 4 + 4
def sizeofAddOrderRequest : Nat := sizeofMessageHeader + (1 + 1 + 4 + 4 + 8)
def sizeofAddOrderResponse : Nat := sizeofMessageHeader + (8 + 8 + 1)
def sizeofCancelOrderRequest : Nat := sizeofMessageHeader + 8
def sizeofCancelOrderResponse : Nat := sizeofMessageHeader + (8 + 1)
def sizeofModifyOrderRequest : Nat := sizeofMessageHeader + (8 + 1 + 4 + 4)
def sizeofOrderbookStatusResponse : Nat :=
  sizeofMessageHeader + (4 + 4 + MAX_LEVELS * 8 + MAX_LEVELS * 8)
def sizeofEchoRequest : Nat := sizeofMessageHeader + 256
def sizeofEchoResponse : Nat := sizeofMessageHeader + 256

/-- Memory image of a `MessageHeader`. -/
def MessageHeader.bytes (m : MessageHeader) : Bytes :=
  bytesOf 1 m.type ++ bytesOf 4 m.length ++ bytesOf 4 m.sequence

/-- The header seen through `reinterpret_cast<MessageHeader*>(data)`. -/
def MessageHeader.ofBytes (data : Bytes) : MessageHeader :=
  { type := field 0 1 data, length := field 1 4 data, sequence := field 5 4 data }

def AddOrderRequest.bytes (m : AddOrderRequest) : Bytes :=
  m.header.bytes ++ bytesOf 1 m.orderType ++ bytesOf 1 m.side ++ bytesOf 4 m.price ++
    bytesOf 4 m.quantity ++ bytesOf 8 m.clientOrderId

def AddOrderRequest.ofBytes (data : Bytes) : AddOrderRequest :=
  { header := MessageHeader.ofBytes data, orderType := field 9 1 data, side := field 10 1 data,
    price := field 11 4 data, quantity := field 15 4 data, clientOrderId := field 19 8 data }

def AddOrderResponse.bytes (m : AddOrderResponse) : Bytes :=
  m.header.bytes ++ bytesOf 8 m.clientOrderId ++ bytesOf 8 m.serverOrderId ++ bytesOf 1 m.status

def CancelOrderRequest.bytes (m : CancelOrderRequest) : Bytes :=
  m.header.bytes ++ bytesOf 8 m.orderId

def CancelOrderRequest.ofBytes (data : Bytes) : CancelOrderRequest :=
  { header := MessageHeader.ofBytes data, orderId := field 9 8 data }

def CancelOrderResponse.bytes (m : CancelOrderResponse) : Bytes :=
  m.header.bytes ++ bytesOf 8 m.orderId ++ bytesOf 1 m.status

def ModifyOrderRequest.bytes (m : ModifyOrderRequest) : Bytes :=
  m.header.bytes ++ bytesOf 8 m.orderId ++ bytesOf 1 m.side ++ bytesOf 4 m.price ++
    bytesOf 4 m.quantity

def ModifyOrderRequest.ofBytes (data : Bytes) : ModifyOrderRequest :=
  { header := MessageHeader.ofBytes data, orderId := field 9 8 data, side := field 17 1 data,
    price := field 18 4 data, quantity := field 22 4 data }

def NetworkLevelInfo.bytes (m : NetworkLevelInfo) : Bytes :=
  bytesOf 4 m.price ++ bytesOf 4 m.quantity

def OrderbookStatusResponse.bytes (m : OrderbookStatusResponse) : Bytes :=
  m.header.bytes ++ bytesOf 4 m.bidLevelsCount ++ bytesOf 4 m.askLevelsCount ++
    (m.bidLevels.map NetworkLevelInfo.bytes).flatten ++
    (m.askLevels.map NetworkLevelInfo.bytes).flatten

/-- One call of `send(clientSocket, data, size, 0)`: the memory image of the object whose
address is passed, and the byte count passed. -/
structure Sent where
  data : Bytes
  size : Nat
deriving DecidableEq, Repr

/-- The bytes a call of `send` puts on the wire. -/
def Sent.wire (s : Sent) : Bytes :=
  s.data.take s.size

/-- What a session handler works on: the engine, the size of the client table, and the calls
of `send` made on the socket so far, oldest first. -/
structure Session where
  orderbook_ : Orderbook
  clients : Nat
  sent : List Sent
deriving DecidableEq, Repr

/-- The conversion `static_cast<OrderType>(request->orderType)`.  The engine only ever
compares the type with `FillandKill` (code 1). -/
def orderTypeOfCode (code : Nat) : OrderType :=
  if code = 1 then OrderType.FillandKill else OrderType.GoodTillCancel

/-- The conversion `static_cast<Side>(request->side)` for the two codes of the enum. -/
def sideOfCode (code : Nat) : Side :=
  if code = 0 then Side.Buy else Side.Sell

/-- Conversion of a wire `uint32_t` to the signed 32-bit `Price`. -/
def priceOfU32 (x : Nat) : Price :=
  if x % 2 ^ 32 < 2 ^ 31 then (x % 2 ^ 32 : Nat) else (x % 2 ^ 32 : Nat) - 2 ^ 32

/-- Conversion of a `Price` to a wire `uint32_t`. -/
def u32OfPrice (p : Price) : Nat :=
  (p % 2 ^ 32).toNat

/-- The call `std::strncpy(dest, src, n)` reading `src` from the buffer: copy up to the first
NUL, pad with NUL; `none` when the read runs off the end of the buffer. -/
def strncpy : Nat → Bytes → Option Bytes
  | 0, _ => some []
  | _ + 1, [] => none
  | n + 1, c :: cs =>
    if c = 0 then some (List.replicate (n + 1) 0) else (strncpy n cs).map (fun r => c :: r)

/-- The method `handleEchoRequest`. -/
def handleEchoRequest (s : Session) (data : Bytes) : Result (Session × Bytes) :=
  if data.length < sizeofMessageHeader then .fault .undefined_behaviour
  else
    match strncpy 256 (data.drop sizeofMessageHeader) with
    | none => .fault .undefined_behaviour
    | some message =>
      let request := MessageHeader.ofBytes data
      let header : MessageHeader :=
        { type := RSP_ECHO, length := sizeofEchoResponse, sequence := request.sequence }
      .ok ({ s with sent := s.sent ++
              [{ data := header.toNetworkOrder.bytes ++ message, size := sizeofEchoResponse }] },
           data)

/-- The method `handleQuitRequest`. -/
def handleQuitRequest (s : Session) (data : Bytes) : Result (Session × Bytes) :=
  let response : MessageHeader :=
    { type := RSP_ECHO, length := sizeofMessageHeader, sequence := 0 }
  .ok ({ s with sent := s.sent ++
          [{ data := response.toNetworkOrder.bytes, size := sizeofMessageHeader }] }, data)

/-- The text `sprintf_s` writes in `handleListUsersRequest`, with its terminating NUL. -/
def connectedClientsText (n : Nat) : Bytes :=
  ("Connected clients: ".toList ++ Nat.toDigits 10 n).map Char.toNat ++ [0]

/-- The method `handleListUsersRequest`: a zeroed 512-byte buffer holding the header, the
client count and the text; `header->toNetworkOrder()` is applied in place and the byte count
given to `send` is `header->length` read after that. -/
def handleListUsersRequest (s : Session) (data : Bytes) : Result (Session × Bytes) :=
  let header : MessageHeader :=
    { type := RSP_LISTUSERS, length := sizeofMessageHeader + 4 + 256, sequence := 0 }
  let numClients := htonl (s.clients % 2 ^ 32)
  let message := connectedClientsText (ntohl numClients)
  let content := header.toNetworkOrder.bytes ++ bytesOf 4 numClients ++ message
  let responseBuffer := content ++ List.replicate (512 - content.length) 0
  .ok ({ s with sent := s.sent ++
          [{ data := responseBuffer, size := header.toNetworkOrder.length }] }, data)

/-- The method `handleUnknownRequest`; `sequence` is `header->sequence` as read from the
buffer. -/
def handleUnknownRequest (s : Session) (sequence : Nat) (data : Bytes) :
    Result (Session × Bytes) :=
  let response : MessageHeader :=
    { type := CMD_ERROR, length := sizeofMessageHeader, sequence := sequence }
  .ok ({ s with sent := s.sent ++
          [{ data := response.toNetworkOrder.bytes, size := sizeofMessageHeader }] }, data)

/-- The method `handleAddOrderRequest`.  `request->toHostOrder()` rewrites the first
`sizeof(AddOrderRequest)` bytes of the buffer in place.  The body of
`sendTradeNotification` is not part of the sources at hand: the call of `send` it makes for a
trade is the parameter `notify`. -/
def handleAddOrderRequest (notify : Trade → Sent) (fuel : Nat) (s : Session) (data : Bytes) :
    Result (Session × Bytes) :=
  if data.length < sizeofAddOrderRequest then .fault .undefined_behaviour
  else
    let request := (AddOrderRequest.ofBytes data).toHostOrder
    let data1 := request.bytes ++ data.drop sizeofAddOrderRequest
    let order := Order.new (orderTypeOfCode request.orderType) request.clientOrderId
      (sideOfCode request.side) (priceOfU32 request.price) request.quantity
    (s.orderbook_.AddOrder fuel order).bind fun r =>
      let response : AddOrderResponse :=
        { header := { type := RSP_ADD_ORDER, length := sizeofAddOrderResponse,
                      sequence := request.header.sequence },
          clientOrderId := request.clientOrderId, serverOrderId := request.clientOrderId,
          status := 0 }
      .ok ({ s with orderbook_ := r.2,
                    sent := s.sent ++
                      [{ data := response.toNetworkOrder.bytes,
                         size := sizeofAddOrderResponse }] ++ r.1.map notify }, data1)

/-- The method `handleCancelOrderRequest`. -/
def handleCancelOrderRequest (s : Session) (data : Bytes) : Result (Session × Bytes) :=
  if data.length < sizeofCancelOrderRequest then .fault .undefined_behaviour
  else
    let request := (CancelOrderRequest.ofBytes data).toHostOrder
    let data1 := request.bytes ++ data.drop sizeofCancelOrderRequest
    (s.orderbook_.CancelOrder request.orderId).bind fun b =>
      let response : CancelOrderResponse :=
        { header := { type := RSP_CANCEL_ORDER, length := sizeofCancelOrderResponse,
                      sequence := request.header.sequence },
          orderId := request.orderId, status := 0 }
      .ok ({ s with orderbook_ := b,
                    sent := s.sent ++
                      [{ data := response.toNetworkOrder.bytes,
                         size := sizeofCancelOrderResponse }] }, data1)

/-- The method `handleModifyOrderRequest`: the response is the converted request with its
type replaced. -/
def handleModifyOrderRequest (notify : Trade → Sent) (fuel : Nat) (s : Session) (data : Bytes) :
    Result (Session × Bytes) :=
  if data.length < sizeofModifyOrderRequest then .fault .undefined_behaviour
  else
    let request := (ModifyOrderRequest.ofBytes data).toHostOrder
    let data1 := request.bytes ++ data.drop sizeofModifyOrderRequest
    let orderModify : OrderModify :=
      { orderID_ := request.orderId, price_ := priceOfU32 request.price,
        side_ := sideOfCode request.side, quantity_ := request.quantity }
    (s.orderbook_.MatchOrder fuel orderModify).bind fun r =>
      let response : ModifyOrderRequest :=
        { request with header := { request.header with type := RSP_MODIFY_ORDER } }
      .ok ({ s with orderbook_ := r.2,
                    sent := s.sent ++
                      [{ data := response.toNetworkOrder.bytes,
                         size := sizeofModifyOrderRequest }] ++ r.1.map notify }, data1)

/-- The level array of a status response: the first `count` entries copied from the
snapshot.  The remaining entries are uninitialised in the source; they are 0 here and no
statement depends on them. -/
def statusLevels (infos : LevelInfos) (count : Nat) : List NetworkLevelInfo :=
  ((infos.take count).map fun i =>
      ({ price := u32OfPrice i.price_, quantity := i.quantity_ % 2 ^ 32 } : NetworkLevelInfo)) ++
    List.replicate (MAX_LEVELS - count) { price := 0, quantity := 0 }

/-- The method `handleOrderbookStatusRequest`. -/
def handleOrderbookStatusRequest (s : Session) (data : Bytes) : Result (Session × Bytes) :=
  let levelInfos := s.orderbook_.GetOrderInfos
  let bidLevelsCount := min (levelInfos.bids_.length % 2 ^ 32) MAX_LEVELS
  let askLevelsCount := min (levelInfos.asks_.length % 2 ^ 32) MAX_LEVELS
  let response : OrderbookStatusResponse :=
    { header := { type := RSP_ORDERBOOK_STATUS, length := sizeofOrderbookStatusResponse,
                  sequence := 0 },
      bidLevelsCount := bidLevelsCount, askLevelsCount := askLevelsCount,
      bidLevels := statusLevels levelInfos.bids_ bidLevelsCount,
      askLevels := statusLevels levelInfos.asks_ askLevelsCount }
  .ok ({ s with sent := s.sent ++
          [{ data := response.toNetworkOrder.bytes, size := sizeofOrderbookStatusResponse }] },
       data)

/-- The method `processMessage`: dispatch on `header->type`, the header being the start of
the buffer as received. -/
def processMessage (notify : Trade → Sent) (fuel : Nat) (s : Session) (data : Bytes) :
    Result (Session × Bytes) :=
  let header := MessageHeader.ofBytes data
  if header.type = REQ_ECHO then handleEchoRequest s data
  else if header.type = REQ_QUIT then handleQuitRequest s data
  else if header.type = REQ_LISTUSERS then handleListUsersRequest s data
  else if header.type = REQ_ADD_ORDER then handleAddOrderRequest notify fuel s data
  else if header.type = REQ_CANCEL_ORDER then handleCancelOrderRequest s data
  else if header.type = REQ_MODIFY_ORDER then handleModifyOrderRequest notify fuel s data
  else if header.type = REQ_ORDERBOOK_STATUS then handleOrderbookStatusRequest s data
  else handleUnknownRequest s header.sequence data

/-- The method `processMessageBuffer`, its loop bounded by `fuel` iterations (the same bound
is handed to the engine calls). -/
def processMessageBuffer (notify : Trade → Sent) : Nat → Session → Bytes →
    Result (Session × Bytes)
  | 0, _, _ => .outOfFuel
  | fuel + 1, s, buffer =>
    if buffer.length ≥ sizeofMessageHeader then
      let header := (MessageHeader.ofBytes buffer).toHostOrder
      if buffer.length < header.length then .ok (s, buffer)
      else
        (processMessage notify (fuel + 1) s buffer).bind fun r =>
          processMessageBuffer notify fuel r.1 (r.2.drop header.length)
    else .ok (s, buffer)

/-- Every element is a byte. -/
def AllBytes (data : Bytes) : Prop :=
  ∀ x ∈ data, x < 256

/-- A notification of fixed shape, for the concrete runs. -/
def noNotify : Trade → Sent :=
  fun _ => { data := [], size := 0 }

/-- A session on the empty book with one client and nothing sent. -/
def freshSession : Session :=
  { orderbook_ := Orderbook.empty, clients := 1, sent := [] }

/-- A Quit frame: type 0x01, length 9, sequence 7, as received from the wire. -/
def quitFrame : Bytes := [1, 0, 0, 0, 9, 0, 0, 0, 7]

/-- The order `handleAddOrderRequest` builds from the buffer. -/
def orderOfRequest (data : Bytes) : Order :=
  Order.new (orderTypeOfCode (AddOrderRequest.ofBytes data).toHostOrder.orderType)
    (AddOrderRequest.ofBytes data).toHostOrder.clientOrderId
    (sideOfCode (AddOrderRequest.ofBytes data).toHostOrder.side)
    (priceOfU32 (AddOrderRequest.ofBytes data).toHostOrder.price)
    (AddOrderRequest.ofBytes data).toHostOrder.quantity

/-- The modification `handleModifyOrderRequest` builds from the buffer. -/
def modifyOfRequest (data : Bytes) : OrderModify :=
  { orderID_ := (ModifyOrderRequest.ofBytes data).toHostOrder.orderId,
    price_ := priceOfU32 (ModifyOrderRequest.ofBytes data).toHostOrder.price,
    side_ := sideOfCode (ModifyOrderRequest.ofBytes data).toHostOrder.side,
    quantity_ := (ModifyOrderRequest.ofBytes data).toHostOrder.quantity }

/-- The call of `send` for the `AddOrderResponse` to the request in the buffer. -/
def addOrderResponseTo (data : Bytes) : Sent :=
  { data := (({ header := { type := RSP_ADD_ORDER, length := sizeofAddOrderResponse,
                            sequence := (AddOrderRequest.ofBytes data).toHostOrder.header.sequence },
                clientOrderId := (AddOrderRequest.ofBytes data).toHostOrder.clientOrderId,
                serverOrderId := (AddOrderRequest.ofBytes data).toHostOrder.clientOrderId,
                status := 0 } : AddOrderResponse).toNetworkOrder).bytes,
    size := sizeofAddOrderResponse }

/-- The call of `send` for the `CancelOrderResponse` to the request in the buffer. -/
def cancelOrderResponseTo (data : Bytes) : Sent :=
  { data := (({ header := { type := RSP_CANCEL_ORDER, length := sizeofCancelOrderResponse,
                            sequence :=
                              (CancelOrderRequest.ofBytes data).toHostOrder.header.sequence },
                orderId := (CancelOrderRequest.ofBytes data).toHostOrder.orderId,
                status := 0 } : CancelOrderResponse).toNetworkOrder).bytes,
    size := sizeofCancelOrderResponse }

/-- The call of `send` for the response to the `ModifyOrderRequest` in the buffer. -/
def modifyOrderResponseTo (data : Bytes) : Sent :=
  { data := (({ (ModifyOrderRequest.ofBytes data).toHostOrder with
                header := { (ModifyOrderRequest.ofBytes data).toHostOrder.header with
                            type := RSP_MODIFY_ORDER } } : ModifyOrderRequest).toNetworkOrder).bytes,
    size := sizeofModifyOrderRequest }

/-- A CancelOrder frame for order 5: type 0x12, length 17, sequence 7, as received. -/
def cancelFrame : Bytes := [0x12, 0, 0, 0, 17, 0, 0, 0, 7, 0, 0, 0, 0, 0, 0, 0, 5]

/-- A frame with the unassigned type code 0x7f, length 9, sequence 7, as received. -/
def unknownFrame : Bytes := [0x7f, 0, 0, 0, 9, 0, 0, 0, 7]

/-- The call of `send` made by `handleListUsersRequest`. -/
def listUsersResponse (s : Session) : Sent :=
  { data :=
      (({ type := RSP_LISTUSERS, length := sizeofMessageHeader + 4 + 256,
          sequence := 0 } : MessageHeader).toNetworkOrder).bytes ++
        bytesOf 4 (htonl (s.clients % 2 ^ 32)) ++
        connectedClientsText (ntohl (htonl (s.clients % 2 ^ 32))) ++
        List.replicate
          (512 - ((({ type := RSP_LISTUSERS, length := sizeofMessageHeader + 4 + 256,
                      sequence := 0 } : MessageHeader).toNetworkOrder).bytes ++
                    bytesOf 4 (htonl (s.clients % 2 ^ 32)) ++
                    connectedClientsText (ntohl (htonl (s.clients % 2 ^ 32)))).length) 0,
    size := htonl (sizeofMessageHeader + 4 + 256) }

/-- The call of `send` made by `handleOrderbookStatusRequest`. -/
def statusResponse (s : Session) : Sent :=
  { data :=
      (({ header := { type := RSP_ORDERBOOK_STATUS, length := sizeofOrderbookStatusResponse,
                      sequence := 0 },
          bidLevelsCount := min (s.orderbook_.GetOrderInfos.bids_.length % 2 ^ 32) MAX_LEVELS,
          askLevelsCount := min (s.orderbook_.GetOrderInfos.asks_.length % 2 ^ 32) MAX_LEVELS,
          bidLevels := statusLevels s.orderbook_.GetOrderInfos.bids_
            (min (s.orderbook_.GetOrderInfos.bids_.length % 2 ^ 32) MAX_LEVELS),
          askLevels := statusLevels s.orderbook_.GetOrderInfos.asks_
            (min (s.orderbook_.GetOrderInfos.asks_.length % 2 ^ 32) MAX_LEVELS) } :
        OrderbookStatusResponse).toNetworkOrder).bytes,
    size := sizeofOrderbookStatusResponse }

/-- A ListUsers request frame: type 0x04, length 9, sequence 7. -/
def listUsersFrame : Bytes := [4, 0, 0, 0, 9, 0, 0, 0, 7]

/-- A ModifyOrder frame for order 5 (Buy, price 100, quantity 10) whose header announces 30
bytes, four more than `sizeof(ModifyOrderRequest)`, with its four trailing bytes. -/
def longModifyFrame : Bytes :=
  [0x14, 0, 0, 0, 30, 0, 0, 0, 7, 0, 0, 0, 0, 0, 0, 0, 5, 0, 0, 0, 0, 100, 0, 0, 0, 10,
   1, 2, 3, 4]

/-- A session whose book holds one GoodTillCancel buy, id 5, at 100. -/
def quotingSession : Session :=
  { orderbook_ := bookOf 100 [mkOrder .GoodTillCancel .Buy 100 3 5] 0 [], clients := 1,
    sent := [] }
/-- A state of the inner loop: a buy of 10 at 100 (id 1)
against a sell of 4 at 90 (id 2), both indexed, no trade yet. -/
def stepState : InnerState :=
  { bids := [mkOrder .GoodTillCancel .Buy 100 10 1],
    asks := [mkOrder .GoodTillCancel .Sell 90 4 2],
    orders_ := [(1, { order_ := mkOrder .GoodTillCancel .Buy 100 10 1 }),
                (2, { order_ := mkOrder .GoodTillCancel .Sell 90 4 2 })],
    trades := [] }

/-- The state after one pass from `stepState`: the buy keeps 6 of its 10 at the front of its
level, the sell is gone from its level and from the index, one trade of 4 is recorded. -/
def stepStateAfter : InnerState :=
  { bids := [{ (mkOrder .GoodTillCancel .Buy 100 10 1) with remainingQuantity_ := 6 }],
    asks := [],
    orders_ := [(1, { order_ := { (mkOrder .GoodTillCancel .Buy 100 10 1) with
                                  remainingQuantity_ := 6 } })],
    trades := [{ bidTrade_ := { orderID_ := 1, price_ := 100, quantity_ := 4 },
                 askTrade_ := { orderID_ := 2, price_ := 90, quantity_ := 4 } }] }

/-- The book after `add(GTC, Buy, 100, 10, id=1)` on a fresh book. -/
def oneBid : Orderbook :=
  bookOf 100 [mkOrder .GoodTillCancel .Buy 100 10 1] 0 []

/-- An AddOrder frame (GoodTillCancel, Sell, price 100, quantity 3, id 6), sequence 7. -/
def crossingAddFrame : Bytes :=
  [0x10, 0, 0, 0, 27, 0, 0, 0, 7, 0, 1, 0, 0, 0, 100, 0, 0, 0, 3, 0, 0, 0, 0, 0, 0, 0, 6]

/-! ## Auxiliary facts -/

@[simp] theorem Result.bind_ok {α β : Type} (a : α) (k : α → Result β) :
    (Result.ok a).bind k = k a := rfl

@[simp] theorem Result.bind_fault {α β : Type} (f : Fault) (k : α → Result β) :
    (Result.fault f : Result α).bind k = .fault f := rfl

@[simp] theorem Result.bind_outOfFuel {α β : Type} (k : α → Result β) :
    (Result.outOfFuel : Result α).bind k = .outOfFuel := rfl

/-- A pass of the inner loop returns and pops at least one of the two fronts. -/
theorem innerBody_ok (bid : Order) (bids : OrderPointers) (ask : Order) (asks : OrderPointers)
    (idx : Index) (ts : Trades) :
    ∃ s, innerBody bid bids ask asks idx ts = .ok s ∧
      s.bids.length + s.asks.length < (bid :: bids).length + (ask :: asks).length := by
  have h1 : ¬ (min bid.remainingQuantity_ ask.remainingQuantity_ > bid.remainingQuantity_) :=
    not_lt.mpr (Nat.min_le_left _ _)
  have h2 : ¬ (min bid.remainingQuantity_ ask.remainingQuantity_ > ask.remainingQuantity_) :=
    not_lt.mpr (Nat.min_le_right _ _)
  simp only [innerBody, Order.Fill, if_neg h1, if_neg h2, Result.bind_ok]
  refine ⟨_, rfl, ?_⟩
  simp only [Order.isFilled, beq_iff_eq, List.length_cons]
  by_cases hle : bid.remainingQuantity_ ≤ ask.remainingQuantity_
  · have hb : bid.remainingQuantity_ - min bid.remainingQuantity_ ask.remainingQuantity_ = 0 := by
      rw [Nat.min_eq_left hle, Nat.sub_self]
    rw [if_pos hb]
    split <;> (try simp only [List.length_cons]) <;> omega
  · have ha : ask.remainingQuantity_ - min bid.remainingQuantity_ ask.remainingQuantity_ = 0 := by
      rw [Nat.min_eq_right (Nat.le_of_not_le hle), Nat.sub_self]
    rw [if_pos ha]
    split <;> (try simp only [List.length_cons]) <;> omega

/-- With as many passes as there are orders in the two levels the inner loop returns. -/
theorem innerLoopN_returns (n : Nat) :
    ∀ s : InnerState, s.bids.length + s.asks.length ≤ n → ∃ s1, innerLoopN n s = .ok s1 := by
  induction n with
  | zero =>
    intro s hs
    obtain ⟨bids, asks, idx, ts⟩ := s
    cases bids with
    | nil => exact ⟨{ bids := [], asks := asks, orders_ := idx, trades := ts }, by simp [innerLoopN]⟩
    | cons b bs => simp at hs
  | succ n ih =>
    intro s hs
    obtain ⟨bids, asks, idx, ts⟩ := s
    cases bids with
    | nil => exact ⟨{ bids := [], asks := asks, orders_ := idx, trades := ts }, by simp [innerLoopN]⟩
    | cons bid bids =>
      cases asks with
      | nil =>
        exact ⟨{ bids := bid :: bids, asks := [], orders_ := idx, trades := ts },
          by simp [innerLoopN]⟩
      | cons ask asks =>
        obtain ⟨s1, hs1, hlt⟩ := innerBody_ok bid bids ask asks idx ts
        simp only [innerLoopN, hs1, Result.bind_ok]
        apply ih
        simp only [List.length_cons] at hs hlt
        omega

theorem innerLoop_returns (s : InnerState) : ∃ s1, innerLoop s = .ok s1 :=
  innerLoopN_returns _ s (le_refl _)

/-- Once the two best levels are at crossing prices the outer loop never leaves: the inner
loop does not touch the keys of the two maps. -/
theorem matchLoop_crossed (fuel : Nat) :
    ∀ (bidPrice askPrice : Price) (bids asks : OrderPointers) (bidsRest asksRest : Levels)
      (idx : Index) (ts : Trades), ¬ bidPrice < askPrice →
      matchLoop fuel { bids_ := (bidPrice, bids) :: bidsRest, asks_ := (askPrice, asks) :: asksRest,
                       orders_ := idx } ts = .outOfFuel := by
  induction fuel with
  | zero => intros; rfl
  | succ n ih =>
    intro bidPrice askPrice bids asks bidsRest asksRest idx ts hx
    obtain ⟨s1, hs1⟩ := innerLoop_returns
      { bids := bids, asks := asks, orders_ := idx, trades := ts }
    simp only [matchLoop, if_neg hx, hs1, Result.bind_ok]
    exact ih _ _ _ _ _ _ _ _ hx

/-- The outer loop leaves at once, with nothing matched, when the book is uncrossed. -/
theorem matchLoop_uncrossed (fuel : Nat) (b : Orderbook) (ts : Trades) (h : b.Uncrossed) :
    matchLoop (fuel + 1) b ts = .ok (b, ts) := by
  obtain ⟨bids, asks, idx⟩ := b
  cases bids with
  | nil => simp [matchLoop]
  | cons x xs =>
    cases asks with
    | nil => simp [matchLoop]
    | cons y ys =>
      obtain ⟨bp, bl⟩ := x
      obtain ⟨ap, al⟩ := y
      have : bp < ap := h bp ap rfl rfl
      simp [matchLoop, this]

/-- On a crossed book `MatchOrders` is still in its outer loop after any number of
iterations. -/
theorem MatchOrders_crossed (fuel : Nat) (bidPrice askPrice : Price) (bids asks : OrderPointers)
    (bidsRest asksRest : Levels) (idx : Index) (h : ¬ bidPrice < askPrice) :
    Orderbook.MatchOrders fuel
      { bids_ := (bidPrice, bids) :: bidsRest, asks_ := (askPrice, asks) :: asksRest,
        orders_ := idx } = .outOfFuel := by
  simp [Orderbook.MatchOrders, matchLoop_crossed fuel _ _ _ _ _ _ _ _ h]

theorem cleanupBids_topOK (b : Orderbook) (h : TopOK b.bids_) : cleanupBids b = .ok b := by
  obtain ⟨bids, asks, idx⟩ := b
  match bids, h with
  | [], _ => rfl
  | (_, o :: _) :: _, h => simp only [cleanupBids]; rw [if_neg h]

theorem cleanupAsks_topOK (b : Orderbook) (h : TopOK b.asks_) : cleanupAsks b = .ok b := by
  obtain ⟨bids, asks, idx⟩ := b
  match asks, h with
  | [], _ => rfl
  | (_, o :: _) :: _, h => simp only [cleanupAsks]; rw [if_neg h]

theorem topOK_of (m : Levels) (hne : ∀ e ∈ m, e.2 ≠ [])
    (htop : ∀ o, topOrder m = some o → o.orderType_ ≠ OrderType.FillandKill) : TopOK m := by
  match m with
  | [] => trivial
  | (k, []) :: rest => exact absurd rfl (hne (k, []) (List.mem_cons_self _ _))
  | (_, o :: _) :: _ => exact htop o rfl

theorem topOK_pushBackAt (before : Price → Price → Bool) (m : Levels) (price : Price)
    (order : Order) (h : TopOK m) (ho : order.orderType_ ≠ OrderType.FillandKill) :
    TopOK (pushBackAt before m price order) := by
  match m, h with
  | [], _ => exact ho
  | (k, o :: os) :: rest, h =>
    simp only [pushBackAt]
    split
    · exact h
    · split
      · exact ho
      · exact h

/-- After `map[price].push_back(order)` the first key is the new price or the old first key. -/
theorem bestPrice_pushBackAt (before : Price → Price → Bool) (m : Levels) (price : Price)
    (order : Order) :
    bestPrice (pushBackAt before m price order) = some price ∨
      bestPrice (pushBackAt before m price order) = bestPrice m := by
  match m with
  | [] => left; rfl
  | (k, l) :: rest =>
    simp only [pushBackAt]
    split
    · right; rfl
    · split
      · left; rfl
      · right; rfl

theorem uncrossed_insertOrder (b : Orderbook) (order : Order) (hu : b.Uncrossed)
    (hn : b.NoCross order.side_ order.price_) : (b.insertOrder order).Uncrossed := by
  intro bp ap hb ha
  unfold Orderbook.insertOrder at hb ha
  cases hs : order.side_ with
  | Buy =>
    rw [hs] at hn
    simp only [hs, if_true] at hb ha
    rcases bestPrice_pushBackAt bidBefore b.bids_ order.price_ order with h | h
    · rw [h] at hb
      cases hb
      exact hn ap ha
    · rw [h] at hb
      exact hu bp ap hb ha
  | Sell =>
    rw [hs] at hn
    have hne : ¬ (Side.Sell = Side.Buy) := by decide
    simp only [hs, if_neg hne] at hb ha
    rcases bestPrice_pushBackAt askBefore b.asks_ order.price_ order with h | h
    · rw [h] at ha
      cases ha
      exact hn bp hb
    · rw [h] at ha
      exact hu bp ap hb ha

theorem pushBackAt_filter (before : Price → Price → Bool) (m : Levels) (price : Price)
    (order : Order) :
    (pushBackAt before m price order).filter (fun e => decide (e.1 ≠ price)) =
      m.filter (fun e => decide (e.1 ≠ price)) := by
  induction m with
  | nil => simp [pushBackAt]
  | cons e rest ih =>
    obtain ⟨k, l⟩ := e
    simp only [pushBackAt]
    split
    · next hk => simp [List.filter_cons, hk]
    · next hk =>
      split
      · simp [List.filter_cons]
      · simp only [List.filter_cons, ih]

theorem mapAt_none_of_forall_ne (m : Levels) (price : Price) (h : ∀ k ∈ keys m, k ≠ price) :
    mapAt m price = none := by
  induction m with
  | nil => rfl
  | cons e rest ih =>
    obtain ⟨k, l⟩ := e
    have hk : k ≠ price := h k (by simp [keys])
    simp only [mapAt, if_neg hk]
    exact ih (fun k1 hk1 => h k1 (by simp only [keys, List.map_cons, List.mem_cons]; right; exact hk1))

/-- On a map whose keys are strictly ordered by the comparator, `map[price].push_back(order)`
makes the level at `price` the old one (empty if absent) followed by `order`. -/
theorem mapAt_pushBackAt (before : Price → Price → Bool)
    (htrans : ∀ a b c, before a b = true → before b c = true → before a c = true)
    (hirr : ∀ a, before a a = false)
    (m : Levels) (price : Price) (order : Order)
    (hs : (keys m).Pairwise (fun x y => before x y = true)) :
    mapAt (pushBackAt before m price order) price =
      some ((mapAt m price).getD [] ++ [order]) := by
  induction m with
  | nil => simp [pushBackAt, mapAt]
  | cons e rest ih =>
    obtain ⟨k, l⟩ := e
    simp only [keys, List.map_cons, List.pairwise_cons] at hs
    simp only [pushBackAt]
    split
    · next hk => simp [mapAt, hk]
    · next hk =>
      split
      · next hb =>
        have hrest : mapAt rest price = none := by
          apply mapAt_none_of_forall_ne
          intro k1 hk1 hEq
          have h1 : before k k1 = true := hs.1 k1 hk1
          have h2 : before price k1 = true := htrans _ _ _ hb h1
          rw [hEq, hirr] at h2
          exact Bool.false_ne_true h2
        simp [mapAt, hk, hrest]
      · simp only [mapAt, if_neg hk]
        exact ih hs.2

theorem bidBefore_trans (a b c : Price) (h1 : bidBefore a b = true) (h2 : bidBefore b c = true) :
    bidBefore a c = true := by
  simp only [bidBefore, decide_eq_true_eq] at *
  exact gt_trans h1 h2

theorem askBefore_trans (a b c : Price) (h1 : askBefore a b = true) (h2 : askBefore b c = true) :
    askBefore a c = true := by
  simp only [askBefore, decide_eq_true_eq] at *
  exact lt_trans h1 h2

theorem bidBefore_irrefl (a : Price) : bidBefore a a = false := by simp [bidBefore]

theorem askBefore_irrefl (a : Price) : askBefore a a = false := by simp [askBefore]

theorem ordersInsert_fresh (idx : Index) (orderID : OrderID) (entry : OrderEntry)
    (h : ordersContains idx orderID = false) :
    ordersInsert idx orderID entry = idx ++ [(orderID, entry)] := by
  simp [ordersInsert, h]

/-- The part of `AddOrder` after the two rejection tests, when nothing crosses. -/
theorem MatchOrders_quiet (fuel : Nat) (b : Orderbook) (hu : b.Uncrossed)
    (hb : TopOK b.bids_) (ha : TopOK b.asks_) :
    b.MatchOrders (fuel + 1) = .ok ([], b) := by
  simp [Orderbook.MatchOrders, matchLoop_uncrossed fuel b [] hu, cleanupBids_topOK b hb,
    cleanupAsks_topOK b ha]

/-- On an uncrossed book with sorted maps, non-empty levels and no FillandKill order on top of
a side, `AddOrder` of a GoodTillCancel order with a fresh id that crosses nothing returns
(given one iteration of the outer loop) an empty trade list and the book with the order
inserted: the opposite side is unchanged, the level at the order's price is the old level
(empty if absent) followed by the order, the other levels of the side are unchanged, and the
index is the old index with the entry of the order added. -/
theorem AddOrder_resting (fuel : Nat) (b : Orderbook) (order : Order)
    (hsorted : b.MapsSorted) (hne : b.LevelsNonEmpty) (hunc : b.Uncrossed)
    (htop : b.NoFillandKillOnTop)
    (hgtc : order.orderType_ = OrderType.GoodTillCancel)
    (hid : ordersContains b.orders_ order.orderID_ = false)
    (hnc : b.NoCross order.side_ order.price_) :
    b.AddOrder (fuel + 1) order = .ok ([], b.insertOrder order) ∧
    (b.insertOrder order).levels order.side_.other = b.levels order.side_.other ∧
    mapAt ((b.insertOrder order).levels order.side_) order.price_ =
      some ((mapAt (b.levels order.side_) order.price_).getD [] ++ [order]) ∧
    ((b.insertOrder order).levels order.side_).filter (fun e => decide (e.1 ≠ order.price_)) =
      (b.levels order.side_).filter (fun e => decide (e.1 ≠ order.price_)) ∧
    (b.insertOrder order).orders_ = b.orders_ ++ [(order.orderID_, { order_ := order })] := by
  have hnf : order.orderType_ ≠ OrderType.FillandKill := by rw [hgtc]; decide
  have hbt : TopOK b.bids_ :=
    topOK_of b.bids_ (fun e he => hne e (List.mem_append_left _ he)) htop.1
  have hat : TopOK b.asks_ :=
    topOK_of b.asks_ (fun e he => hne e (List.mem_append_right _ he)) htop.2
  have hu1 : (b.insertOrder order).Uncrossed := uncrossed_insertOrder b order hunc hnc
  refine ⟨?_, ?_⟩
  · have hb1 : TopOK (b.insertOrder order).bids_ := by
      unfold Orderbook.insertOrder
      split
      · exact topOK_pushBackAt _ _ _ _ hbt hnf
      · exact hbt
    have ha1 : TopOK (b.insertOrder order).asks_ := by
      unfold Orderbook.insertOrder
      split
      · exact hat
      · exact topOK_pushBackAt _ _ _ _ hat hnf
    simp only [Orderbook.AddOrder, hid, Bool.false_eq_true, if_false, hnf, false_and]
    exact MatchOrders_quiet fuel _ hu1 hb1 ha1
  · cases hs : order.side_ with
    | Buy =>
      have hp : (keys b.bids_).Pairwise (fun x y => bidBefore x y = true) := by
        simpa [bidBefore] using hsorted.1
      simp only [Orderbook.insertOrder, hs, if_true, Orderbook.levels, Side.other]
      exact ⟨trivial, mapAt_pushBackAt bidBefore bidBefore_trans bidBefore_irrefl _ _ _ hp,
        pushBackAt_filter _ _ _ _, ordersInsert_fresh _ _ _ hid⟩
    | Sell =>
      have hp : (keys b.asks_).Pairwise (fun x y => askBefore x y = true) := by
        simpa [askBefore] using hsorted.2
      have hsb : ¬ (Side.Sell = Side.Buy) := by decide
      simp only [Orderbook.insertOrder, hs, if_neg hsb, Orderbook.levels, Side.other]
      exact ⟨trivial, mapAt_pushBackAt askBefore askBefore_trans askBefore_irrefl _ _ _ hp,
        pushBackAt_filter _ _ _ _, ordersInsert_fresh _ _ _ hid⟩

theorem canMatch_false_iff (b : Orderbook) (side : Side) (price : Price) :
    b.CanMatch side price = false ↔ b.NoCross side price := by
  obtain ⟨bids, asks, idx⟩ := b
  cases side with
  | Buy =>
    cases asks with
    | nil => simp [Orderbook.CanMatch, Orderbook.NoCross, bestPrice]
    | cons e rest =>
      obtain ⟨k, l⟩ := e
      simp [Orderbook.CanMatch, Orderbook.NoCross, bestPrice]
  | Sell =>
    cases bids with
    | nil => simp [Orderbook.CanMatch, Orderbook.NoCross, bestPrice]
    | cons e rest =>
      obtain ⟨k, l⟩ := e
      simp [Orderbook.CanMatch, Orderbook.NoCross, bestPrice]

/-- C2 (the code at the scenario): after `add(GTC, Buy, 100, 10, id=1)` on a fresh book the
book holds that order alone; on `add(GTC, Sell, 100, 10, id=2)` the inner loop emits the
trade {bid:(1,100,10), ask:(2,100,10)} and empties both levels and the index, but the two
emptied levels stay in their maps, so the outer loop is never left: for no number of
iterations does `AddOrder` return. -/
theorem C2_full_cross_never_returns :
    Orderbook.empty.AddOrder 1 (mkOrder .GoodTillCancel .Buy 100 10 1) =
      .ok ([], bookOf 100 [mkOrder .GoodTillCancel .Buy 100 10 1] 0 []) ∧
    innerLoop { bids := [mkOrder .GoodTillCancel .Buy 100 10 1],
                asks := [mkOrder .GoodTillCancel .Sell 100 10 2],
                orders_ := [(1, { order_ := mkOrder .GoodTillCancel .Buy 100 10 1 }),
                            (2, { order_ := mkOrder .GoodTillCancel .Sell 100 10 2 })],
                trades := [] } =
      .ok { bids := [], asks := [], orders_ := [],
            trades := [{ bidTrade_ := { orderID_ := 1, price_ := 100, quantity_ := 10 },
                         askTrade_ := { orderID_ := 2, price_ := 100, quantity_ := 10 } }] } ∧
    ∀ fuel, (bookOf 100 [mkOrder .GoodTillCancel .Buy 100 10 1] 0 []).AddOrder fuel
      (mkOrder .GoodTillCancel .Sell 100 10 2) = .outOfFuel := by
  refine ⟨by decide, by decide, ?_⟩
  intro fuel
  have h : (bookOf 100 [mkOrder .GoodTillCancel .Buy 100 10 1] 0 []).AddOrder fuel
      (mkOrder .GoodTillCancel .Sell 100 10 2) =
      Orderbook.MatchOrders fuel
        ((bookOf 100 [mkOrder .GoodTillCancel .Buy 100 10 1] 0 []).insertOrder
          (mkOrder .GoodTillCancel .Sell 100 10 2)) := rfl
  rw [h]
  exact MatchOrders_crossed fuel 100 100 _ _ _ _ _ (by decide)

/-- C3 (the code at the scenario): the two buys at 100 rest in arrival order; on
`add(GTC, Sell, 100, 7, id=3)` the inner loop emits {bid:(1,100,5), ask:(3,100,5)} then
{bid:(2,100,2), ask:(3,100,2)} and leaves order 2 at the head of its level with 3 remaining,
but the emptied ask level stays in `asks_`, so the outer loop is never left: for no number of
iterations does `AddOrder` return. -/
theorem C3_time_priority_never_returns :
    (Orderbook.empty.AddOrder 1 (mkOrder .GoodTillCancel .Buy 100 5 1)).bind
        (fun r => r.2.AddOrder 1 (mkOrder .GoodTillCancel .Buy 100 5 2)) =
      .ok ([], bookOf 100 [mkOrder .GoodTillCancel .Buy 100 5 1,
                           mkOrder .GoodTillCancel .Buy 100 5 2] 0 []) ∧
    innerLoop { bids := [mkOrder .GoodTillCancel .Buy 100 5 1,
                         mkOrder .GoodTillCancel .Buy 100 5 2],
                asks := [mkOrder .GoodTillCancel .Sell 100 7 3],
                orders_ := [(1, { order_ := mkOrder .GoodTillCancel .Buy 100 5 1 }),
                            (2, { order_ := mkOrder .GoodTillCancel .Buy 100 5 2 }),
                            (3, { order_ := mkOrder .GoodTillCancel .Sell 100 7 3 })],
                trades := [] } =
      .ok { bids := [{ mkOrder .GoodTillCancel .Buy 100 5 2 with remainingQuantity_ := 3 }],
            asks := [],
            orders_ := [(2, { order_ := { mkOrder .GoodTillCancel .Buy 100 5 2 with
                                          remainingQuantity_ := 3 } })],
            trades := [{ bidTrade_ := { orderID_ := 1, price_ := 100, quantity_ := 5 },
                         askTrade_ := { orderID_ := 3, price_ := 100, quantity_ := 5 } },
                       { bidTrade_ := { orderID_ := 2, price_ := 100, quantity_ := 2 },
                         askTrade_ := { orderID_ := 3, price_ := 100, quantity_ := 2 } }] } ∧
    ∀ fuel, (bookOf 100 [mkOrder .GoodTillCancel .Buy 100 5 1,
                         mkOrder .GoodTillCancel .Buy 100 5 2] 0 []).AddOrder fuel
      (mkOrder .GoodTillCancel .Sell 100 7 3) = .outOfFuel := by
  refine ⟨by decide, by decide, ?_⟩
  intro fuel
  have h : (bookOf 100 [mkOrder .GoodTillCancel .Buy 100 5 1,
                        mkOrder .GoodTillCancel .Buy 100 5 2] 0 []).AddOrder fuel
      (mkOrder .GoodTillCancel .Sell 100 7 3) =
      Orderbook.MatchOrders fuel
        ((bookOf 100 [mkOrder .GoodTillCancel .Buy 100 5 1,
                      mkOrder .GoodTillCancel .Buy 100 5 2] 0 []).insertOrder
          (mkOrder .GoodTillCancel .Sell 100 7 3)) := rfl
  rw [h]
  exact MatchOrders_crossed fuel 100 100 _ _ _ _ _ (by decide)

/-- C4 (the code at the scenario): with only `Sell id=1 price=100 qty=5` on the book,
`add(FAK, Buy, 100, 10, id=2)` passes the `CanMatch` test and is inserted; the inner loop
emits {bid:(2,100,5), ask:(1,100,5)} and leaves order 2 with 5 remaining, but the emptied
ask level stays in `asks_`, so the outer loop is never left and the FillandKill cleanup
after it is never reached: for no number of iterations does `AddOrder` return. -/
theorem C4_fill_and_kill_never_returns :
    (bookOf 0 [] 100 [mkOrder .GoodTillCancel .Sell 100 5 1]).CanMatch .Buy 100 = true ∧
    innerLoop { bids := [mkOrder .FillandKill .Buy 100 10 2],
                asks := [mkOrder .GoodTillCancel .Sell 100 5 1],
                orders_ := [(1, { order_ := mkOrder .GoodTillCancel .Sell 100 5 1 }),
                            (2, { order_ := mkOrder .FillandKill .Buy 100 10 2 })],
                trades := [] } =
      .ok { bids := [{ mkOrder .FillandKill .Buy 100 10 2 with remainingQuantity_ := 5 }],
            asks := [],
            orders_ := [(2, { order_ := { mkOrder .FillandKill .Buy 100 10 2 with
                                          remainingQuantity_ := 5 } })],
            trades := [{ bidTrade_ := { orderID_ := 2, price_ := 100, quantity_ := 5 },
                         askTrade_ := { orderID_ := 1, price_ := 100, quantity_ := 5 } }] } ∧
    ∀ fuel, (bookOf 0 [] 100 [mkOrder .GoodTillCancel .Sell 100 5 1]).AddOrder fuel
      (mkOrder .FillandKill .Buy 100 10 2) = .outOfFuel := by
  refine ⟨by decide, by decide, ?_⟩
  intro fuel
  have h : (bookOf 0 [] 100 [mkOrder .GoodTillCancel .Sell 100 5 1]).AddOrder fuel
      (mkOrder .FillandKill .Buy 100 10 2) =
      Orderbook.MatchOrders fuel
        ((bookOf 0 [] 100 [mkOrder .GoodTillCancel .Sell 100 5 1]).insertOrder
          (mkOrder .FillandKill .Buy 100 10 2)) := rfl
  rw [h]
  exact MatchOrders_crossed fuel 100 100 _ _ _ _ _ (by decide)

/-- C5: if the id of the order is already in the index, or the order is FillandKill and
`CanMatch(side, price)` is false, then `AddOrder` returns an empty trade list and the very
same book (bids, asks and index), whatever the number of loop iterations allowed; and
`CanMatch` is false exactly when the opposite side is empty, or a buy price is below the best
ask, or a sell price is above the best bid. -/
theorem C5_rejection_atomic (fuel : Nat) (b : Orderbook) (order : Order)
    (h : ordersContains b.orders_ order.orderID_ = true ∨
      (order.orderType_ = OrderType.FillandKill ∧
        b.CanMatch order.side_ order.price_ = false)) :
    b.AddOrder fuel order = .ok ([], b) ∧
    (b.CanMatch order.side_ order.price_ = false ↔ b.NoCross order.side_ order.price_) := by
  refine ⟨?_, canMatch_false_iff b _ _⟩
  rcases h with h | h
  · simp [Orderbook.AddOrder, h]
  · simp [Orderbook.AddOrder, h]

/-- C5, scenario 5: `add(FAK, Buy, 100, 10, id=1)` on a fresh book returns no trade and the
book stays empty. -/
theorem C5_rejection_atomic_witness :
    Orderbook.empty.AddOrder 0 (mkOrder .FillandKill .Buy 100 10 1) = .ok ([], Orderbook.empty) ∧
    Orderbook.empty.GetOrderInfos = { bids_ := [], asks_ := [] } :=
  ⟨(C5_rejection_atomic 0 Orderbook.empty (mkOrder .FillandKill .Buy 100 10 1)
      (Or.inr ⟨rfl, by decide⟩)).1, by decide⟩

/-- C6 (the code at a failing input): the book holding the single order
`(GTC, Buy, 100, 10, id=1)` is reachable from the empty book, the order
`(GTC, Sell, 99, 4, id=2)` has a positive price and a positive quantity, and `AddOrder` on
them is still inside the loop of `MatchOrders` after any number of iterations. -/
theorem C6_add_order_never_returns :
    Reachable (bookOf 100 [mkOrder .GoodTillCancel .Buy 100 10 1] 0 []) ∧
    0 < (mkOrder .GoodTillCancel .Sell 99 4 2).price_ ∧
    0 < (mkOrder .GoodTillCancel .Sell 99 4 2).initialQuantity_ ∧
    ∀ fuel, (bookOf 100 [mkOrder .GoodTillCancel .Buy 100 10 1] 0 []).AddOrder fuel
      (mkOrder .GoodTillCancel .Sell 99 4 2) = .outOfFuel := by
  refine ⟨?_, by decide, by decide, ?_⟩
  · exact Reachable.step (Op.AddOrder (mkOrder .GoodTillCancel .Buy 100 10 1)) 1
      Reachable.empty (by decide)
  · intro fuel
    have h : (bookOf 100 [mkOrder .GoodTillCancel .Buy 100 10 1] 0 []).AddOrder fuel
        (mkOrder .GoodTillCancel .Sell 99 4 2) =
        Orderbook.MatchOrders fuel
          ((bookOf 100 [mkOrder .GoodTillCancel .Buy 100 10 1] 0 []).insertOrder
            (mkOrder .GoodTillCancel .Sell 99 4 2)) := rfl
    rw [h]
    exact MatchOrders_crossed fuel 100 99 _ _ _ _ _ (by decide)

/-- The body of `CancelOrder` for an indexed id, read uniformly in the side of the order. -/
theorem CancelOrder_of_indexed (b : Orderbook) (orderID : OrderID) (entry : OrderEntry)
    (h : ordersAt b.orders_ orderID = some entry) :
    b.CancelOrder orderID =
      match mapAt (b.levels entry.order_.side_) entry.order_.price_ with
      | none => .fault .out_of_range
      | some orders =>
        match eraseNode orders orderID with
        | none => .fault .undefined_behaviour
        | some [] =>
          .ok (b.withLevels entry.order_.side_
            (mapErase (b.levels entry.order_.side_) entry.order_.price_)
            (ordersErase b.orders_ orderID))
        | some (o :: os) =>
          .ok (b.withLevels entry.order_.side_
            (mapSet (b.levels entry.order_.side_) entry.order_.price_ (o :: os))
            (ordersErase b.orders_ orderID)) := by
  unfold Orderbook.CancelOrder
  rw [h]
  cases hs : entry.order_.side_ with
  | Buy =>
    have hne : ¬ (Side.Buy = Side.Sell) := by decide
    simp only [hs, if_neg hne, Orderbook.levels, Orderbook.withLevels]
  | Sell =>
    simp only [hs, if_true, Orderbook.levels, Orderbook.withLevels]

theorem CancelOrder_of_unknown (b : Orderbook) (orderID : OrderID)
    (h : ordersAt b.orders_ orderID = none) : b.CancelOrder orderID = .ok b := by
  unfold Orderbook.CancelOrder
  rw [h]

theorem ordersAt_ordersErase_self (idx : Index) (orderID : OrderID) :
    ordersAt (ordersErase idx orderID) orderID = none := by
  induction idx with
  | nil => rfl
  | cons e rest ih =>
    obtain ⟨k, v⟩ := e
    by_cases hk : k = orderID
    · simpa [ordersErase, List.filter_cons, hk] using ih
    · simpa [ordersErase, List.filter_cons, hk, ordersAt] using ih

theorem ordersAt_ordersErase_other (idx : Index) (orderID other : OrderID) (h : other ≠ orderID) :
    ordersAt (ordersErase idx orderID) other = ordersAt idx other := by
  induction idx with
  | nil => rfl
  | cons e rest ih =>
    obtain ⟨k, v⟩ := e
    by_cases hk : k = orderID
    · subst hk
      have hko : k ≠ other := Ne.symm h
      simpa [ordersErase, List.filter_cons, ordersAt, hko] using ih
    · by_cases hko : k = other
      · subst hko
        simp [ordersErase, List.filter_cons, hk, ordersAt]
      · simpa [ordersErase, List.filter_cons, hk, ordersAt, hko] using ih

theorem withLevels_orders (b : Orderbook) (side : Side) (m : Levels) (idx : Index) :
    (b.withLevels side m idx).orders_ = idx := by
  cases side <;> rfl

theorem withLevels_levels (b : Orderbook) (side : Side) (m : Levels) (idx : Index) :
    (b.withLevels side m idx).levels side = m := by
  cases side <;> rfl

/-- After a `CancelOrder` that returns, the id is not in the index. -/
theorem CancelOrder_unindexed (b b1 : Orderbook) (orderID : OrderID)
    (h : b.CancelOrder orderID = .ok b1) : ordersAt b1.orders_ orderID = none := by
  cases hidx : ordersAt b.orders_ orderID with
  | none =>
    rw [CancelOrder_of_unknown b orderID hidx] at h
    cases h
    exact hidx
  | some entry =>
    rw [CancelOrder_of_indexed b orderID entry hidx] at h
    split at h
    · cases h
    · split at h
      · cases h
      · cases h
        rw [withLevels_orders]
        exact ordersAt_ordersErase_self _ _
      · cases h
        rw [withLevels_orders]
        exact ordersAt_ordersErase_self _ _

/-- C7: for every book and every id that is not in the index, `CancelOrder(id)` returns and
leaves bids, asks and the index as they were; and for every book and every id, running
`CancelOrder(id)` twice in a row has the outcome of running it once (in particular, when the
first call returns a book, the second returns that same book). -/
theorem C7_cancel_idempotent (b : Orderbook) (orderID : OrderID) :
    (ordersContains b.orders_ orderID = false → b.CancelOrder orderID = .ok b) ∧
    (b.CancelOrder orderID).bind (fun b1 => b1.CancelOrder orderID) = b.CancelOrder orderID ∧
    (∀ b1, b.CancelOrder orderID = .ok b1 → b1.CancelOrder orderID = .ok b1) := by
  have key : ∀ b1, b.CancelOrder orderID = .ok b1 → b1.CancelOrder orderID = .ok b1 :=
    fun b1 h => CancelOrder_of_unknown b1 orderID (CancelOrder_unindexed b b1 orderID h)
  refine ⟨?_, ?_, key⟩
  · intro h
    apply CancelOrder_of_unknown
    cases hh : ordersAt b.orders_ orderID with
    | none => rfl
    | some e => simp [ordersContains, hh] at h
  · cases h : b.CancelOrder orderID with
    | ok b1 => exact (key b1 h).trans rfl
    | fault f => rfl
    | outOfFuel => rfl

/-- C7 on concrete books: an unknown id on the empty book, and a known id cancelled twice. -/
theorem C7_cancel_idempotent_witness :
    Orderbook.empty.CancelOrder 7 = .ok Orderbook.empty ∧
    (bookOf 100 [mkOrder .GoodTillCancel .Buy 100 10 1] 0 []).CancelOrder 1 =
      .ok Orderbook.empty ∧
    Orderbook.empty.CancelOrder 1 = .ok Orderbook.empty :=
  ⟨(C7_cancel_idempotent Orderbook.empty 7).1 (by decide), by decide,
   (C7_cancel_idempotent (bookOf 100 [mkOrder .GoodTillCancel .Buy 100 10 1] 0 []) 1).2.2
     Orderbook.empty (by decide)⟩

theorem mem_of_mapAt (m : Levels) (price : Price) (l : OrderPointers)
    (h : mapAt m price = some l) : (price, l) ∈ m := by
  induction m with
  | nil => simp [mapAt] at h
  | cons e rest ih =>
    obtain ⟨k, l1⟩ := e
    by_cases hk : k = price
    · subst hk
      simp only [mapAt, if_true, Option.some.injEq] at h
      subst h
      exact List.mem_cons_self _ _
    · simp only [mapAt, if_neg hk] at h
      exact List.mem_cons_of_mem _ (ih h)

theorem keys_mapSet (m : Levels) (price : Price) (l : OrderPointers) :
    keys (mapSet m price l) = keys m := by
  induction m with
  | nil => rfl
  | cons e rest ih =>
    obtain ⟨k, l1⟩ := e
    simp only [mapSet]
    split
    · rfl
    · simp only [keys, List.map_cons] at ih ⊢
      rw [ih]

theorem mapAt_mapSet_self (m : Levels) (price : Price) (l l1 : OrderPointers)
    (h : mapAt m price = some l) : mapAt (mapSet m price l1) price = some l1 := by
  induction m with
  | nil => simp [mapAt] at h
  | cons e rest ih =>
    obtain ⟨k, l2⟩ := e
    by_cases hk : k = price
    · simp [mapSet, mapAt, hk]
    · simp only [mapAt, if_neg hk] at h
      simp only [mapSet, if_neg hk, mapAt]
      exact ih h

theorem level_ids_nodup (b : Orderbook) (hag : b.IndexAgrees) (side : Side) (price : Price)
    (l : OrderPointers) (h : mapAt (b.levels side) price = some l) :
    (l.map Order.orderID_).Nodup := by
  have hmem : l ∈ (b.levels side).map Prod.snd :=
    List.mem_map.mpr ⟨(price, l), mem_of_mapAt _ _ _ h, rfl⟩
  have hsub : l.Sublist b.resting := by
    cases side with
    | Buy =>
      exact (List.sublist_flatten_of_mem hmem).trans (List.sublist_append_left _ _)
    | Sell =>
      exact (List.sublist_flatten_of_mem hmem).trans (List.sublist_append_right _ _)
  exact (hsub.map Order.orderID_).nodup hag.ids_unique

theorem mem_keys_pushBackAt (before : Price → Price → Bool) (m : Levels) (price : Price)
    (order : Order) (k : Price) (h : k ∈ keys (pushBackAt before m price order)) :
    k = price ∨ k ∈ keys m := by
  induction m with
  | nil =>
    simp only [pushBackAt, keys, List.map_cons, List.map_nil, List.mem_singleton] at h
    exact Or.inl h
  | cons e rest ih =>
    obtain ⟨k1, l⟩ := e
    simp only [pushBackAt] at h
    split at h
    · exact Or.inr h
    · split at h
      · simp only [keys, List.map_cons, List.mem_cons] at h ⊢
        exact h
      · simp only [keys, List.map_cons, List.mem_cons] at h ⊢
        rcases h with h | h
        · exact Or.inr (Or.inl h)
        · rcases ih h with h1 | h1
          · exact Or.inl h1
          · exact Or.inr (Or.inr h1)

/-- The insertion `map[price].push_back(order)` keeps the keys strictly ordered. -/
theorem pairwise_pushBackAt (before : Price → Price → Bool)
    (htrans : ∀ a b c, before a b = true → before b c = true → before a c = true)
    (htotal : ∀ a b, a ≠ b → before a b = false → before b a = true)
    (m : Levels) (price : Price) (order : Order)
    (hs : (keys m).Pairwise (fun x y => before x y = true)) :
    (keys (pushBackAt before m price order)).Pairwise (fun x y => before x y = true) := by
  induction m with
  | nil => simp [pushBackAt, keys]
  | cons e rest ih =>
    obtain ⟨k, l⟩ := e
    have hs1 : (∀ y ∈ keys rest, before k y = true) ∧
        (keys rest).Pairwise (fun x y => before x y = true) := by
      simpa [keys] using hs
    simp only [pushBackAt]
    split
    · exact hs
    · next hk =>
      split
      · next hb =>
        simp only [keys, List.map_cons, List.pairwise_cons, List.mem_cons]
        refine ⟨?_, ?_, hs1.2⟩
        · intro y hy
          rcases hy with rfl | hy
          · exact hb
          · exact htrans _ _ _ hb (hs1.1 y hy)
        · exact hs1.1
      · next hb =>
        simp only [keys, List.map_cons, List.pairwise_cons]
        refine ⟨?_, ih hs1.2⟩
        intro y hy
        rcases mem_keys_pushBackAt before rest price order y hy with rfl | hy1
        · exact htotal _ _ (Ne.symm hk) (by simpa using hb)
        · exact hs1.1 y hy1

theorem bidBefore_total (a b : Price) (h : a ≠ b) (hb : bidBefore a b = false) :
    bidBefore b a = true := by
  simp only [bidBefore, decide_eq_false_iff_not, decide_eq_true_eq, gt_iff_lt, not_lt] at *
  exact lt_of_le_of_ne hb h

theorem askBefore_total (a b : Price) (h : a ≠ b) (hb : askBefore a b = false) :
    askBefore b a = true := by
  simp only [askBefore, decide_eq_false_iff_not, decide_eq_true_eq, not_lt] at *
  exact lt_of_le_of_ne hb (Ne.symm h)

theorem mapsSorted_insertOrder (b : Orderbook) (order : Order) (h : b.MapsSorted) :
    (b.insertOrder order).MapsSorted := by
  have hb : (keys b.bids_).Pairwise (fun x y => bidBefore x y = true) := by
    simpa [bidBefore] using h.1
  have ha : (keys b.asks_).Pairwise (fun x y => askBefore x y = true) := by
    simpa [askBefore] using h.2
  unfold Orderbook.insertOrder
  split
  · refine ⟨?_, h.2⟩
    have := pairwise_pushBackAt bidBefore bidBefore_trans bidBefore_total b.bids_
      order.price_ order hb
    simpa [bidBefore] using this
  · refine ⟨h.1, ?_⟩
    have := pairwise_pushBackAt askBefore askBefore_trans askBefore_total b.asks_
      order.price_ order ha
    simpa [askBefore] using this

/-- On sorted maps the two first keys bound all the others, so an uncrossed book has every
bid price below every ask price. -/
theorem bidsBelowAsks_of_uncrossed (b : Orderbook) (hs : b.MapsSorted) (hu : b.Uncrossed) :
    b.BidsBelowAsks := by
  obtain ⟨bids, asks, idx⟩ := b
  intro bp hbp ap hap
  cases bids with
  | nil => simp [keys] at hbp
  | cons x xs =>
    cases asks with
    | nil => simp [keys] at hap
    | cons y ys =>
      obtain ⟨kb, lb⟩ := x
      obtain ⟨ka, la⟩ := y
      have h0 : kb < ka := hu kb ka rfl rfl
      have hsb : (∀ z ∈ keys xs, kb > z) := by
        have := hs.1
        simp only [keys, List.map_cons, List.pairwise_cons] at this
        exact this.1
      have hsa : (∀ z ∈ keys ys, ka < z) := by
        have := hs.2
        simp only [keys, List.map_cons, List.pairwise_cons] at this
        exact this.1
      have h1 : bp ≤ kb := by
        simp only [keys, List.map_cons, List.mem_cons] at hbp
        rcases hbp with rfl | h
        · exact le_refl _
        · exact le_of_lt (hsb bp h)
      have h2 : ka ≤ ap := by
        simp only [keys, List.map_cons, List.mem_cons] at hap
        rcases hap with rfl | h
        · exact le_refl _
        · exact le_of_lt (hsa ap h)
      exact lt_of_le_of_lt h1 (lt_of_lt_of_le h0 h2)

/-- The outer loop returns only from its first iteration: with nothing matched, the book
untouched and uncrossed. -/
theorem matchLoop_ok (fuel : Nat) (b : Orderbook) (ts : Trades) (r : Orderbook × Trades)
    (h : matchLoop fuel b ts = .ok r) : r = (b, ts) ∧ b.Uncrossed := by
  cases fuel with
  | zero => cases h
  | succ n =>
    obtain ⟨bids, asks, idx⟩ := b
    cases bids with
    | nil =>
      simp only [matchLoop, Result.ok.injEq] at h
      exact ⟨h.symm, fun bp ap hb _ => by simp [bestPrice] at hb⟩
    | cons x xs =>
      cases asks with
      | nil =>
        simp only [matchLoop, Result.ok.injEq] at h
        exact ⟨h.symm, fun bp ap _ ha => by simp [bestPrice] at ha⟩
      | cons y ys =>
        obtain ⟨kb, lb⟩ := x
        obtain ⟨ka, la⟩ := y
        by_cases hlt : kb < ka
        · simp only [matchLoop, if_pos hlt, Result.ok.injEq] at h
          refine ⟨h.symm, ?_⟩
          intro bp ap hb ha
          simp only [bestPrice, Option.some.injEq] at hb ha
          subst hb ha
          exact hlt
        · rw [matchLoop_crossed (n + 1) kb ka lb la xs ys idx ts hlt] at h
          cases h

/-- What a returning `CancelOrder` does to the keys of the two maps: it only removes. -/
theorem CancelOrder_keys (b b1 : Orderbook) (orderID : OrderID)
    (h : b.CancelOrder orderID = .ok b1) :
    (keys b1.bids_).Sublist (keys b.bids_) ∧ (keys b1.asks_).Sublist (keys b.asks_) := by
  cases hidx : ordersAt b.orders_ orderID with
  | none =>
    rw [CancelOrder_of_unknown b orderID hidx] at h
    cases h
    exact ⟨List.Sublist.refl _, List.Sublist.refl _⟩
  | some entry =>
    rw [CancelOrder_of_indexed b orderID entry hidx] at h
    have herase : ∀ m : Levels, ∀ p, (keys (mapErase m p)).Sublist (keys m) :=
      fun m p => (List.filter_sublist m).map Prod.fst
    have hset : ∀ (m : Levels) p l, (keys (mapSet m p l)).Sublist (keys m) :=
      fun m p l => by rw [keys_mapSet]
    split at h
    · cases h
    · split at h
      · cases h
      · cases h
        cases entry.order_.side_ with
        | Buy => exact ⟨herase _ _, List.Sublist.refl _⟩
        | Sell => exact ⟨List.Sublist.refl _, herase _ _⟩
      · cases h
        cases entry.order_.side_ with
        | Buy => exact ⟨hset _ _ _, List.Sublist.refl _⟩
        | Sell => exact ⟨List.Sublist.refl _, hset _ _ _⟩

theorem priceInv_of_keys_sublist (b b1 : Orderbook) (h : b.PriceInv)
    (hb : (keys b1.bids_).Sublist (keys b.bids_)) (ha : (keys b1.asks_).Sublist (keys b.asks_)) :
    b1.PriceInv :=
  ⟨⟨h.1.1.sublist hb, h.1.2.sublist ha⟩,
   fun bp hbp ap hap => h.2 bp (hb.subset hbp) ap (ha.subset hap)⟩

theorem priceInv_CancelOrder (b b1 : Orderbook) (orderID : OrderID) (h : b.PriceInv)
    (hc : b.CancelOrder orderID = .ok b1) : b1.PriceInv :=
  priceInv_of_keys_sublist b b1 h (CancelOrder_keys b b1 orderID hc).1
    (CancelOrder_keys b b1 orderID hc).2

theorem priceInv_cleanupBids (b b1 : Orderbook) (h : b.PriceInv)
    (hc : cleanupBids b = .ok b1) : b1.PriceInv := by
  unfold cleanupBids at hc
  split at hc
  · cases hc; exact h
  · cases hc
  · split at hc
    · exact priceInv_CancelOrder b b1 _ h hc
    · cases hc; exact h

theorem priceInv_cleanupAsks (b b1 : Orderbook) (h : b.PriceInv)
    (hc : cleanupAsks b = .ok b1) : b1.PriceInv := by
  unfold cleanupAsks at hc
  split at hc
  · cases hc; exact h
  · cases hc
  · split at hc
    · exact priceInv_CancelOrder b b1 _ h hc
    · cases hc; exact h

theorem Result.bind_eq_ok {α β : Type} (r : Result α) (k : α → Result β) (y : β)
    (h : r.bind k = .ok y) : ∃ a, r = .ok a ∧ k a = .ok y := by
  cases r with
  | ok a => exact ⟨a, rfl, h⟩
  | fault f => cases h
  | outOfFuel => cases h

theorem priceInv_MatchOrders (fuel : Nat) (b : Orderbook) (r : Trades × Orderbook)
    (hs : b.MapsSorted) (h : b.MatchOrders fuel = .ok r) : r.2.PriceInv := by
  unfold Orderbook.MatchOrders at h
  obtain ⟨r1, h1, h⟩ := Result.bind_eq_ok _ _ _ h
  obtain ⟨b1, h2, h⟩ := Result.bind_eq_ok _ _ _ h
  obtain ⟨b2, h3, h⟩ := Result.bind_eq_ok _ _ _ h
  cases h
  obtain ⟨hr, hu⟩ := matchLoop_ok fuel b [] r1 h1
  subst hr
  have hinv : b.PriceInv := ⟨hs, bidsBelowAsks_of_uncrossed b hs hu⟩
  exact priceInv_cleanupAsks b1 b2 (priceInv_cleanupBids b b1 hinv h2) h3

theorem priceInv_AddOrder (fuel : Nat) (b : Orderbook) (order : Order)
    (r : Trades × Orderbook) (hinv : b.PriceInv) (h : b.AddOrder fuel order = .ok r) :
    r.2.PriceInv := by
  unfold Orderbook.AddOrder at h
  split at h
  · cases h; exact hinv
  · split at h
    · cases h; exact hinv
    · exact priceInv_MatchOrders fuel _ r (mapsSorted_insertOrder b order hinv.1) h

theorem priceInv_MatchOrder (fuel : Nat) (b : Orderbook) (order : OrderModify)
    (r : Trades × Orderbook) (hinv : b.PriceInv) (h : b.MatchOrder fuel order = .ok r) :
    r.2.PriceInv := by
  unfold Orderbook.MatchOrder at h
  split at h
  · cases h; exact hinv
  · obtain ⟨b1, h1, h⟩ := Result.bind_eq_ok _ _ _ h
    exact priceInv_AddOrder fuel b1 _ r (priceInv_CancelOrder b b1 _ hinv h1) h

theorem priceInv_run (fuel : Nat) (b b1 : Orderbook) (op : Op) (hinv : b.PriceInv)
    (h : b.run fuel op = .ok b1) : b1.PriceInv := by
  cases op with
  | AddOrder order =>
    obtain ⟨r, h1, h⟩ := Result.bind_eq_ok _ _ _ h
    cases h
    exact priceInv_AddOrder fuel b order r hinv h1
  | CancelOrder orderID => exact priceInv_CancelOrder b b1 orderID hinv h
  | MatchOrder order =>
    obtain ⟨r, h1, h⟩ := Result.bind_eq_ok _ _ _ h
    cases h
    exact priceInv_MatchOrder fuel b order r hinv h1

theorem priceInv_reachable (b : Orderbook) (h : Reachable b) : b.PriceInv := by
  induction h with
  | empty =>
    refine ⟨⟨?_, ?_⟩, ?_⟩
    · simp [Orderbook.empty, keys]
    · simp [Orderbook.empty, keys]
    · intro bp hbp
      simp [Orderbook.empty, keys] at hbp
  | step op fuel _ hrun ih => exact priceInv_run fuel _ _ op ih hrun

/-- C10: in every book reached from the empty book by `AddOrder`, `CancelOrder` and
`MatchOrder` calls that return, if bids and asks are both non-empty then the best bid price
(the first key of `bids_`, which no bid price exceeds) is strictly below the best ask price
(the first key of `asks_`, below which there is no ask price). -/
theorem C10_uncrossed (b : Orderbook) (h : Reachable b) (bidPrice askPrice : Price)
    (hb : bestPrice b.bids_ = some bidPrice) (ha : bestPrice b.asks_ = some askPrice) :
    bidPrice < askPrice ∧ (∀ k ∈ keys b.bids_, k ≤ bidPrice) ∧
      (∀ k ∈ keys b.asks_, askPrice ≤ k) := by
  obtain ⟨⟨hsb, hsa⟩, hba⟩ := priceInv_reachable b h
  obtain ⟨bids, asks, idx⟩ := b
  cases bids with
  | nil => simp [bestPrice] at hb
  | cons x xs =>
    cases asks with
    | nil => simp [bestPrice] at ha
    | cons y ys =>
      obtain ⟨kb, lb⟩ := x
      obtain ⟨ka, la⟩ := y
      simp only [bestPrice, Option.some.injEq] at hb ha
      subst hb ha
      simp only [keys, List.map_cons, List.pairwise_cons] at hsb hsa
      refine ⟨hba kb (by simp [keys]) ka (by simp [keys]), ?_, ?_⟩
      · intro k hk
        simp only [keys, List.map_cons, List.mem_cons] at hk
        rcases hk with rfl | hk
        · exact le_refl _
        · exact le_of_lt (hsb.1 k hk)
      · intro k hk
        simp only [keys, List.map_cons, List.mem_cons] at hk
        rcases hk with rfl | hk
        · exact le_refl _
        · exact le_of_lt (hsa.1 k hk)

/-- C10 on a concrete run: a buy at 100 then a sell at 101 on a fresh book. -/
theorem C10_uncrossed_witness :
    Reachable (bookOf 100 [mkOrder .GoodTillCancel .Buy 100 10 1] 101
      [mkOrder .GoodTillCancel .Sell 101 10 2]) ∧
    ((100 : Price) < 101 ∧
      (∀ k ∈ keys (bookOf 100 [mkOrder .GoodTillCancel .Buy 100 10 1] 101
        [mkOrder .GoodTillCancel .Sell 101 10 2]).bids_, k ≤ 100) ∧
      (∀ k ∈ keys (bookOf 100 [mkOrder .GoodTillCancel .Buy 100 10 1] 101
        [mkOrder .GoodTillCancel .Sell 101 10 2]).asks_, (101 : Price) ≤ k)) :=
  ⟨Reachable.step (Op.AddOrder (mkOrder .GoodTillCancel .Sell 101 10 2)) 1
      (Reachable.step (Op.AddOrder (mkOrder .GoodTillCancel .Buy 100 10 1)) 1
        Reachable.empty (by decide : _ = Result.ok (bookOf 100
          [mkOrder .GoodTillCancel .Buy 100 10 1] 0 [])))
      (by decide),
   C10_uncrossed _
     (Reachable.step (Op.AddOrder (mkOrder .GoodTillCancel .Sell 101 10 2)) 1
      (Reachable.step (Op.AddOrder (mkOrder .GoodTillCancel .Buy 100 10 1)) 1
        Reachable.empty (by decide : _ = Result.ok (bookOf 100
          [mkOrder .GoodTillCancel .Buy 100 10 1] 0 [])))
      (by decide)) 100 101 (by decide) (by decide)⟩

theorem reachableBy_of_reachable (b : Orderbook) (h : Reachable b) :
    ReachableBy (fun _ => True) b := by
  induction h with
  | empty => exact ReachableBy.empty
  | step op fuel _ hrun ih => exact ReachableBy.step op fuel ih trivial hrun

/-- After `bids_[price].push_back(order)` the best bid is at least `price`. -/
theorem bestPrice_pushBackAt_bid (m : Levels) (price : Price) (order : Order) :
    ∃ k, bestPrice (pushBackAt bidBefore m price order) = some k ∧ price ≤ k := by
  match m with
  | [] => exact ⟨price, rfl, le_refl _⟩
  | (k, l) :: rest =>
    simp only [pushBackAt]
    split
    · next hk => exact ⟨k, rfl, le_of_eq hk.symm⟩
    · split
      · exact ⟨price, rfl, le_refl _⟩
      · next hb =>
        refine ⟨k, rfl, ?_⟩
        simp only [bidBefore, decide_eq_true_eq, gt_iff_lt, not_lt] at hb
        exact hb

/-- After `asks_[price].push_back(order)` the best ask is at most `price`. -/
theorem bestPrice_pushBackAt_ask (m : Levels) (price : Price) (order : Order) :
    ∃ k, bestPrice (pushBackAt askBefore m price order) = some k ∧ k ≤ price := by
  match m with
  | [] => exact ⟨price, rfl, le_refl _⟩
  | (k, l) :: rest =>
    simp only [pushBackAt]
    split
    · next hk => exact ⟨k, rfl, le_of_eq hk⟩
    · split
      · exact ⟨price, rfl, le_refl _⟩
      · next hb =>
        refine ⟨k, rfl, ?_⟩
        simp only [askBefore, decide_eq_true_eq, not_lt] at hb
        exact hb

/-- An order that passes `CanMatch` leaves the book crossed once inserted. -/
theorem crossed_insertOrder_of_canMatch (b : Orderbook) (order : Order)
    (h : b.CanMatch order.side_ order.price_ = true) : ¬ (b.insertOrder order).Uncrossed := by
  intro hu
  obtain ⟨bids, asks, idx⟩ := b
  cases hs : order.side_ with
  | Buy =>
    rw [hs] at h
    cases asks with
    | nil => simp [Orderbook.CanMatch] at h
    | cons e rest =>
      obtain ⟨ka, la⟩ := e
      simp only [Orderbook.CanMatch, decide_eq_true_eq, ge_iff_le] at h
      obtain ⟨kb, hkb, hle⟩ := bestPrice_pushBackAt_bid bids order.price_ order
      have hlt : kb < ka := by
        apply hu kb ka
        · simp only [Orderbook.insertOrder, hs, if_true]; exact hkb
        · simp only [Orderbook.insertOrder, hs, if_true]; rfl
      exact absurd (lt_of_lt_of_le hlt (le_trans h hle)) (lt_irrefl _)
  | Sell =>
    rw [hs] at h
    have hne : ¬ (Side.Sell = Side.Buy) := by decide
    cases bids with
    | nil => simp [Orderbook.CanMatch] at h
    | cons e rest =>
      obtain ⟨kb, lb⟩ := e
      simp only [Orderbook.CanMatch, decide_eq_true_eq] at h
      obtain ⟨ka, hka, hle⟩ := bestPrice_pushBackAt_ask asks order.price_ order
      have hlt : kb < ka := by
        apply hu kb ka
        · simp only [Orderbook.insertOrder, hs, if_neg hne]; rfl
        · simp only [Orderbook.insertOrder, hs, if_neg hne]; exact hka
      exact absurd (lt_of_lt_of_le hlt (le_trans hle h)) (lt_irrefl _)

/-- A returning `MatchOrders` has matched nothing: the book was uncrossed and only the two
cleanup blocks ran. -/
theorem MatchOrders_ok (fuel : Nat) (b : Orderbook) (r : Trades × Orderbook)
    (h : b.MatchOrders fuel = .ok r) :
    r.1 = [] ∧ b.Uncrossed ∧ ∃ b1, cleanupBids b = .ok b1 ∧ cleanupAsks b1 = .ok r.2 := by
  unfold Orderbook.MatchOrders at h
  obtain ⟨r1, h1, h⟩ := Result.bind_eq_ok _ _ _ h
  obtain ⟨b1, h2, h⟩ := Result.bind_eq_ok _ _ _ h
  obtain ⟨b2, h3, h⟩ := Result.bind_eq_ok _ _ _ h
  cases h
  obtain ⟨hr, hu⟩ := matchLoop_ok fuel b [] r1 h1
  subst hr
  exact ⟨rfl, hu, b1, h2, h3⟩

/-- A returning `AddOrder` either rejected the order or inserted a GoodTillCancel order that
crossed nothing. -/
theorem AddOrder_ok (fuel : Nat) (b : Orderbook) (order : Order) (r : Trades × Orderbook)
    (h : b.AddOrder fuel order = .ok r) :
    ((ordersContains b.orders_ order.orderID_ = true ∨
        (order.orderType_ = OrderType.FillandKill ∧
          b.CanMatch order.side_ order.price_ = false)) ∧ r = ([], b)) ∨
    (ordersContains b.orders_ order.orderID_ = false ∧
      order.orderType_ = OrderType.GoodTillCancel ∧ r.1 = [] ∧
      (b.insertOrder order).Uncrossed ∧
      ∃ b1, cleanupBids (b.insertOrder order) = .ok b1 ∧ cleanupAsks b1 = .ok r.2) := by
  unfold Orderbook.AddOrder at h
  split at h
  · next hc => cases h; exact Or.inl ⟨Or.inl hc, rfl⟩
  · next hc =>
    split at h
    · next hf => cases h; exact Or.inl ⟨Or.inr hf, rfl⟩
    · next hf =>
      obtain ⟨h1, hu, hcl⟩ := MatchOrders_ok fuel _ r h
      refine Or.inr ⟨by simpa using hc, ?_, h1, hu, hcl⟩
      cases ht : order.orderType_ with
      | GoodTillCancel => rfl
      | FillandKill =>
        exfalso
        cases hm : b.CanMatch order.side_ order.price_ with
        | false => exact hf ⟨ht, hm⟩
        | true => exact crossed_insertOrder_of_canMatch b order hm hu

theorem cleanupBids_ok (b b1 : Orderbook) (h : cleanupBids b = .ok b1) :
    b1 = b ∨ ∃ orderID, b.CancelOrder orderID = .ok b1 := by
  unfold cleanupBids at h
  split at h
  · cases h; exact Or.inl rfl
  · cases h
  · split at h
    · exact Or.inr ⟨_, h⟩
    · cases h; exact Or.inl rfl

theorem cleanupAsks_ok (b b1 : Orderbook) (h : cleanupAsks b = .ok b1) :
    b1 = b ∨ ∃ orderID, b.CancelOrder orderID = .ok b1 := by
  unfold cleanupAsks at h
  split at h
  · cases h; exact Or.inl rfl
  · cases h
  · split at h
    · exact Or.inr ⟨_, h⟩
    · cases h; exact Or.inl rfl

/-- Induction over the returning public calls: a property of the empty book that survives
the insertion of an accepted, non-crossing GoodTillCancel order and every returning
`CancelOrder` holds of every reachable book. -/
theorem reachableBy_induction (allowed : Op → Prop) (Q : Order → Prop) (P : Orderbook → Prop)
    (hadd : ∀ o, allowed (Op.AddOrder o) → Q o)
    (hmod : ∀ m t, allowed (Op.MatchOrder m) → Q (m.ToOrderPointer t))
    (h0 : P Orderbook.empty)
    (hins : ∀ b o, P b → Q o → ordersContains b.orders_ o.orderID_ = false →
      o.orderType_ = OrderType.GoodTillCancel → (b.insertOrder o).Uncrossed →
      P (b.insertOrder o))
    (hcancel : ∀ b orderID b1, P b → b.CancelOrder orderID = .ok b1 → P b1) :
    ∀ b, ReachableBy allowed b → P b := by
  have hclean : ∀ b b1 b2, P b → cleanupBids b = .ok b1 → cleanupAsks b1 = .ok b2 → P b2 := by
    intro b b1 b2 hp h1 h2
    have hp1 : P b1 := by
      rcases cleanupBids_ok b b1 h1 with rfl | ⟨i, hi⟩
      · exact hp
      · exact hcancel b i b1 hp hi
    rcases cleanupAsks_ok b1 b2 h2 with rfl | ⟨i, hi⟩
    · exact hp1
    · exact hcancel b1 i b2 hp1 hi
  have haddok : ∀ fuel b o r, P b → Q o → b.AddOrder fuel o = .ok r → P r.2 := by
    intro fuel b o r hp hq h
    rcases AddOrder_ok fuel b o r h with ⟨_, rfl⟩ | ⟨hc, hg, _, hu, b1, h1, h2⟩
    · exact hp
    · exact hclean _ b1 _ (hins b o hp hq hc hg hu) h1 h2
  intro b hb
  induction hb with
  | empty => exact h0
  | step op fuel _ hal hrun ih =>
    cases op with
    | AddOrder order =>
      obtain ⟨r, h1, h⟩ := Result.bind_eq_ok _ _ _ hrun
      cases h
      exact haddok fuel _ order r ih (hadd order hal) h1
    | CancelOrder orderID => exact hcancel _ orderID _ ih hrun
    | MatchOrder order =>
      obtain ⟨r, h1, h⟩ := Result.bind_eq_ok _ _ _ hrun
      cases h
      unfold Orderbook.MatchOrder at h1
      split at h1
      · cases h1; exact ih
      · next existing _ =>
        obtain ⟨b2, h2, h3⟩ := Result.bind_eq_ok _ _ _ h1
        exact haddok fuel b2 _ r (hcancel _ _ b2 ih h2) (hmod order _ hal) h3

theorem resting_eq (b : Orderbook) : b.resting = heldBy b.bids_ ++ heldBy b.asks_ := rfl

theorem heldBy_cons (k : Price) (l : OrderPointers) (m : Levels) :
    heldBy ((k, l) :: m) = l ++ heldBy m := rfl

theorem mem_pushBackAt (before : Price → Price → Bool) (m : Levels) (price : Price)
    (order : Order) (e : Price × OrderPointers) (h : e ∈ pushBackAt before m price order) :
    e ∈ m ∨ e = (price, [order]) ∨ ∃ l, (price, l) ∈ m ∧ e = (price, l ++ [order]) := by
  induction m with
  | nil =>
    simp only [pushBackAt, List.mem_singleton] at h
    exact Or.inr (Or.inl h)
  | cons x rest ih =>
    obtain ⟨k, l⟩ := x
    simp only [pushBackAt] at h
    split at h
    · next hk =>
      rcases List.mem_cons.mp h with h1 | h1
      · exact Or.inr (Or.inr ⟨l, by rw [← hk]; exact List.mem_cons_self _ _, by rw [h1, hk]⟩)
      · exact Or.inl (List.mem_cons_of_mem _ h1)
    · split at h
      · rcases List.mem_cons.mp h with h1 | h1
        · exact Or.inr (Or.inl h1)
        · exact Or.inl h1
      · rcases List.mem_cons.mp h with h1 | h1
        · exact Or.inl (h1 ▸ List.mem_cons_self _ _)
        · rcases ih h1 with h2 | h2 | ⟨l1, h2, h3⟩
          · exact Or.inl (List.mem_cons_of_mem _ h2)
          · exact Or.inr (Or.inl h2)
          · exact Or.inr (Or.inr ⟨l1, List.mem_cons_of_mem _ h2, h3⟩)

/-- Inserting an order adds exactly that order to those held by the map. -/
theorem heldBy_pushBackAt (before : Price → Price → Bool) (m : Levels) (price : Price)
    (order : Order) : (heldBy (pushBackAt before m price order)).Perm (order :: heldBy m) := by
  induction m with
  | nil => simp [pushBackAt, heldBy]
  | cons x rest ih =>
    obtain ⟨k, l⟩ := x
    simp only [pushBackAt]
    split
    · simp only [heldBy_cons, List.append_assoc, List.singleton_append]
      exact List.perm_middle
    · split
      · simp only [heldBy_cons, List.singleton_append]
        exact List.Perm.refl _
      · simp only [heldBy_cons]
        exact (List.Perm.append_left l ih).trans List.perm_middle

theorem resting_insertOrder (b : Orderbook) (order : Order) :
    (b.insertOrder order).resting.Perm (order :: b.resting) := by
  unfold Orderbook.insertOrder
  split
  · simp only [resting_eq]
    exact (heldBy_pushBackAt bidBefore b.bids_ order.price_ order).append_right _
  · simp only [resting_eq]
    exact ((heldBy_pushBackAt askBefore b.asks_ order.price_ order).append_left _).trans
      List.perm_middle

theorem mem_mapSet (m : Levels) (price : Price) (l1 : OrderPointers) (e : Price × OrderPointers)
    (h : e ∈ mapSet m price l1) : e ∈ m ∨ e = (price, l1) := by
  induction m with
  | nil => cases h
  | cons x rest ih =>
    obtain ⟨k, l⟩ := x
    simp only [mapSet] at h
    split at h
    · next hk =>
      rcases List.mem_cons.mp h with h1 | h1
      · exact Or.inr (by rw [h1, hk])
      · exact Or.inl (List.mem_cons_of_mem _ h1)
    · rcases List.mem_cons.mp h with h1 | h1
      · exact Or.inl (h1 ▸ List.mem_cons_self _ _)
      · rcases ih h1 with h2 | h2
        · exact Or.inl (List.mem_cons_of_mem _ h2)
        · exact Or.inr h2

theorem eraseNode_sublist (l l1 : OrderPointers) (orderID : OrderID)
    (h : eraseNode l orderID = some l1) : l1.Sublist l := by
  induction l generalizing l1 with
  | nil => cases h
  | cons x xs ih =>
    simp only [eraseNode] at h
    split at h
    · cases h; exact List.sublist_cons_self _ _
    · cases hr : eraseNode xs orderID with
      | none => simp [hr] at h
      | some r =>
        simp only [hr, Option.map_some', Option.some.injEq] at h
        subst h
        exact (ih r hr).cons₂ x

theorem heldBy_mapErase (m : Levels) (price : Price) :
    (heldBy (mapErase m price)).Sublist (heldBy m) := by
  induction m with
  | nil => exact List.Sublist.refl _
  | cons x rest ih =>
    obtain ⟨k, l⟩ := x
    by_cases hk : k = price
    · have : mapErase ((k, l) :: rest) price = mapErase rest price := by
        simp [mapErase, List.filter_cons, hk]
      rw [this, heldBy_cons]
      exact ih.trans (List.sublist_append_right _ _)
    · have : mapErase ((k, l) :: rest) price = (k, l) :: mapErase rest price := by
        simp [mapErase, List.filter_cons, hk]
      rw [this, heldBy_cons, heldBy_cons]
      exact ih.append_left l

theorem heldBy_mapSet (m : Levels) (price : Price) (l l1 : OrderPointers)
    (hl : mapAt m price = some l) (hs : l1.Sublist l) :
    (heldBy (mapSet m price l1)).Sublist (heldBy m) := by
  induction m with
  | nil => exact List.Sublist.refl _
  | cons x rest ih =>
    obtain ⟨k, l2⟩ := x
    by_cases hk : k = price
    · simp only [mapAt, if_pos hk, Option.some.injEq] at hl
      subst hl
      simp only [mapSet, if_pos hk, heldBy_cons]
      exact hs.append_right _
    · simp only [mapAt, if_neg hk] at hl
      simp only [mapSet, if_neg hk, heldBy_cons]
      exact (ih hl).append_left l2

theorem resting_withLevels (b : Orderbook) (side : Side) (m : Levels) (idx : Index)
    (h : (heldBy m).Sublist (heldBy (b.levels side))) :
    (b.withLevels side m idx).resting.Sublist b.resting := by
  cases side with
  | Buy => exact h.append_right _
  | Sell => exact h.append_left _

/-- The shape of a returning `CancelOrder`: nothing for an unknown id; otherwise the node of
the order leaves its level, the level leaves its map if it became empty, and the id leaves
the index. -/
theorem CancelOrder_ok (b b1 : Orderbook) (orderID : OrderID)
    (h : b.CancelOrder orderID = .ok b1) :
    (ordersAt b.orders_ orderID = none ∧ b1 = b) ∨
    ∃ entry l l1, ordersAt b.orders_ orderID = some entry ∧
      mapAt (b.levels entry.order_.side_) entry.order_.price_ = some l ∧
      eraseNode l orderID = some l1 ∧
      b1 = b.withLevels entry.order_.side_
        (if l1 = [] then mapErase (b.levels entry.order_.side_) entry.order_.price_
         else mapSet (b.levels entry.order_.side_) entry.order_.price_ l1)
        (ordersErase b.orders_ orderID) := by
  cases hidx : ordersAt b.orders_ orderID with
  | none =>
    rw [CancelOrder_of_unknown b orderID hidx] at h
    cases h
    exact Or.inl ⟨rfl, rfl⟩
  | some entry =>
    rw [CancelOrder_of_indexed b orderID entry hidx] at h
    right
    cases hl : mapAt (b.levels entry.order_.side_) entry.order_.price_ with
    | none => simp [hl] at h
    | some l =>
      cases he : eraseNode l orderID with
      | none => simp [hl, he] at h
      | some l1 =>
        simp only [hl, he] at h
        cases l1 with
        | nil =>
          simp only [Result.ok.injEq] at h
          exact ⟨entry, l, [], rfl, hl, he, by rw [if_pos rfl]; exact h.symm⟩
        | cons y ys =>
          simp only [Result.ok.injEq] at h
          have hne : ¬ (y :: ys = []) := by simp
          exact ⟨entry, l, y :: ys, rfl, hl, he, by rw [if_neg hne]; exact h.symm⟩

/-- A returning `CancelOrder` only removes orders from the book. -/
theorem resting_CancelOrder (b b1 : Orderbook) (orderID : OrderID)
    (h : b.CancelOrder orderID = .ok b1) : b1.resting.Sublist b.resting := by
  rcases CancelOrder_ok b b1 orderID h with ⟨_, rfl⟩ | ⟨entry, l, l1, _, hl, he, rfl⟩
  · exact List.Sublist.refl _
  · apply resting_withLevels
    split
    · exact heldBy_mapErase _ _
    · exact heldBy_mapSet _ _ l l1 hl (eraseNode_sublist l l1 orderID he)

theorem quotedBook_reachableBy (allowed : Op → Prop)
    (h1 : allowed (Op.AddOrder (mkOrder .GoodTillCancel .Buy 100 10 1)))
    (h2 : allowed (Op.AddOrder (mkOrder .GoodTillCancel .Sell 101 10 2))) :
    ReachableBy allowed quotedBook :=
  ReachableBy.step (Op.AddOrder (mkOrder .GoodTillCancel .Sell 101 10 2)) 1
    (ReachableBy.step (Op.AddOrder (mkOrder .GoodTillCancel .Buy 100 10 1)) 1
      ReachableBy.empty h1
      (by decide : _ = Result.ok (bookOf 100 [mkOrder .GoodTillCancel .Buy 100 10 1] 0 [])))
    h2 (by decide)

theorem quotedBook_reachable : Reachable quotedBook :=
  Reachable.step (Op.AddOrder (mkOrder .GoodTillCancel .Sell 101 10 2)) 1
    (Reachable.step (Op.AddOrder (mkOrder .GoodTillCancel .Buy 100 10 1)) 1
      Reachable.empty
      (by decide : _ = Result.ok (bookOf 100 [mkOrder .GoodTillCancel .Buy 100 10 1] 0 [])))
    (by decide)

theorem levelsNonEmpty_iff (b : Orderbook) :
    b.LevelsNonEmpty ↔ ∀ side, ∀ e ∈ b.levels side, e.2 ≠ [] := by
  constructor
  · intro h side e he
    cases side with
    | Buy => exact h e (List.mem_append_left _ he)
    | Sell => exact h e (List.mem_append_right _ he)
  · intro h e he
    rcases List.mem_append.mp he with h1 | h1
    · exact h Side.Buy e h1
    · exact h Side.Sell e h1

theorem levelsNonEmpty_insertOrder (b : Orderbook) (order : Order) (h : b.LevelsNonEmpty) :
    (b.insertOrder order).LevelsNonEmpty := by
  have key : ∀ (before : Price → Price → Bool) (m : Levels), (∀ e ∈ m, e.2 ≠ []) →
      ∀ e ∈ pushBackAt before m order.price_ order, e.2 ≠ [] := by
    intro before m hm e he
    rcases mem_pushBackAt before m _ _ e he with h1 | h1 | ⟨l, _, h1⟩
    · exact hm e h1
    · rw [h1]; simp
    · rw [h1]; simp
  rw [levelsNonEmpty_iff] at h ⊢
  intro side e he
  unfold Orderbook.insertOrder at he
  split at he
  · cases side with
    | Buy => exact key bidBefore b.bids_ (h Side.Buy) e he
    | Sell => exact h Side.Sell e he
  · cases side with
    | Buy => exact h Side.Buy e he
    | Sell => exact key askBefore b.asks_ (h Side.Sell) e he

theorem levels_withLevels_cases (b : Orderbook) (side side1 : Side) (m : Levels) (idx : Index)
    (e : Price × OrderPointers) (he : e ∈ (b.withLevels side m idx).levels side1) :
    e ∈ m ∨ e ∈ b.levels side1 := by
  cases side <;> cases side1
  · exact Or.inl he
  · exact Or.inr he
  · exact Or.inr he
  · exact Or.inl he

theorem levelsNonEmpty_CancelOrder (b b1 : Orderbook) (orderID : OrderID)
    (h : b.LevelsNonEmpty) (hc : b.CancelOrder orderID = .ok b1) : b1.LevelsNonEmpty := by
  rcases CancelOrder_ok b b1 orderID hc with ⟨_, rfl⟩ | ⟨entry, l, l1, _, hl, he, rfl⟩
  · exact h
  · rw [levelsNonEmpty_iff] at h ⊢
    intro side1 e hmem
    rcases levels_withLevels_cases b _ side1 _ _ e hmem with h1 | h1
    · split at h1
      · exact h entry.order_.side_ e (List.mem_of_mem_filter h1)
      · next hne =>
        rcases mem_mapSet _ _ _ e h1 with h2 | h2
        · exact h entry.order_.side_ e h2
        · rw [h2]; exact hne
    · exact h side1 e h1

/-- C12: in every book reached from the empty book by `AddOrder`, `CancelOrder` and
`MatchOrder` calls that return, every key present in `bids_` or `asks_` maps to a non-empty
list of orders; so every level of the snapshot comes from a level that holds an order, and
whenever a side is non-empty the `front()` read of the FillandKill cleanup finds an order. -/
theorem C12_no_empty_level (b : Orderbook) (h : Reachable b) :
    b.LevelsNonEmpty ∧
    (b.bids_ ≠ [] → ∃ o, topOrder b.bids_ = some o) ∧
    (b.asks_ ≠ [] → ∃ o, topOrder b.asks_ = some o) := by
  have hne : b.LevelsNonEmpty :=
    reachableBy_induction (fun _ => True) (fun _ => True) Orderbook.LevelsNonEmpty
      (fun _ _ => trivial) (fun _ _ _ => trivial)
      (by intro e he; simp [Orderbook.empty] at he)
      (fun b o hp _ _ _ _ => levelsNonEmpty_insertOrder b o hp)
      (fun b i b1 hp hc => levelsNonEmpty_CancelOrder b b1 i hp hc)
      b (reachableBy_of_reachable b h)
  have top : ∀ m : Levels, (∀ e ∈ m, e.2 ≠ []) → m ≠ [] → ∃ o, topOrder m = some o := by
    intro m hm hnil
    match m, hm, hnil with
    | [], _, hnil => exact absurd rfl hnil
    | (k, []) :: _, hm, _ => exact absurd rfl (hm (k, []) (List.mem_cons_self _ _))
    | (_, o :: _) :: _, _, _ => exact ⟨o, rfl⟩
  rw [levelsNonEmpty_iff] at hne
  exact ⟨(levelsNonEmpty_iff b).mpr hne, top b.bids_ (hne Side.Buy), top b.asks_ (hne Side.Sell)⟩

/-- C12 on a concrete run: a buy at 100 then a sell at 101 on a fresh book. -/
theorem C12_no_empty_level_witness :
    quotedBook.LevelsNonEmpty ∧
    (quotedBook.bids_ ≠ [] → ∃ o, topOrder quotedBook.bids_ = some o) ∧
    (quotedBook.asks_ ≠ [] → ∃ o, topOrder quotedBook.asks_ = some o) :=
  C12_no_empty_level quotedBook quotedBook_reachable

/-- C13: in every book reached from the empty book by returning `AddOrder`, `CancelOrder`
and `MatchOrder` calls in which every added or replacement order has quantity > 0, every
order held in a level of `bids_` or `asks_` has a remaining quantity that is positive and at
most its initial quantity. -/
theorem C13_no_zero_remaining (b : Orderbook) (h : ReachableBy Op.Positive b) :
    ∀ o ∈ b.resting, 0 < o.remainingQuantity_ ∧ o.remainingQuantity_ ≤ o.initialQuantity_ := by
  refine reachableBy_induction Op.Positive
    (fun o => 0 < o.remainingQuantity_ ∧ o.remainingQuantity_ ≤ o.initialQuantity_)
    (fun b => ∀ o ∈ b.resting,
      0 < o.remainingQuantity_ ∧ o.remainingQuantity_ ≤ o.initialQuantity_)
    ?_ ?_ ?_ ?_ ?_ b h
  · intro o ho
    simp only [Op.Positive] at ho
    exact ⟨by rw [ho.2]; exact ho.1, le_of_eq ho.2⟩
  · intro m t hm
    simp only [Op.Positive] at hm
    exact ⟨hm, le_refl _⟩
  · intro o ho
    simp [Orderbook.empty, Orderbook.resting] at ho
  · intro b o hp hq _ _ _ o1 ho1
    rcases List.mem_cons.mp ((resting_insertOrder b o).mem_iff.mp ho1) with h1 | h1
    · rw [h1]; exact hq
    · exact hp o1 h1
  · intro b i b1 hp hc o ho
    exact hp o ((resting_CancelOrder b b1 i hc).subset ho)

/-- C13 on a concrete run: the buy resting at 100 after two adds of quantity 10. -/
theorem C13_no_zero_remaining_witness :
    0 < (mkOrder .GoodTillCancel .Buy 100 10 1).remainingQuantity_ ∧
    (mkOrder .GoodTillCancel .Buy 100 10 1).remainingQuantity_ ≤
      (mkOrder .GoodTillCancel .Buy 100 10 1).initialQuantity_ :=
  C13_no_zero_remaining quotedBook
    (quotedBook_reachableBy Op.Positive (by unfold Op.Positive; decide)
      (by unfold Op.Positive; decide))
    (mkOrder .GoodTillCancel .Buy 100 10 1) (by decide)

/-- C18: in every book reached from the empty book by `AddOrder`, `CancelOrder` and
`MatchOrder` calls that return, no order held in a level of `bids_` or `asks_` is a
FillandKill order. -/
theorem C18_no_fill_and_kill_rests (b : Orderbook) (h : Reachable b) :
    ∀ o ∈ b.resting, o.orderType_ ≠ OrderType.FillandKill := by
  refine reachableBy_induction (fun _ => True) (fun _ => True)
    (fun b => ∀ o ∈ b.resting, o.orderType_ ≠ OrderType.FillandKill)
    (fun _ _ => trivial) (fun _ _ _ => trivial) ?_ ?_ ?_ b (reachableBy_of_reachable b h)
  · intro o ho
    simp [Orderbook.empty, Orderbook.resting] at ho
  · intro b o hp _ _ hg _ o1 ho1
    rcases List.mem_cons.mp ((resting_insertOrder b o).mem_iff.mp ho1) with h1 | h1
    · rw [h1, hg]; decide
    · exact hp o1 h1
  · intro b i b1 hp hc o ho
    exact hp o ((resting_CancelOrder b b1 i hc).subset ho)

/-- C18 on a concrete run: the sell resting at 101 after two adds. -/
theorem C18_no_fill_and_kill_rests_witness :
    (mkOrder .GoodTillCancel .Sell 101 10 2).orderType_ ≠ OrderType.FillandKill :=
  C18_no_fill_and_kill_rests quotedBook quotedBook_reachable
    (mkOrder .GoodTillCancel .Sell 101 10 2) (by decide)

theorem insertOrder_eq (b : Orderbook) (order : Order) :
    b.insertOrder order =
      b.withLevels order.side_
        (pushBackAt (sideBefore order.side_) (b.levels order.side_) order.price_ order)
        (ordersInsert b.orders_ order.orderID_ { order_ := order }) := by
  cases hs : order.side_ with
  | Buy => simp [Orderbook.insertOrder, hs, Orderbook.withLevels, Orderbook.levels, sideBefore]
  | Sell => simp [Orderbook.insertOrder, hs, Orderbook.withLevels, Orderbook.levels, sideBefore]

theorem levels_withLevels_ne (b : Orderbook) (side side1 : Side) (m : Levels) (idx : Index)
    (h : side1 ≠ side) : (b.withLevels side m idx).levels side1 = b.levels side1 := by
  cases side <;> cases side1 <;> first | rfl | exact absurd rfl h

theorem sideBefore_trans (side : Side) (a b c : Price) (h1 : sideBefore side a b = true)
    (h2 : sideBefore side b c = true) : sideBefore side a c = true := by
  cases side with
  | Buy => exact bidBefore_trans a b c h1 h2
  | Sell => exact askBefore_trans a b c h1 h2

theorem sideBefore_irrefl (side : Side) (a : Price) : sideBefore side a a = false := by
  cases side with
  | Buy => exact bidBefore_irrefl a
  | Sell => exact askBefore_irrefl a

theorem sorted_levels (b : Orderbook) (h : b.MapsSorted) (side : Side) :
    (keys (b.levels side)).Pairwise (fun x y => sideBefore side x y = true) := by
  cases side with
  | Buy => simpa [sideBefore, bidBefore, Orderbook.levels] using h.1
  | Sell => simpa [sideBefore, askBefore, Orderbook.levels] using h.2

theorem nodup_keys_levels (b : Orderbook) (h : b.MapsSorted) (side : Side) :
    (keys (b.levels side)).Nodup := by
  refine (sorted_levels b h side).imp ?_
  intro x y hxy hEq
  rw [hEq, sideBefore_irrefl] at hxy
  exact Bool.false_ne_true hxy

theorem ordersAt_append_of_some (idx l : Index) (orderID : OrderID) (e : OrderEntry)
    (h : ordersAt idx orderID = some e) : ordersAt (idx ++ l) orderID = some e := by
  induction idx with
  | nil => cases h
  | cons x rest ih =>
    obtain ⟨k, v⟩ := x
    by_cases hk : k = orderID
    · simpa [ordersAt, hk] using h
    · simp only [ordersAt, if_neg hk] at h
      simpa [ordersAt, hk] using ih h

theorem ordersAt_append_of_none (idx l : Index) (orderID : OrderID)
    (h : ordersAt idx orderID = none) : ordersAt (idx ++ l) orderID = ordersAt l orderID := by
  induction idx with
  | nil => rfl
  | cons x rest ih =>
    obtain ⟨k, v⟩ := x
    by_cases hk : k = orderID
    · simp [ordersAt, hk] at h
    · simp only [ordersAt, if_neg hk] at h
      simpa [ordersAt, hk] using ih h

theorem ordersAt_none_iff (idx : Index) (orderID : OrderID) :
    ordersAt idx orderID = none ↔ orderID ∉ idx.map Prod.fst := by
  induction idx with
  | nil => simp [ordersAt]
  | cons x rest ih =>
    obtain ⟨k, v⟩ := x
    by_cases hk : k = orderID
    · simp [ordersAt, hk]
    · simp only [ordersAt, if_neg hk, ih, List.map_cons, List.mem_cons, not_or]
      exact ⟨fun h => ⟨fun hh => hk hh.symm, h⟩, fun h => h.2⟩

theorem ordersAt_none_of_not_contains (idx : Index) (orderID : OrderID)
    (h : ordersContains idx orderID = false) : ordersAt idx orderID = none := by
  cases hh : ordersAt idx orderID with
  | none => rfl
  | some e => simp [ordersContains, hh] at h

theorem mapAt_pushBackAt_other (before : Price → Price → Bool) (m : Levels) (price q : Price)
    (order : Order) (h : q ≠ price) :
    mapAt (pushBackAt before m price order) q = mapAt m q := by
  induction m with
  | nil => simp [pushBackAt, mapAt, Ne.symm h]
  | cons x rest ih =>
    obtain ⟨k, l⟩ := x
    simp only [pushBackAt]
    split
    · next hk =>
      have : k ≠ q := fun hh => h (hh ▸ hk)
      simp [mapAt, this]
    · split
      · simp [mapAt, Ne.symm h]
      · by_cases hkq : k = q
        · simp [mapAt, hkq]
        · simp only [mapAt, if_neg hkq]
          exact ih

theorem mapAt_mapErase_other (m : Levels) (price q : Price) (h : q ≠ price) :
    mapAt (mapErase m price) q = mapAt m q := by
  induction m with
  | nil => rfl
  | cons x rest ih =>
    obtain ⟨k, l⟩ := x
    by_cases hk : k = price
    · have hkq : k ≠ q := fun hh => h (hh ▸ hk)
      have : mapErase ((k, l) :: rest) price = mapErase rest price := by
        simp [mapErase, List.filter_cons, hk]
      rw [this, ih]
      simp [mapAt, hkq]
    · have : mapErase ((k, l) :: rest) price = (k, l) :: mapErase rest price := by
        simp [mapErase, List.filter_cons, hk]
      rw [this]
      by_cases hkq : k = q
      · simp [mapAt, hkq]
      · simp only [mapAt, if_neg hkq]
        exact ih

theorem mapAt_mapSet_other (m : Levels) (price q : Price) (l1 : OrderPointers) (h : q ≠ price) :
    mapAt (mapSet m price l1) q = mapAt m q := by
  induction m with
  | nil => rfl
  | cons x rest ih =>
    obtain ⟨k, l⟩ := x
    by_cases hk : k = price
    · have hkq : k ≠ q := fun hh => h (hh ▸ hk)
      have hpq : price ≠ q := Ne.symm h
      simp [mapSet, hk, mapAt, hpq]
    · simp only [mapSet, if_neg hk]
      by_cases hkq : k = q
      · simp [mapAt, hkq]
      · simp only [mapAt, if_neg hkq]
        exact ih

theorem mem_mapSet_of_nodup (m : Levels) (price : Price) (l1 : OrderPointers)
    (hnd : (keys m).Nodup) (e : Price × OrderPointers) (h : e ∈ mapSet m price l1) :
    (e ∈ m ∧ e.1 ≠ price) ∨ e = (price, l1) := by
  induction m with
  | nil => cases h
  | cons x rest ih =>
    obtain ⟨k, l⟩ := x
    simp only [keys, List.map_cons, List.nodup_cons] at hnd
    simp only [mapSet] at h
    split at h
    · next hk =>
      rcases List.mem_cons.mp h with h1 | h1
      · exact Or.inr (by rw [h1, hk])
      · left
        refine ⟨List.mem_cons_of_mem _ h1, ?_⟩
        intro hEq
        apply hnd.1
        rw [hk, ← hEq]
        exact List.mem_map_of_mem Prod.fst h1
    · next hk =>
      rcases List.mem_cons.mp h with h1 | h1
      · exact Or.inl ⟨h1 ▸ List.mem_cons_self _ _, by rw [h1]; exact hk⟩
      · rcases ih hnd.2 h1 with ⟨h2, h3⟩ | h2
        · exact Or.inl ⟨List.mem_cons_of_mem _ h2, h3⟩
        · exact Or.inr h2

theorem eraseNode_mem (l l1 : OrderPointers) (orderID : OrderID)
    (h : eraseNode l orderID = some l1) (x : Order) (hx : x ∈ l) (hne : x.orderID_ ≠ orderID) :
    x ∈ l1 := by
  induction l generalizing l1 with
  | nil => cases hx
  | cons y ys ih =>
    simp only [eraseNode] at h
    split at h
    · next hy =>
      cases h
      rcases List.mem_cons.mp hx with h1 | h1
      · exact absurd (h1 ▸ hy) hne
      · exact h1
    · cases hr : eraseNode ys orderID with
      | none => simp [hr] at h
      | some r =>
        simp only [hr, Option.map_some', Option.some.injEq] at h
        subst h
        rcases List.mem_cons.mp hx with h1 | h1
        · exact h1 ▸ List.mem_cons_self _ _
        · exact List.mem_cons_of_mem _ (ih r hr h1)

theorem eraseNode_ids_ne (l l1 : OrderPointers) (orderID : OrderID)
    (hnd : (l.map Order.orderID_).Nodup) (h : eraseNode l orderID = some l1) :
    ∀ y ∈ l1, y.orderID_ ≠ orderID := by
  induction l generalizing l1 with
  | nil => cases h
  | cons x xs ih =>
    simp only [List.map_cons, List.nodup_cons, List.mem_map, not_exists, not_and] at hnd
    simp only [eraseNode] at h
    split at h
    · next hx =>
      cases h
      intro y hy hEq
      exact hnd.1 y hy (hEq.trans hx.symm)
    · next hx =>
      cases hr : eraseNode xs orderID with
      | none => simp [hr] at h
      | some r =>
        simp only [hr, Option.map_some', Option.some.injEq] at h
        subst h
        intro y hy
        rcases List.mem_cons.mp hy with h1 | h1
        · exact h1 ▸ hx
        · exact ih r hnd.2 hr y h1

theorem mem_resting (b : Orderbook) (o : Order) (h : o ∈ b.resting) :
    ∃ side e, e ∈ b.levels side ∧ o ∈ e.2 := by
  simp only [Orderbook.resting, List.mem_append, List.mem_flatten, List.mem_map] at h
  rcases h with ⟨l, ⟨e, he, rfl⟩, ho⟩ | ⟨l, ⟨e, he, rfl⟩, ho⟩
  · exact ⟨Side.Buy, e, he, ho⟩
  · exact ⟨Side.Sell, e, he, ho⟩

theorem resting_of_mem (b : Orderbook) (side : Side) (e : Price × OrderPointers) (o : Order)
    (he : e ∈ b.levels side) (ho : o ∈ e.2) : o ∈ b.resting := by
  simp only [Orderbook.resting, List.mem_append, List.mem_flatten, List.mem_map]
  cases side with
  | Buy => exact Or.inl ⟨e.2, ⟨e, he, rfl⟩, ho⟩
  | Sell => exact Or.inr ⟨e.2, ⟨e, he, rfl⟩, ho⟩

theorem indexAgrees_insertOrder (b : Orderbook) (o : Order) (hag : b.IndexAgrees)
    (hs : b.MapsSorted) (hc : ordersContains b.orders_ o.orderID_ = false) :
    (b.insertOrder o).IndexAgrees := by
  have hnone : ordersAt b.orders_ o.orderID_ = none := ordersAt_none_of_not_contains _ _ hc
  have hnew : ordersAt (b.orders_ ++ [(o.orderID_, { order_ := o })]) o.orderID_ =
      some { order_ := o } := by
    rw [ordersAt_append_of_none _ _ _ hnone]
    simp [ordersAt]
  have hlevel : mapAt (pushBackAt (sideBefore o.side_) (b.levels o.side_) o.price_ o) o.price_ =
      some ((mapAt (b.levels o.side_) o.price_).getD [] ++ [o]) :=
    mapAt_pushBackAt _ (sideBefore_trans o.side_) (sideBefore_irrefl o.side_) _ _ _
      (sorted_levels b hs o.side_)
  refine ⟨?_, ?_, ?_⟩
  · intro id1 e1 h1
    rw [insertOrder_eq, ordersInsert_fresh _ _ _ hc] at *
    rw [withLevels_orders] at h1
    cases hold : ordersAt b.orders_ id1 with
    | none =>
      rw [ordersAt_append_of_none _ _ _ hold] at h1
      simp only [ordersAt] at h1
      split at h1
      · next hk =>
        cases h1
        refine ⟨hk, ?_⟩
        rw [withLevels_levels]
        exact ⟨_, hlevel, by simp⟩
      · cases h1
    | some x =>
      rw [ordersAt_append_of_some _ _ _ _ hold] at h1
      cases h1
      obtain ⟨hid, l, hl, hmem⟩ := hag.indexed_in_level id1 e1 hold
      refine ⟨hid, ?_⟩
      by_cases hside : e1.order_.side_ = o.side_
      · rw [hside, withLevels_levels]
        rw [hside] at hl
        by_cases hp : e1.order_.price_ = o.price_
        · rw [hp]
          rw [hp] at hl
          refine ⟨_, hlevel, ?_⟩
          rw [hl]
          simp [hmem]
        · rw [mapAt_pushBackAt_other _ _ _ _ _ hp]
          exact ⟨l, hl, hmem⟩
      · rw [levels_withLevels_ne _ _ _ _ _ hside]
        exact ⟨l, hl, hmem⟩
  · intro side e he o1 ho1
    rw [insertOrder_eq, ordersInsert_fresh _ _ _ hc] at *
    rw [withLevels_orders]
    have hold : ∀ e1 ∈ b.levels side, ∀ o2 ∈ e1.2, o2.side_ = side ∧ o2.price_ = e1.1 ∧
        ordersAt (b.orders_ ++ [(o.orderID_, { order_ := o })]) o2.orderID_ =
          some { order_ := o2 } := by
      intro e1 he1 o2 ho2
      obtain ⟨a, p, c⟩ := hag.level_indexed side e1 he1 o2 ho2
      exact ⟨a, p, ordersAt_append_of_some _ _ _ _ c⟩
    by_cases hside : side = o.side_
    · subst hside
      rw [withLevels_levels] at he
      rcases mem_pushBackAt _ _ _ _ e he with h | h | ⟨l, hl, h⟩
      · exact hold e h o1 ho1
      · subst h
        simp only [List.mem_singleton] at ho1
        subst ho1
        exact ⟨rfl, rfl, hnew⟩
      · subst h
        rcases List.mem_append.mp ho1 with h1 | h1
        · exact hold (o.price_, l) hl o1 h1
        · simp only [List.mem_singleton] at h1
          subst h1
          exact ⟨rfl, rfl, hnew⟩
    · rw [levels_withLevels_ne _ _ _ _ _ hside] at he
      exact hold e he o1 ho1
  · refine ((resting_insertOrder b o).map Order.orderID_).nodup_iff.mpr ?_
    simp only [List.map_cons]
    refine List.nodup_cons.mpr ⟨?_, hag.ids_unique⟩
    intro hmem
    obtain ⟨o1, ho1, hEq⟩ := List.mem_map.mp hmem
    obtain ⟨side, e, he, hoe⟩ := mem_resting b o1 ho1
    have := (hag.level_indexed side e he o1 hoe).2.2
    rw [hEq, hnone] at this
    cases this

theorem indexAgrees_CancelOrder (b b1 : Orderbook) (orderID : OrderID) (hag : b.IndexAgrees)
    (hs : b.MapsSorted) (hc : b.CancelOrder orderID = .ok b1) : b1.IndexAgrees := by
  have hsubl := resting_CancelOrder b b1 orderID hc
  rcases CancelOrder_ok b b1 orderID hc with ⟨_, rfl⟩ | ⟨entry, l, l1, hidx, hl, he, rfl⟩
  · exact hag
  have hnd := level_ids_nodup b hag _ _ l hl
  have hne1 := eraseNode_ids_ne l l1 orderID hnd he
  have hkeep := eraseNode_mem l l1 orderID he
  have hsub := eraseNode_sublist l l1 orderID he
  have hsame : ∀ side e, e ∈ b.levels side → ∀ o1 ∈ e.2, o1.orderID_ = orderID →
      o1 = entry.order_ := by
    intro side e hmem o1 ho1 hEq
    have c := (hag.level_indexed side e hmem o1 ho1).2.2
    rw [hEq, hidx] at c
    cases c
    rfl
  refine ⟨?_, ?_, (hsubl.map Order.orderID_).nodup hag.ids_unique⟩
  · intro id1 e1 h1
    rw [withLevels_orders] at h1
    have hne : id1 ≠ orderID := by
      intro hEq
      rw [hEq, ordersAt_ordersErase_self] at h1
      cases h1
    rw [ordersAt_ordersErase_other _ _ _ hne] at h1
    obtain ⟨hid, l2, hl2, hmem⟩ := hag.indexed_in_level id1 e1 h1
    refine ⟨hid, ?_⟩
    by_cases hside : e1.order_.side_ = entry.order_.side_
    · rw [hside, withLevels_levels]
      rw [hside] at hl2
      by_cases hp : e1.order_.price_ = entry.order_.price_
      · rw [hp]
        rw [hp, hl] at hl2
        cases hl2
        have hin : e1.order_ ∈ l1 := hkeep _ hmem (by rw [hid]; exact hne)
        have hl1 : l1 ≠ [] := List.ne_nil_of_mem hin
        rw [if_neg hl1]
        exact ⟨l1, mapAt_mapSet_self _ _ _ _ hl, hin⟩
      · split
        · rw [mapAt_mapErase_other _ _ _ hp]
          exact ⟨l2, hl2, hmem⟩
        · rw [mapAt_mapSet_other _ _ _ _ hp]
          exact ⟨l2, hl2, hmem⟩
    · rw [levels_withLevels_ne _ _ _ _ _ hside]
      exact ⟨l2, hl2, hmem⟩
  · intro side1 e hmem o1 ho1
    rw [withLevels_orders]
    have hold : ∀ e1 ∈ b.levels side1, ∀ o2 ∈ e1.2, o2.orderID_ ≠ orderID →
        o2.side_ = side1 ∧ o2.price_ = e1.1 ∧
          ordersAt (ordersErase b.orders_ orderID) o2.orderID_ = some { order_ := o2 } := by
      intro e1 he1 o2 ho2 hne
      obtain ⟨a, p, c⟩ := hag.level_indexed side1 e1 he1 o2 ho2
      exact ⟨a, p, by rw [ordersAt_ordersErase_other _ _ _ hne]; exact c⟩
    by_cases hside : side1 = entry.order_.side_
    · subst hside
      rw [withLevels_levels] at hmem
      have hcase : (e ∈ b.levels entry.order_.side_ ∧ e.1 ≠ entry.order_.price_) ∨
          e = (entry.order_.price_, l1) := by
        split at hmem
        · simp only [mapErase, List.mem_filter, decide_eq_true_eq] at hmem
          exact Or.inl hmem
        · exact mem_mapSet_of_nodup _ _ _ (nodup_keys_levels b hs _) e hmem
      rcases hcase with ⟨h1, h2⟩ | h1
      · refine hold e h1 o1 ho1 ?_
        intro hEq
        have := hsame _ e h1 o1 ho1 hEq
        have hp := (hag.level_indexed _ e h1 o1 ho1).2.1
        rw [this] at hp
        exact h2 hp.symm
      · subst h1
        exact hold (entry.order_.price_, l) (mem_of_mapAt _ _ _ hl) o1 (hsub.subset ho1)
          (hne1 o1 ho1)
    · rw [levels_withLevels_ne _ _ _ _ _ hside] at hmem
      refine hold e hmem o1 ho1 ?_
      intro hEq
      have := hsame _ e hmem o1 ho1 hEq
      have hsd := (hag.level_indexed _ e hmem o1 ho1).1
      rw [this] at hsd
      exact hside hsd.symm

theorem coherent_insertOrder (b : Orderbook) (o : Order) (h : b.Coherent)
    (hc : ordersContains b.orders_ o.orderID_ = false) : (b.insertOrder o).Coherent := by
  refine ⟨indexAgrees_insertOrder b o h.1 h.2.1 hc, mapsSorted_insertOrder b o h.2.1, ?_⟩
  rw [insertOrder_eq, withLevels_orders, ordersInsert_fresh _ _ _ hc]
  have hnot : o.orderID_ ∉ b.orders_.map Prod.fst :=
    (ordersAt_none_iff _ _).mp (ordersAt_none_of_not_contains _ _ hc)
  simp only [List.map_append, List.map_cons, List.map_nil]
  exact (List.perm_append_singleton _ _).nodup_iff.mpr (List.nodup_cons.mpr ⟨hnot, h.2.2⟩)

theorem coherent_CancelOrder (b b1 : Orderbook) (orderID : OrderID) (h : b.Coherent)
    (hc : b.CancelOrder orderID = .ok b1) : b1.Coherent := by
  refine ⟨indexAgrees_CancelOrder b b1 orderID h.1 h.2.1 hc, ?_, ?_⟩
  · exact ⟨h.2.1.1.sublist (CancelOrder_keys b b1 orderID hc).1,
      h.2.1.2.sublist (CancelOrder_keys b b1 orderID hc).2⟩
  · rcases CancelOrder_ok b b1 orderID hc with ⟨_, rfl⟩ | ⟨entry, l, l1, _, _, _, rfl⟩
    · exact h.2.2
    · rw [withLevels_orders]
      exact ((List.filter_sublist _).map Prod.fst).nodup h.2.2

theorem coherent_reachable (b : Orderbook) (h : Reachable b) : b.Coherent := by
  refine reachableBy_induction (fun _ => True) (fun _ => True) Orderbook.Coherent
    (fun _ _ => trivial) (fun _ _ _ => trivial) ?_
    (fun b o hp _ hc _ _ => coherent_insertOrder b o hp hc)
    (fun b i b1 hp hc => coherent_CancelOrder b b1 i hp hc)
    b (reachableBy_of_reachable b h)
  refine ⟨⟨?_, ?_, ?_⟩, ⟨?_, ?_⟩, ?_⟩
  · intro i e he
    simp [Orderbook.empty, ordersAt] at he
  · intro side e he
    cases side <;> simp [Orderbook.empty, Orderbook.levels] at he
  · simp [Orderbook.empty, Orderbook.resting]
  · simp [Orderbook.empty, keys]
  · simp [Orderbook.empty, keys]
  · simp [Orderbook.empty]

/-- In a coherent book the ids of the index are, up to order, the ids held by the levels. -/
theorem index_ids_perm (b : Orderbook) (h : b.Coherent) :
    (b.orders_.map Prod.fst).Perm (b.resting.map Order.orderID_) := by
  refine (List.perm_ext_iff_of_nodup h.2.2 h.1.ids_unique).mpr ?_
  intro i
  constructor
  · intro hi
    cases hat : ordersAt b.orders_ i with
    | none => exact absurd hi ((ordersAt_none_iff _ _).mp hat)
    | some e =>
      obtain ⟨hid, l, hl, hmem⟩ := h.1.indexed_in_level i e hat
      exact List.mem_map.mpr ⟨e.order_,
        resting_of_mem b _ _ _ (mem_of_mapAt _ _ _ hl) hmem, hid⟩
  · intro hi
    obtain ⟨o, ho, hEq⟩ := List.mem_map.mp hi
    obtain ⟨side, e, he, hoe⟩ := mem_resting b o ho
    have c := (h.1.level_indexed side e he o hoe).2.2
    by_contra hnot
    rw [← hEq] at hnot
    rw [(ordersAt_none_iff _ _).mpr hnot] at c
    cases c

/-- C11: in every book reached from the empty book by `AddOrder`, `CancelOrder` and
`MatchOrder` calls that return, the index and the levels agree: every indexed id is the id of
an order held by the level of that order's side (`bids_` iff Buy) under the key equal to its
price, and of exactly one node of the whole book; every order held in a level is on that
side, at that price, and is the order indexed under its id; the index has no repeated key;
and `Size()` is the number of orders held in all levels. -/
theorem C11_index_agrees (b : Orderbook) (h : Reachable b) :
    b.IndexAgrees ∧
    (∀ orderID, ordersContains b.orders_ orderID = true →
      (b.resting.map Order.orderID_).count orderID = 1) ∧
    (b.orders_.map Prod.fst).Nodup ∧
    b.Size = b.resting.length := by
  have hco := coherent_reachable b h
  have hperm := index_ids_perm b hco
  refine ⟨hco.1, ?_, hco.2.2, ?_⟩
  · intro i hi
    apply List.count_eq_one_of_mem hco.1.ids_unique
    apply hperm.mem_iff.mp
    by_contra hnot
    rw [ordersContains, (ordersAt_none_iff _ _).mpr hnot] at hi
    cases hi
  · have := hperm.length_eq
    simpa [Orderbook.Size] using this

/-- C11 on a concrete run: a buy at 100 then a sell at 101 on a fresh book. -/
theorem C11_index_agrees_witness :
    quotedBook.IndexAgrees ∧
    (∀ orderID, ordersContains quotedBook.orders_ orderID = true →
      (quotedBook.resting.map Order.orderID_).count orderID = 1) ∧
    (quotedBook.orders_.map Prod.fst).Nodup ∧
    quotedBook.Size = quotedBook.resting.length :=
  C11_index_agrees quotedBook quotedBook_reachable

theorem foldl_quantity (orders : OrderPointers) (a : Nat) :
    orders.foldl (fun runningSum order => (runningSum + order.remainingQuantity_) % 2 ^ 32)
        (a % 2 ^ 32) = (a + totalRemaining orders) % 2 ^ 32 := by
  induction orders generalizing a with
  | nil => simp [totalRemaining]
  | cons o os ih =>
    simp only [List.foldl_cons, totalRemaining, List.map_cons, List.sum_cons]
    rw [ih (a % 2 ^ 32 + o.remainingQuantity_), Nat.add_assoc, Nat.mod_add_mod]
    simp only [totalRemaining, Nat.add_assoc]

theorem CreateLevelInfos_eq (price : Price) (orders : OrderPointers) :
    CreateLevelInfos price orders =
      { price_ := price, quantity_ := totalRemaining orders % 2 ^ 32 } := by
  have := foldl_quantity orders 0
  simp only [Nat.zero_mod, Nat.zero_add] at this
  simp only [CreateLevelInfos, this]

/-- C15: for every book, `GetOrderInfos` returns one `LevelInfo` per price level of each side
and nothing else: the prices of the bid list are the keys of `bids_` and those of the ask list
the keys of `asks_`, in iteration order; the maps being `std::map`s (keys strictly ordered by
their comparators, as in every reachable book), the bid prices are strictly descending, the
ask prices strictly ascending, and no price is repeated on a side. -/
theorem C15_snapshot_levels (b : Orderbook) :
    b.GetOrderInfos.bids_.map LevelInfo.price_ = keys b.bids_ ∧
    b.GetOrderInfos.asks_.map LevelInfo.price_ = keys b.asks_ ∧
    b.GetOrderInfos.bids_.length = b.bids_.length ∧
    b.GetOrderInfos.asks_.length = b.asks_.length ∧
    (b.MapsSorted →
      (b.GetOrderInfos.bids_.map LevelInfo.price_).Pairwise (fun x y => x > y) ∧
      (b.GetOrderInfos.asks_.map LevelInfo.price_).Pairwise (fun x y => x < y) ∧
      (b.GetOrderInfos.bids_.map LevelInfo.price_).Nodup ∧
      (b.GetOrderInfos.asks_.map LevelInfo.price_).Nodup) ∧
    (Reachable b → b.MapsSorted) := by
  have hb : b.GetOrderInfos.bids_.map LevelInfo.price_ = keys b.bids_ := by
    simp [Orderbook.GetOrderInfos, keys, CreateLevelInfos, Function.comp_def]
  have ha : b.GetOrderInfos.asks_.map LevelInfo.price_ = keys b.asks_ := by
    simp [Orderbook.GetOrderInfos, keys, CreateLevelInfos, Function.comp_def]
  refine ⟨hb, ha, by simp [Orderbook.GetOrderInfos], by simp [Orderbook.GetOrderInfos], ?_,
    fun h => (priceInv_reachable b h).1⟩
  intro hs
  rw [hb, ha]
  refine ⟨hs.1, hs.2, hs.1.imp ?_, hs.2.imp ?_⟩
  · intro x y hxy
    exact ne_of_gt hxy
  · intro x y hxy
    exact ne_of_lt hxy

/-- C15 on a concrete run: a buy at 100 then a sell at 101 on a fresh book. -/
theorem C15_snapshot_levels_witness :
    quotedBook.GetOrderInfos =
      { bids_ := [{ price_ := 100, quantity_ := 10 }],
        asks_ := [{ price_ := 101, quantity_ := 10 }] } ∧
    (quotedBook.GetOrderInfos.bids_.map LevelInfo.price_).Pairwise (fun x y => x > y) ∧
    (quotedBook.GetOrderInfos.asks_.map LevelInfo.price_).Pairwise (fun x y => x < y) ∧
    (quotedBook.GetOrderInfos.bids_.map LevelInfo.price_).Nodup ∧
    (quotedBook.GetOrderInfos.asks_.map LevelInfo.price_).Nodup :=
  ⟨by decide,
   (C15_snapshot_levels quotedBook).2.2.2.2.1
     ((C15_snapshot_levels quotedBook).2.2.2.2.2 quotedBook_reachable)⟩

/-- C16 (amended): for every book and every level reported by `GetOrderInfos`, the
`LevelInfo` quantity is the total remaining quantity of the level reduced modulo 2^32, the
accumulation being done in the unsigned 32-bit type `Quantity`; it equals the total itself
whenever that total is below 2^32. -/
theorem C16_level_quantity (b : Orderbook) :
    b.GetOrderInfos.bids_ =
      b.bids_.map (fun e => { price_ := e.1, quantity_ := totalRemaining e.2 % 2 ^ 32 }) ∧
    b.GetOrderInfos.asks_ =
      b.asks_.map (fun e => { price_ := e.1, quantity_ := totalRemaining e.2 % 2 ^ 32 }) ∧
    (∀ price orders, totalRemaining orders < 2 ^ 32 →
      CreateLevelInfos price orders = { price_ := price, quantity_ := totalRemaining orders }) := by
  refine ⟨?_, ?_, ?_⟩
  · simp only [Orderbook.GetOrderInfos, CreateLevelInfos_eq]
  · simp only [Orderbook.GetOrderInfos, CreateLevelInfos_eq]
  · intro price orders h
    rw [CreateLevelInfos_eq, Nat.mod_eq_of_lt h]

/-- C16 on a concrete level: two orders with 5 and 7 remaining report 12. -/
theorem C16_level_quantity_witness :
    CreateLevelInfos 100 [mkOrder .GoodTillCancel .Buy 100 5 1,
                          mkOrder .GoodTillCancel .Buy 100 7 2] =
      { price_ := 100, quantity_ := totalRemaining [mkOrder .GoodTillCancel .Buy 100 5 1,
                                                    mkOrder .GoodTillCancel .Buy 100 7 2] } :=
  (C16_level_quantity Orderbook.empty).2.2 100 _ (by decide)

/-- C16 as stated fails: two buys of 3000000000 at 100 are accepted on a fresh book, the
level then holds 6000000000 in total, and the snapshot reports 1705032704. -/
theorem C16_counterexample :
    Reachable heavyBook ∧
    totalRemaining [mkOrder .GoodTillCancel .Buy 100 3000000000 1,
                    mkOrder .GoodTillCancel .Buy 100 3000000000 2] = 6000000000 ∧
    heavyBook.GetOrderInfos =
      { bids_ := [{ price_ := 100, quantity_ := 1705032704 }], asks_ := [] } ∧
    heavyBook.GetOrderInfos.bids_.map LevelInfo.quantity_ ≠
      heavyBook.bids_.map (fun e => totalRemaining e.2) := by
  refine ⟨?_, by decide, by decide, by decide⟩
  exact Reachable.step (Op.AddOrder (mkOrder .GoodTillCancel .Buy 100 3000000000 2)) 1
    (Reachable.step (Op.AddOrder (mkOrder .GoodTillCancel .Buy 100 3000000000 1)) 1
      Reachable.empty
      (by decide : _ = Result.ok
        (bookOf 100 [mkOrder .GoodTillCancel .Buy 100 3000000000 1] 0 [])))
    (by decide)

theorem afterFill_bounds (qs : List Quantity) :
    ∀ o : Order, o.remainingQuantity_ ≤ o.initialQuantity_ →
      (qs.foldl Order.afterFill o).remainingQuantity_ ≤ o.initialQuantity_ ∧
      (qs.foldl Order.afterFill o).initialQuantity_ = o.initialQuantity_ := by
  induction qs with
  | nil => intro o h; exact ⟨h, rfl⟩
  | cons q qs ih =>
    intro o h
    simp only [List.foldl_cons]
    have h1 : (o.afterFill q).remainingQuantity_ ≤ (o.afterFill q).initialQuantity_ ∧
        (o.afterFill q).initialQuantity_ = o.initialQuantity_ := by
      unfold Order.afterFill
      split
      · exact ⟨h, rfl⟩
      · exact ⟨le_trans (Nat.sub_le _ _) h, rfl⟩
    have h2 := ih (o.afterFill q) h1.1
    rw [h1.2] at h2
    exact h2

/-- C19: `Fill(q)` with `q ≤ remaining` returns and leaves the order with its remaining
quantity decreased by exactly `q` and every other field as it was; with `q > remaining` it
throws `std::logic_error` and leaves the order unchanged; `isFilled()` holds iff the
remaining quantity is 0; and for an order with `remaining ≤ initial` (as the constructor
builds it) any sequence of `Fill` calls keeps `remaining ≤ initial` and the initial quantity
fixed, so that for a 32-bit initial quantity `GetFilledQuantity()` is
`initial - remaining` without wrapping. -/
theorem C19_fill_contract (o : Order) (q : Quantity) :
    (q ≤ o.remainingQuantity_ →
      o.Fill q = .ok { o with remainingQuantity_ := o.remainingQuantity_ - q } ∧
      o.afterFill q = { o with remainingQuantity_ := o.remainingQuantity_ - q }) ∧
    (q > o.remainingQuantity_ → o.Fill q = .fault .logic_error ∧ o.afterFill q = o) ∧
    (o.isFilled = true ↔ o.remainingQuantity_ = 0) ∧
    (o.remainingQuantity_ ≤ o.initialQuantity_ → ∀ qs : List Quantity,
      (qs.foldl Order.afterFill o).remainingQuantity_ ≤
        (qs.foldl Order.afterFill o).initialQuantity_ ∧
      (qs.foldl Order.afterFill o).initialQuantity_ = o.initialQuantity_ ∧
      (o.initialQuantity_ < 2 ^ 32 →
        (qs.foldl Order.afterFill o).GetFilledQuantity =
          o.initialQuantity_ - (qs.foldl Order.afterFill o).remainingQuantity_)) := by
  refine ⟨?_, ?_, ?_, ?_⟩
  · intro h
    have hn : ¬ (q > o.remainingQuantity_) := not_lt.mpr h
    simp [Order.Fill, Order.afterFill, hn]
  · intro h
    simp [Order.Fill, Order.afterFill, h]
  · simp [Order.isFilled]
  · intro h qs
    obtain ⟨h1, h2⟩ := afterFill_bounds qs o h
    refine ⟨by rw [h2]; exact h1, h2, ?_⟩
    intro h32
    unfold Order.GetFilledQuantity
    rw [h2]
    generalize (qs.foldl Order.afterFill o).remainingQuantity_ = r at h1
    generalize o.initialQuantity_ = i at h1 h32
    have hr : r % 2 ^ 32 = r := Nat.mod_eq_of_lt (lt_of_le_of_lt h1 h32)
    rw [hr]
    have : i + 2 ^ 32 - r = (i - r) + 2 ^ 32 := Nat.sub_add_comm h1
    rw [this, Nat.add_mod_right]
    exact Nat.mod_eq_of_lt (lt_of_le_of_lt (Nat.sub_le _ _) h32)

/-- C19 on a concrete order: quantity 10, filled by 4, by 20 (refused) and by 6. -/
theorem C19_fill_contract_witness :
    (mkOrder .GoodTillCancel .Buy 100 10 1).Fill 4 =
      .ok { mkOrder .GoodTillCancel .Buy 100 10 1 with remainingQuantity_ := 10 - 4 } ∧
    (mkOrder .GoodTillCancel .Buy 100 10 1).Fill 20 = .fault .logic_error ∧
    ([4, 20, 6].foldl Order.afterFill (mkOrder .GoodTillCancel .Buy 100 10 1)).GetFilledQuantity =
      10 - ([4, 20, 6].foldl Order.afterFill
        (mkOrder .GoodTillCancel .Buy 100 10 1)).remainingQuantity_ :=
  ⟨((C19_fill_contract (mkOrder .GoodTillCancel .Buy 100 10 1) 4).1 (by decide)).1,
   ((C19_fill_contract (mkOrder .GoodTillCancel .Buy 100 10 1) 20).2.1 (by decide)).1,
   ((C19_fill_contract (mkOrder .GoodTillCancel .Buy 100 10 1) 0).2.2.2 (by decide)
      [4, 20, 6]).2.2 (by decide)⟩

theorem totalRemaining_cons (o : Order) (os : OrderPointers) :
    totalRemaining (o :: os) = o.remainingQuantity_ + totalRemaining os := by
  simp [totalRemaining]

theorem tradedVolume_append (ts : Trades) (t : Trade) :
    tradedVolume (ts ++ [t]) = tradedVolume ts + t.bidTrade_.quantity_ := by
  simp [tradedVolume]

theorem conservation_arith (rb ra q tb ta v : Nat) (h1 : q ≤ rb) (h2 : q ≤ ra) :
    (rb - q) + tb + ((ra - q) + ta) + 2 * (v + q) = rb + tb + (ra + ta) + 2 * v := by
  omega

theorem totalRemaining_front (r : Nat) (o : Order) (os : OrderPointers) :
    totalRemaining (if r = 0 then os else { o with remainingQuantity_ := r } :: os) =
      r + totalRemaining os := by
  split
  · next h0 => rw [h0, Nat.zero_add]
  · rw [totalRemaining_cons]

/-- One pass of the inner loop takes the trade quantity off both fronts. -/
theorem innerBody_conserves (bid : Order) (bids : OrderPointers) (ask : Order)
    (asks : OrderPointers) (idx : Index) (ts : Trades) (s : InnerState)
    (h : innerBody bid bids ask asks idx ts = .ok s) :
    totalRemaining s.bids + totalRemaining s.asks + 2 * tradedVolume s.trades =
      totalRemaining (bid :: bids) + totalRemaining (ask :: asks) + 2 * tradedVolume ts := by
  have h1 : ¬ (min bid.remainingQuantity_ ask.remainingQuantity_ > bid.remainingQuantity_) :=
    not_lt.mpr (Nat.min_le_left _ _)
  have h2 : ¬ (min bid.remainingQuantity_ ask.remainingQuantity_ > ask.remainingQuantity_) :=
    not_lt.mpr (Nat.min_le_right _ _)
  simp only [innerBody, Order.Fill, if_neg h1, if_neg h2, Result.bind_ok,
    Result.ok.injEq] at h
  subst h
  simp only [Order.isFilled, beq_iff_eq, tradedVolume_append, totalRemaining_cons]
  have hq1 : min bid.remainingQuantity_ ask.remainingQuantity_ ≤ bid.remainingQuantity_ :=
    Nat.min_le_left _ _
  have hq2 : min bid.remainingQuantity_ ask.remainingQuantity_ ≤ ask.remainingQuantity_ :=
    Nat.min_le_right _ _
  rw [totalRemaining_front, totalRemaining_front]
  exact conservation_arith _ _ _ _ _ _ hq1 hq2

/-- The inner loop conserves remaining quantity plus twice the traded volume. -/
theorem innerLoopN_conserves (n : Nat) :
    ∀ s s1 : InnerState, innerLoopN n s = .ok s1 →
      totalRemaining s1.bids + totalRemaining s1.asks + 2 * tradedVolume s1.trades =
        totalRemaining s.bids + totalRemaining s.asks + 2 * tradedVolume s.trades := by
  induction n with
  | zero =>
    intro s s1 h
    obtain ⟨bids, asks, idx, ts⟩ := s
    cases bids with
    | nil => simp only [innerLoopN, Result.ok.injEq] at h; subst h; rfl
    | cons b bs =>
      cases asks with
      | nil => simp only [innerLoopN, Result.ok.injEq] at h; subst h; rfl
      | cons a as => simp [innerLoopN] at h
  | succ n ih =>
    intro s s1 h
    obtain ⟨bids, asks, idx, ts⟩ := s
    cases bids with
    | nil => simp only [innerLoopN, Result.ok.injEq] at h; subst h; rfl
    | cons b bs =>
      cases asks with
      | nil => simp only [innerLoopN, Result.ok.injEq] at h; subst h; rfl
      | cons a as =>
        simp only [innerLoopN] at h
        obtain ⟨s2, h2, h3⟩ := Result.bind_eq_ok _ _ _ h
        rw [ih s2 s1 h3]
        exact innerBody_conserves b bs a as idx ts s2 h2

theorem cleanupBids_noFak (b b1 : Orderbook)
    (hn : ∀ o ∈ b.resting, o.orderType_ ≠ OrderType.FillandKill)
    (h : cleanupBids b = .ok b1) : b1 = b := by
  obtain ⟨bids, asks, idx⟩ := b
  cases hm : bids with
  | nil =>
    simp only [cleanupBids, hm, Result.ok.injEq] at h
    exact h.symm
  | cons e rest =>
    obtain ⟨k, l⟩ := e
    cases l with
    | nil => simp [cleanupBids, hm] at h
    | cons order os =>
      have hmem : order ∈ Orderbook.resting { bids_ := bids, asks_ := asks, orders_ := idx } := by
        apply resting_of_mem _ Side.Buy (k, order :: os) order
        · simp only [Orderbook.levels, hm]; exact List.mem_cons_self _ _
        · exact List.mem_cons_self _ _
      simp only [cleanupBids, hm, if_neg (hn order hmem), Result.ok.injEq] at h
      exact h.symm

theorem cleanupAsks_noFak (b b1 : Orderbook)
    (hn : ∀ o ∈ b.resting, o.orderType_ ≠ OrderType.FillandKill)
    (h : cleanupAsks b = .ok b1) : b1 = b := by
  obtain ⟨bids, asks, idx⟩ := b
  cases hm : asks with
  | nil =>
    simp only [cleanupAsks, hm, Result.ok.injEq] at h
    exact h.symm
  | cons e rest =>
    obtain ⟨k, l⟩ := e
    cases l with
    | nil => simp [cleanupAsks, hm] at h
    | cons order os =>
      have hmem : order ∈ Orderbook.resting { bids_ := bids, asks_ := asks, orders_ := idx } := by
        apply resting_of_mem _ Side.Sell (k, order :: os) order
        · simp only [Orderbook.levels, hm]; exact List.mem_cons_self _ _
        · exact List.mem_cons_self _ _
      simp only [cleanupAsks, hm, if_neg (hn order hmem), Result.ok.injEq] at h
      exact h.symm

/-- No FillandKill order among the orders a reachable book holds. -/
theorem noFak_reachable (b : Orderbook) (h : Reachable b) :
    ∀ o ∈ b.resting, o.orderType_ ≠ OrderType.FillandKill := by
  refine reachableBy_induction (fun _ => True) (fun _ => True)
    (fun b => ∀ o ∈ b.resting, o.orderType_ ≠ OrderType.FillandKill)
    (fun _ _ => trivial) (fun _ _ _ => trivial) ?_ ?_ ?_ b (reachableBy_of_reachable b h)
  · intro o ho
    simp [Orderbook.empty, Orderbook.resting] at ho
  · intro b o hp _ _ hg _ o1 ho1
    rcases List.mem_cons.mp ((resting_insertOrder b o).mem_iff.mp ho1) with h1 | h1
    · rw [h1, hg]; decide
    · exact hp o1 h1
  · intro b i b1 hp hc o ho
    exact hp o ((resting_CancelOrder b b1 i hc).subset ho)

/-- A call of `AddOrder` on a reachable book that is not rejected and returns has matched
nothing: the total remaining quantity after the call is the total before plus the remaining
quantity of the incoming order, and the trade list is empty.  The inner loop of `MatchOrders`
keeps the remaining quantity of the two best levels plus twice the traded volume. -/
theorem AddOrder_returning_balance (fuel : Nat) (b : Orderbook) (order : Order)
    (trades : Trades) (b1 : Orderbook) (hr : Reachable b)
    (hid : ordersContains b.orders_ order.orderID_ = false)
    (hfak : ¬ (order.orderType_ = OrderType.FillandKill ∧
      b.CanMatch order.side_ order.price_ = false))
    (hret : b.AddOrder fuel order = .ok (trades, b1)) :
    totalRemaining b.resting + order.remainingQuantity_ =
      totalRemaining b1.resting + 2 * tradedVolume trades ∧
    (totalRemaining b.resting + order.remainingQuantity_) - totalRemaining b1.resting =
      2 * tradedVolume trades ∧
    (∀ s s1 : InnerState, innerLoop s = .ok s1 →
      totalRemaining s1.bids + totalRemaining s1.asks + 2 * tradedVolume s1.trades =
        totalRemaining s.bids + totalRemaining s.asks + 2 * tradedVolume s.trades) := by
  have key : totalRemaining b.resting + order.remainingQuantity_ =
      totalRemaining b1.resting + 2 * tradedVolume trades := by
    rcases AddOrder_ok fuel b order _ hret with ⟨hrej, _⟩ |
      ⟨_, hg, ht, _, b2, h1, h2⟩
    · rcases hrej with h | h
      · rw [hid] at h; cases h
      · exact absurd h hfak
    · simp only at ht h2
      subst ht
      have hn : ∀ o ∈ (b.insertOrder order).resting,
          o.orderType_ ≠ OrderType.FillandKill := by
        intro o ho
        rcases List.mem_cons.mp ((resting_insertOrder b order).mem_iff.mp ho) with h3 | h3
        · rw [h3, hg]; decide
        · exact noFak_reachable b hr o h3
      have e2 := cleanupBids_noFak _ b2 hn h1
      subst e2
      have e1 := cleanupAsks_noFak _ b1 hn h2
      subst e1
      have hp := ((resting_insertOrder b order).map Order.remainingQuantity_).sum_eq
      simp only [List.map_cons, List.sum_cons] at hp
      simp only [totalRemaining, tradedVolume, List.map_nil, List.sum_nil, Nat.mul_zero,
        Nat.add_zero]
      rw [hp, Nat.add_comm]
  refine ⟨key, ?_, fun s s1 h => innerLoopN_conserves _ s s1 h⟩
  rw [key, Nat.add_sub_cancel_left]

theorem htonl_lt (x : Nat) : htonl x < 2 ^ 32 := by
  unfold htonl
  omega

/-- The function `htonl` on a value given by its four bytes, lowest first. -/
theorem htonl_of_bytes (b0 b1 b2 b3 : Nat) (h0 : b0 < 256) (h1 : b1 < 256) (h2 : b2 < 256)
    (h3 : b3 < 256) :
    htonl (b0 + 256 * b1 + 65536 * b2 + 16777216 * b3) =
      b3 + 256 * b2 + 65536 * b1 + 16777216 * b0 := by
  have e0 : (b0 + 256 * b1 + 65536 * b2 + 16777216 * b3) % 256 = b0 := by omega
  have e1 : (b0 + 256 * b1 + 65536 * b2 + 16777216 * b3) / 256 % 256 = b1 := by omega
  have e2 : (b0 + 256 * b1 + 65536 * b2 + 16777216 * b3) / 65536 % 256 = b2 := by omega
  have e3 : (b0 + 256 * b1 + 65536 * b2 + 16777216 * b3) / 16777216 % 256 = b3 := by omega
  simp only [htonl, Nat.reducePow, e0, e1, e2, e3]
  omega

theorem bytes_of_u32 (x : Nat) (h : x < 2 ^ 32) :
    x = x % 256 + 256 * (x / 256 % 256) + 65536 * (x / 65536 % 256) +
        16777216 * (x / 16777216 % 256) := by
  simp only [Nat.reducePow] at h
  omega

theorem htonl_eq (x : Nat) (h : x < 2 ^ 32) :
    htonl x = x / 16777216 % 256 + 256 * (x / 65536 % 256) + 65536 * (x / 256 % 256) +
      16777216 * (x % 256) := by
  have hb := htonl_of_bytes (x % 256) (x / 256 % 256) (x / 65536 % 256) (x / 16777216 % 256)
    (Nat.mod_lt _ (by decide)) (Nat.mod_lt _ (by decide)) (Nat.mod_lt _ (by decide))
    (Nat.mod_lt _ (by decide))
  rw [← bytes_of_u32 x h] at hb
  exact hb

theorem htonl_htonl (x : Nat) (h : x < 2 ^ 32) : htonl (htonl x) = x := by
  rw [htonl_eq x h]
  rw [htonl_of_bytes _ _ _ _ (Nat.mod_lt _ (by decide)) (Nat.mod_lt _ (by decide))
    (Nat.mod_lt _ (by decide)) (Nat.mod_lt _ (by decide))]
  exact (bytes_of_u32 x h).symm

theorem htonll_lt (x : Nat) : htonll x < 2 ^ 64 := by
  unfold htonll
  exact Nat.mod_lt _ (by decide)

theorem htonll_eq (x : Nat) :
    htonll x = htonl (x % 2 ^ 32) * 2 ^ 32 + htonl (x / 2 ^ 32 % 2 ^ 32) := by
  unfold htonll
  have h1 := htonl_lt (x % 2 ^ 32)
  have h2 := htonl_lt (x / 2 ^ 32 % 2 ^ 32)
  simp only [Nat.reducePow] at h1 h2 ⊢
  omega

theorem htonll_htonll (x : Nat) (h : x < 2 ^ 64) : htonll (htonll x) = x := by
  rw [htonll_eq (htonll x), htonll_eq x]
  have h1 := htonl_lt (x % 2 ^ 32)
  have h2 := htonl_lt (x / 2 ^ 32 % 2 ^ 32)
  have e1 : (htonl (x % 2 ^ 32) * 2 ^ 32 + htonl (x / 2 ^ 32 % 2 ^ 32)) % 2 ^ 32 =
      htonl (x / 2 ^ 32 % 2 ^ 32) := by
    simp only [Nat.reducePow] at h1 h2 ⊢
    omega
  have e2 : (htonl (x % 2 ^ 32) * 2 ^ 32 + htonl (x / 2 ^ 32 % 2 ^ 32)) / 2 ^ 32 % 2 ^ 32 =
      htonl (x % 2 ^ 32) := by
    simp only [Nat.reducePow] at h1 h2 ⊢
    omega
  rw [e1, e2, htonl_htonl _ (Nat.mod_lt _ (by decide)), htonl_htonl _ (Nat.mod_lt _ (by decide))]
  simp only [Nat.reducePow] at h ⊢
  omega

theorem bytesOf_of_bytes (c0 c1 c2 c3 : Nat) (h0 : c0 < 256) (h1 : c1 < 256) (h2 : c2 < 256)
    (h3 : c3 < 256) :
    bytesOf 4 (c0 + 256 * c1 + 65536 * c2 + 16777216 * c3) = [c0, c1, c2, c3] := by
  simp only [bytesOf, List.cons.injEq, and_true]
  refine ⟨by omega, by omega, by omega, by omega⟩

/-- After `htonl` the four bytes of the field in memory are those of the value in network
order. -/
theorem bytesOf_htonl (x : Nat) (h : x < 2 ^ 32) : bytesOf 4 (htonl x) = bigEndian 4 x := by
  have h0 : x % 256 < 256 := Nat.mod_lt _ (by decide)
  have h1 : x / 256 % 256 < 256 := Nat.mod_lt _ (by decide)
  have h2 : x / 65536 % 256 < 256 := Nat.mod_lt _ (by decide)
  have h3 : x / 16777216 % 256 < 256 := Nat.mod_lt _ (by decide)
  rw [htonl_eq x h, bytesOf_of_bytes _ _ _ _ h3 h2 h1 h0]
  unfold bigEndian
  conv => rhs; rw [bytes_of_u32 x h, bytesOf_of_bytes _ _ _ _ h0 h1 h2 h3]
  rfl

theorem bytesOf_four_mod (v : Nat) : bytesOf 4 (v % 2 ^ 32) = bytesOf 4 v := by
  simp only [bytesOf, List.cons.injEq, and_true, Nat.reducePow]
  refine ⟨by omega, by omega, by omega, by omega⟩

theorem bytesOf_eight (v : Nat) : bytesOf 8 v = bytesOf 4 v ++ bytesOf 4 (v / 2 ^ 32) := by
  simp only [bytesOf, List.cons_append, List.nil_append, List.cons.injEq, and_true,
    Nat.reducePow, true_and]
  refine ⟨by omega, by omega, by omega, by omega⟩

/-- After `htonll` the eight bytes of the field in memory are those of the value in network
order: all eight bytes are reversed. -/
theorem bytesOf_htonll (x : Nat) (h : x < 2 ^ 64) : bytesOf 8 (htonll x) = bigEndian 8 x := by
  have h1 := htonl_lt (x % 2 ^ 32)
  have h2 := htonl_lt (x / 2 ^ 32 % 2 ^ 32)
  have hhi : x / 2 ^ 32 % 2 ^ 32 = x / 2 ^ 32 := by
    simp only [Nat.reducePow] at h ⊢
    omega
  have e1 : htonll x % 2 ^ 32 = htonl (x / 2 ^ 32) := by
    rw [htonll_eq, hhi]
    rw [hhi] at h2
    simp only [Nat.reducePow] at h1 h2 ⊢
    omega
  have e2 : htonll x / 2 ^ 32 = htonl (x % 2 ^ 32) := by
    rw [htonll_eq, hhi]
    rw [hhi] at h2
    simp only [Nat.reducePow] at h1 h2 ⊢
    omega
  have hlt : x / 2 ^ 32 < 2 ^ 32 := by
    simp only [Nat.reducePow] at h ⊢
    omega
  rw [bytesOf_eight (htonll x), ← bytesOf_four_mod (htonll x), e1, e2,
    bytesOf_htonl _ hlt, bytesOf_htonl _ (Nat.mod_lt _ (by decide))]
  unfold bigEndian
  rw [bytesOf_eight x, List.reverse_append, bytesOf_four_mod]

theorem ntohl_htonl (x : Nat) (h : x < 2 ^ 32) : ntohl (htonl x) = x :=
  htonl_htonl x h

theorem ntohll_htonll (x : Nat) (h : x < 2 ^ 64) : ntohll (htonll x) = x :=
  htonll_htonll x h

theorem map_bytes_u32 (l : List Nat) (h : AllU32 l) :
    (l.map htonl).map (bytesOf 4) = l.map (bigEndian 4) := by
  induction l with
  | nil => rfl
  | cons x xs ih =>
    simp only [List.map_cons]
    rw [bytesOf_htonl x (h x (List.mem_cons_self _ _)),
      ih (fun y hy => h y (List.mem_cons_of_mem _ hy))]

theorem map_bytes_u64 (l : List Nat) (h : AllU64 l) :
    (l.map htonll).map (bytesOf 8) = l.map (bigEndian 8) := by
  induction l with
  | nil => rfl
  | cons x xs ih =>
    simp only [List.map_cons]
    rw [bytesOf_htonll x (h x (List.mem_cons_self _ _)),
      ih (fun y hy => h y (List.mem_cons_of_mem _ hy))]

theorem header_round_trip (m : MessageHeader) (h : AllU32 m.u32) :
    m.toNetworkOrder.toHostOrder = m := by
  have h1 : m.length < 2 ^ 32 := h _ (by simp [MessageHeader.u32])
  have h2 : m.sequence < 2 ^ 32 := h _ (by simp [MessageHeader.u32])
  cases m
  simp only [MessageHeader.toNetworkOrder, MessageHeader.toHostOrder] at *
  rw [ntohl_htonl _ h1, ntohl_htonl _ h2]

theorem levelInfo_round_trip (m : NetworkLevelInfo) (h : AllU32 m.u32) :
    m.toNetworkOrder.toHostOrder = m := by
  have h1 : m.price < 2 ^ 32 := h _ (by simp [NetworkLevelInfo.u32])
  have h2 : m.quantity < 2 ^ 32 := h _ (by simp [NetworkLevelInfo.u32])
  cases m
  simp only [NetworkLevelInfo.toNetworkOrder, NetworkLevelInfo.toHostOrder] at *
  rw [ntohl_htonl _ h1, ntohl_htonl _ h2]

theorem forFirst_take (n : Nat) (f : NetworkLevelInfo → NetworkLevelInfo) :
    ∀ (k : Nat) (l : List NetworkLevelInfo), k ≤ n →
      (forFirst n f l).take k = (l.take k).map f := by
  induction n with
  | zero =>
    intro k l hk
    have : k = 0 := Nat.le_zero.mp hk
    subst this
    simp
  | succ n ih =>
    intro k l hk
    cases l with
    | nil => simp [forFirst]
    | cons x xs =>
      cases k with
      | zero => simp
      | succ k =>
        simp only [forFirst, List.take_succ_cons, List.map_cons]
        rw [ih k xs (Nat.le_of_succ_le_succ hk)]

/-- A count of at most `MAX_LEVELS`, once byte-swapped, still lets the conversion loop reach
the first `count` entries. -/
theorem count_le_swapped (c : Nat) (h : c ≤ MAX_LEVELS) : c ≤ min (htonl c) MAX_LEVELS := by
  unfold MAX_LEVELS at *
  unfold htonl
  simp only [Nat.reducePow]
  omega

theorem levels_round_trip (c : Nat) (l : List NetworkLevelInfo) (hc : c ≤ MAX_LEVELS)
    (hr : ∀ e ∈ l.take c, AllU32 e.u32) :
    (forFirst (min c MAX_LEVELS) NetworkLevelInfo.toHostOrder
      (forFirst (min (htonl c) MAX_LEVELS) NetworkLevelInfo.toNetworkOrder l)).take c =
      l.take c := by
  rw [forFirst_take _ _ c _ (le_min (le_refl _) hc),
    forFirst_take _ _ c _ (count_le_swapped c hc), List.map_map]
  conv => rhs; rw [← List.map_id (l.take c)]
  apply List.map_congr_left
  intro e he
  exact levelInfo_round_trip e (hr e he)

theorem levels_swapped (c : Nat) (l : List NetworkLevelInfo) (hc : c ≤ MAX_LEVELS) :
    (((forFirst (min (htonl c) MAX_LEVELS) NetworkLevelInfo.toNetworkOrder l).take c).map
      NetworkLevelInfo.u32).flatten =
      (((l.take c).map NetworkLevelInfo.u32).flatten).map htonl := by
  rw [forFirst_take _ _ c _ (count_le_swapped c hc), List.map_flatten, List.map_map,
    List.map_map]
  rfl

/-- C20: on the little-endian host, `ntohl (htonl x) = x` and `ntohll (htonll x) = x`, and
after `htonl` / `htonll` the field holds the value big-endian in memory (`htonll` reverses all
eight bytes); hence for `MessageHeader`, `AddOrderRequest`, `AddOrderResponse`,
`CancelOrderRequest`, `CancelOrderResponse`, `ModifyOrderRequest` and `TradeNotification`,
`toHostOrder` after `toNetworkOrder` gives back the message, and between the two calls every
u32 and u64 field is stored big-endian; for `OrderbookStatusResponse` with both counts at most
`MAX_LEVELS` the same holds of the header, the two counts and the first `bidLevelsCount` /
`askLevelsCount` entries. -/
theorem C20_codec_round_trip :
    (∀ x, x < 2 ^ 32 → ntohl (htonl x) = x ∧ bytesOf 4 (htonl x) = (bytesOf 4 x).reverse) ∧
    (∀ x, x < 2 ^ 64 → ntohll (htonll x) = x ∧ bytesOf 8 (htonll x) = (bytesOf 8 x).reverse) ∧
    (∀ m : MessageHeader, AllU32 m.u32 →
      m.toNetworkOrder.toHostOrder = m ∧
      m.toNetworkOrder.u32.map (bytesOf 4) = m.u32.map (bigEndian 4)) ∧
    (∀ m : AddOrderRequest, AllU32 m.u32 → AllU64 m.u64 →
      m.toNetworkOrder.toHostOrder = m ∧
      m.toNetworkOrder.u32.map (bytesOf 4) = m.u32.map (bigEndian 4) ∧
      m.toNetworkOrder.u64.map (bytesOf 8) = m.u64.map (bigEndian 8)) ∧
    (∀ m : AddOrderResponse, AllU32 m.u32 → AllU64 m.u64 →
      m.toNetworkOrder.toHostOrder = m ∧
      m.toNetworkOrder.u32.map (bytesOf 4) = m.u32.map (bigEndian 4) ∧
      m.toNetworkOrder.u64.map (bytesOf 8) = m.u64.map (bigEndian 8)) ∧
    (∀ m : CancelOrderRequest, AllU32 m.u32 → AllU64 m.u64 →
      m.toNetworkOrder.toHostOrder = m ∧
      m.toNetworkOrder.u32.map (bytesOf 4) = m.u32.map (bigEndian 4) ∧
      m.toNetworkOrder.u64.map (bytesOf 8) = m.u64.map (bigEndian 8)) ∧
    (∀ m : CancelOrderResponse, AllU32 m.u32 → AllU64 m.u64 →
      m.toNetworkOrder.toHostOrder = m ∧
      m.toNetworkOrder.u32.map (bytesOf 4) = m.u32.map (bigEndian 4) ∧
      m.toNetworkOrder.u64.map (bytesOf 8) = m.u64.map (bigEndian 8)) ∧
    (∀ m : ModifyOrderRequest, AllU32 m.u32 → AllU64 m.u64 →
      m.toNetworkOrder.toHostOrder = m ∧
      m.toNetworkOrder.u32.map (bytesOf 4) = m.u32.map (bigEndian 4) ∧
      m.toNetworkOrder.u64.map (bytesOf 8) = m.u64.map (bigEndian 8)) ∧
    (∀ m : TradeNotification, AllU32 m.u32 → AllU64 m.u64 →
      m.toNetworkOrder.toHostOrder = m ∧
      m.toNetworkOrder.u32.map (bytesOf 4) = m.u32.map (bigEndian 4) ∧
      m.toNetworkOrder.u64.map (bytesOf 8) = m.u64.map (bigEndian 8)) ∧
    (∀ m : OrderbookStatusResponse, m.bidLevelsCount ≤ MAX_LEVELS →
      m.askLevelsCount ≤ MAX_LEVELS → AllU32 (m.u32 m.bidLevelsCount m.askLevelsCount) →
      m.toNetworkOrder.toHostOrder.header = m.header ∧
      m.toNetworkOrder.toHostOrder.bidLevelsCount = m.bidLevelsCount ∧
      m.toNetworkOrder.toHostOrder.askLevelsCount = m.askLevelsCount ∧
      m.toNetworkOrder.toHostOrder.bidLevels.take m.bidLevelsCount =
        m.bidLevels.take m.bidLevelsCount ∧
      m.toNetworkOrder.toHostOrder.askLevels.take m.askLevelsCount =
        m.askLevels.take m.askLevelsCount ∧
      (m.toNetworkOrder.u32 m.bidLevelsCount m.askLevelsCount).map (bytesOf 4) =
        (m.u32 m.bidLevelsCount m.askLevelsCount).map (bigEndian 4)) := by
  have hdr : ∀ m : MessageHeader, m.toNetworkOrder.u32 = m.u32.map htonl := fun _ => rfl
  refine ⟨fun x h => ⟨ntohl_htonl x h, bytesOf_htonl x h⟩,
    fun x h => ⟨ntohll_htonll x h, bytesOf_htonll x h⟩,
    fun m h => ⟨header_round_trip m h, by rw [hdr]; exact map_bytes_u32 _ h⟩,
    ?_, ?_, ?_, ?_, ?_, ?_, ?_⟩
  · intro m h32 h64
    have hh : AllU32 m.header.u32 := fun x hx =>
      h32 x (by simp only [AddOrderRequest.u32, List.mem_append]; exact Or.inl hx)
    have e32 : m.toNetworkOrder.u32 = m.u32.map htonl := by
      simp [AddOrderRequest.u32, AddOrderRequest.toNetworkOrder, hdr]
    have e64 : m.toNetworkOrder.u64 = m.u64.map htonll := rfl
    refine ⟨?_, by rw [e32]; exact map_bytes_u32 _ h32, by rw [e64]; exact map_bytes_u64 _ h64⟩
    have h1 : m.price < 2 ^ 32 := h32 _ (by simp [AddOrderRequest.u32])
    have h2 : m.quantity < 2 ^ 32 := h32 _ (by simp [AddOrderRequest.u32])
    have h3 : m.clientOrderId < 2 ^ 64 := h64 _ (by simp [AddOrderRequest.u64])
    have h0 := header_round_trip m.header hh
    cases m
    simp only [AddOrderRequest.toNetworkOrder, AddOrderRequest.toHostOrder] at *
    rw [h0, ntohl_htonl _ h1, ntohl_htonl _ h2, ntohll_htonll _ h3]
  · intro m h32 h64
    have e32 : m.toNetworkOrder.u32 = m.u32.map htonl := by
      simp [AddOrderResponse.u32, AddOrderResponse.toNetworkOrder, hdr]
    have e64 : m.toNetworkOrder.u64 = m.u64.map htonll := rfl
    refine ⟨?_, by rw [e32]; exact map_bytes_u32 _ h32, by rw [e64]; exact map_bytes_u64 _ h64⟩
    have h1 : m.clientOrderId < 2 ^ 64 := h64 _ (by simp [AddOrderResponse.u64])
    have h2 : m.serverOrderId < 2 ^ 64 := h64 _ (by simp [AddOrderResponse.u64])
    have h0 := header_round_trip m.header h32
    cases m
    simp only [AddOrderResponse.toNetworkOrder, AddOrderResponse.toHostOrder] at *
    rw [h0, ntohll_htonll _ h1, ntohll_htonll _ h2]
  · intro m h32 h64
    have e32 : m.toNetworkOrder.u32 = m.u32.map htonl := by
      simp [CancelOrderRequest.u32, CancelOrderRequest.toNetworkOrder, hdr]
    have e64 : m.toNetworkOrder.u64 = m.u64.map htonll := rfl
    refine ⟨?_, by rw [e32]; exact map_bytes_u32 _ h32, by rw [e64]; exact map_bytes_u64 _ h64⟩
    have h1 : m.orderId < 2 ^ 64 := h64 _ (by simp [CancelOrderRequest.u64])
    have h0 := header_round_trip m.header h32
    cases m
    simp only [CancelOrderRequest.toNetworkOrder, CancelOrderRequest.toHostOrder] at *
    rw [h0, ntohll_htonll _ h1]
  · intro m h32 h64
    have e32 : m.toNetworkOrder.u32 = m.u32.map htonl := by
      simp [CancelOrderResponse.u32, CancelOrderResponse.toNetworkOrder, hdr]
    have e64 : m.toNetworkOrder.u64 = m.u64.map htonll := rfl
    refine ⟨?_, by rw [e32]; exact map_bytes_u32 _ h32, by rw [e64]; exact map_bytes_u64 _ h64⟩
    have h1 : m.orderId < 2 ^ 64 := h64 _ (by simp [CancelOrderResponse.u64])
    have h0 := header_round_trip m.header h32
    cases m
    simp only [CancelOrderResponse.toNetworkOrder, CancelOrderResponse.toHostOrder] at *
    rw [h0, ntohll_htonll _ h1]
  · intro m h32 h64
    have hh : AllU32 m.header.u32 := fun x hx =>
      h32 x (by simp only [ModifyOrderRequest.u32, List.mem_append]; exact Or.inl hx)
    have e32 : m.toNetworkOrder.u32 = m.u32.map htonl := by
      simp [ModifyOrderRequest.u32, ModifyOrderRequest.toNetworkOrder, hdr]
    have e64 : m.toNetworkOrder.u64 = m.u64.map htonll := rfl
    refine ⟨?_, by rw [e32]; exact map_bytes_u32 _ h32, by rw [e64]; exact map_bytes_u64 _ h64⟩
    have h1 : m.price < 2 ^ 32 := h32 _ (by simp [ModifyOrderRequest.u32])
    have h2 : m.quantity < 2 ^ 32 := h32 _ (by simp [ModifyOrderRequest.u32])
    have h3 : m.orderId < 2 ^ 64 := h64 _ (by simp [ModifyOrderRequest.u64])
    have h0 := header_round_trip m.header hh
    cases m
    simp only [ModifyOrderRequest.toNetworkOrder, ModifyOrderRequest.toHostOrder] at *
    rw [h0, ntohl_htonl _ h1, ntohl_htonl _ h2, ntohll_htonll _ h3]
  · intro m h32 h64
    have hh : AllU32 m.header.u32 := fun x hx =>
      h32 x (by simp only [TradeNotification.u32, List.mem_append]; exact Or.inl hx)
    have e32 : m.toNetworkOrder.u32 = m.u32.map htonl := by
      simp [TradeNotification.u32, TradeNotification.toNetworkOrder, hdr]
    have e64 : m.toNetworkOrder.u64 = m.u64.map htonll := rfl
    refine ⟨?_, by rw [e32]; exact map_bytes_u32 _ h32, by rw [e64]; exact map_bytes_u64 _ h64⟩
    have h1 : m.price < 2 ^ 32 := h32 _ (by simp [TradeNotification.u32])
    have h2 : m.quantity < 2 ^ 32 := h32 _ (by simp [TradeNotification.u32])
    have h3 : m.buyOrderId < 2 ^ 64 := h64 _ (by simp [TradeNotification.u64])
    have h4 : m.sellOrderId < 2 ^ 64 := h64 _ (by simp [TradeNotification.u64])
    have h0 := header_round_trip m.header hh
    cases m
    simp only [TradeNotification.toNetworkOrder, TradeNotification.toHostOrder] at *
    rw [h0, ntohl_htonl _ h1, ntohl_htonl _ h2, ntohll_htonll _ h3, ntohll_htonll _ h4]
  · intro m hb ha h32
    have hh : AllU32 m.header.u32 := fun x hx =>
      h32 x (by simp only [OrderbookStatusResponse.u32, List.mem_append]
                exact Or.inl (Or.inl (Or.inl hx)))
    have h1 : m.bidLevelsCount < 2 ^ 32 := h32 _ (by simp [OrderbookStatusResponse.u32])
    have h2 : m.askLevelsCount < 2 ^ 32 := h32 _ (by simp [OrderbookStatusResponse.u32])
    have hbe : ∀ e ∈ m.bidLevels.take m.bidLevelsCount, AllU32 e.u32 := by
      intro e he x hx
      apply h32
      simp only [OrderbookStatusResponse.u32, List.mem_append, List.mem_flatten, List.mem_map]
      exact Or.inl (Or.inr ⟨e.u32, ⟨e, he, rfl⟩, hx⟩)
    have hae : ∀ e ∈ m.askLevels.take m.askLevelsCount, AllU32 e.u32 := by
      intro e he x hx
      apply h32
      simp only [OrderbookStatusResponse.u32, List.mem_append, List.mem_flatten, List.mem_map]
      exact Or.inr ⟨e.u32, ⟨e, he, rfl⟩, hx⟩
    refine ⟨header_round_trip m.header hh, ntohl_htonl _ h1, ntohl_htonl _ h2, ?_, ?_, ?_⟩
    · simp only [OrderbookStatusResponse.toNetworkOrder, OrderbookStatusResponse.toHostOrder,
        ntohl_htonl _ h1]
      exact levels_round_trip _ _ hb hbe
    · simp only [OrderbookStatusResponse.toNetworkOrder, OrderbookStatusResponse.toHostOrder,
        ntohl_htonl _ h2]
      exact levels_round_trip _ _ ha hae
    · have e32 : m.toNetworkOrder.u32 m.bidLevelsCount m.askLevelsCount =
          (m.u32 m.bidLevelsCount m.askLevelsCount).map htonl := by
        simp only [OrderbookStatusResponse.u32, OrderbookStatusResponse.toNetworkOrder,
          levels_swapped _ _ hb, levels_swapped _ _ ha, hdr, List.map_append, List.map_cons,
          List.map_nil]
      rw [e32]
      exact map_bytes_u32 _ h32

/-- C20 on concrete values: the 32-bit value 0x01020304, a message header, and an order-book
status reply with two bid levels and one ask level. -/
theorem C20_codec_round_trip_witness :
    (ntohl (htonl 16909060) = 16909060 ∧ bytesOf 4 (htonl 16909060) = [1, 2, 3, 4]) ∧
    ({ type := 16, length := 30, sequence := 7 } : MessageHeader).toNetworkOrder.toHostOrder =
      { type := 16, length := 30, sequence := 7 } ∧
    sampleStatus.toNetworkOrder.toHostOrder.bidLevels.take 2 = sampleStatus.bidLevels.take 2 :=
  ⟨C20_codec_round_trip.1 16909060 (by decide),
   (C20_codec_round_trip.2.2.1 { type := 16, length := 30, sequence := 7 }
      (by intro x hx; simp [MessageHeader.u32] at hx; rcases hx with rfl | rfl <;> decide)).1,
   (C20_codec_round_trip.2.2.2.2.2.2.2.2.2 sampleStatus (by decide) (by decide)
      (by
        intro x hx
        simp [OrderbookStatusResponse.u32, sampleStatus, MessageHeader.u32,
          NetworkLevelInfo.u32] at hx
        rcases hx with rfl | rfl | rfl | rfl | rfl | rfl | rfl | rfl | rfl | rfl <;>
          decide)).2.2.2.1⟩

theorem length_bytesOf (n v : Nat) : (bytesOf n v).length = n := by
  induction n generalizing v with
  | zero => rfl
  | succ n ih => simp [bytesOf, ih]

theorem length_header_bytes (m : MessageHeader) : m.bytes.length = 9 := by
  simp [MessageHeader.bytes, length_bytesOf]

theorem readLE_lt (n : Nat) : ∀ data : Bytes, AllBytes data → readLE n data < 256 ^ n := by
  induction n with
  | zero => intro data _; simp [readLE]
  | succ n ih =>
    intro data h
    cases data with
    | nil => simp [readLE]
    | cons b bs =>
      have hb : b < 256 := h b (List.mem_cons_self _ _)
      have := ih bs (fun x hx => h x (List.mem_cons_of_mem _ hx))
      simp only [readLE, Nat.pow_succ]
      omega

theorem bytesOf_readLE (n : Nat) :
    ∀ data : Bytes, AllBytes data → n ≤ data.length → bytesOf n (readLE n data) = data.take n := by
  induction n with
  | zero => intro data _ _; simp [bytesOf]
  | succ n ih =>
    intro data h hl
    cases data with
    | nil => simp at hl
    | cons b bs =>
      have hb : b < 256 := h b (List.mem_cons_self _ _)
      have hrec := ih bs (fun x hx => h x (List.mem_cons_of_mem _ hx))
        (by simpa using hl)
      have e1 : (b + 256 * readLE n bs) % 256 = b := by omega
      have e2 : (b + 256 * readLE n bs) / 256 = readLE n bs := by omega
      simp only [readLE, bytesOf, e1, e2, hrec, List.take_succ_cons]

theorem allBytes_drop (data : Bytes) (k : Nat) (h : AllBytes data) : AllBytes (data.drop k) :=
  fun x hx => h x (List.mem_of_mem_drop hx)

theorem bytesOf_field (off n : Nat) (data : Bytes) (h : AllBytes data)
    (hl : off + n ≤ data.length) : bytesOf n (field off n data) = (data.drop off).take n := by
  unfold field
  exact bytesOf_readLE n _ (allBytes_drop data off h) (by simp; omega)

theorem field_u32 (off : Nat) (data : Bytes) (h : AllBytes data) : field off 4 data < 2 ^ 32 := by
  have := readLE_lt 4 _ (allBytes_drop data off h)
  simpa [field] using this

theorem field_u64 (off : Nat) (data : Bytes) (h : AllBytes data) : field off 8 data < 2 ^ 64 := by
  have := readLE_lt 8 _ (allBytes_drop data off h)
  simpa [field] using this

theorem processMessageBuffer_short (notify : Trade → Sent) (fuel : Nat) (s : Session)
    (buffer : Bytes) (h : buffer.length < sizeofMessageHeader) :
    processMessageBuffer notify (fuel + 1) s buffer = .ok (s, buffer) := by
  have hn : ¬ (buffer.length ≥ sizeofMessageHeader) := not_le.mpr h
  simp only [processMessageBuffer, if_neg hn]

theorem processMessageBuffer_waits (notify : Trade → Sent) (fuel : Nat) (s : Session)
    (buffer : Bytes) (h : sizeofMessageHeader ≤ buffer.length)
    (hl : buffer.length < ntohl (field 1 4 buffer)) :
    processMessageBuffer notify (fuel + 1) s buffer = .ok (s, buffer) := by
  have hh : buffer.length ≥ sizeofMessageHeader := h
  have hl1 : buffer.length < ((MessageHeader.ofBytes buffer).toHostOrder).length := hl
  simp only [processMessageBuffer, if_pos hh, if_pos hl1]

theorem processMessageBuffer_step (notify : Trade → Sent) (fuel : Nat) (s : Session)
    (buffer : Bytes) (h : sizeofMessageHeader ≤ buffer.length)
    (hl : ntohl (field 1 4 buffer) ≤ buffer.length) :
    processMessageBuffer notify (fuel + 1) s buffer =
      (processMessage notify (fuel + 1) s buffer).bind fun r =>
        processMessageBuffer notify fuel r.1 (r.2.drop (ntohl (field 1 4 buffer))) := by
  have hh : buffer.length ≥ sizeofMessageHeader := h
  have hl1 : ¬ (buffer.length < ((MessageHeader.ofBytes buffer).toHostOrder).length) :=
    not_lt.mpr hl
  simp only [processMessageBuffer, if_pos hh, if_neg hl1]
  rfl

/-- C21 (amended): every message starts with a 9-byte header holding, in order, type (1
byte), length (4 bytes) and sequence (4 bytes), the structs being packed; the type-specific
body starts at byte offset 9 of the frame, an encoded `AddOrderRequest` occupies 9 + 18
bytes, and `processMessageBuffer` leaves a buffer of fewer than 9 bytes alone and, from 9
bytes on, splits off and dispatches a frame as soon as the buffer holds the `length` bytes
its header announces. -/
theorem C21_header_is_nine_bytes :
    sizeofMessageHeader = 9 ∧ sizeofAddOrderRequest = 9 + 18 ∧
    (∀ m : MessageHeader, m.bytes.length = 9 ∧
      m.bytes = bytesOf 1 m.type ++ bytesOf 4 m.length ++ bytesOf 4 m.sequence) ∧
    (∀ m : AddOrderRequest, m.bytes.length = 9 + 18 ∧ m.bytes.take 9 = m.header.bytes ∧
      m.bytes.drop 9 = bytesOf 1 m.orderType ++ bytesOf 1 m.side ++ bytesOf 4 m.price ++
        bytesOf 4 m.quantity ++ bytesOf 8 m.clientOrderId) ∧
    (∀ (notify : Trade → Sent) (fuel : Nat) (s : Session) (buffer : Bytes),
      buffer.length < 9 → processMessageBuffer notify (fuel + 1) s buffer = .ok (s, buffer)) ∧
    (∀ (notify : Trade → Sent) (fuel : Nat) (s : Session) (buffer : Bytes),
      9 ≤ buffer.length → ntohl (field 1 4 buffer) ≤ buffer.length →
      processMessageBuffer notify (fuel + 1) s buffer =
        (processMessage notify (fuel + 1) s buffer).bind fun r =>
          processMessageBuffer notify fuel r.1 (r.2.drop (ntohl (field 1 4 buffer)))) := by
  refine ⟨rfl, rfl, fun m => ⟨length_header_bytes m, rfl⟩, ?_,
    fun notify fuel s buffer h => processMessageBuffer_short notify fuel s buffer h,
    fun notify fuel s buffer h hl => processMessageBuffer_step notify fuel s buffer h hl⟩
  intro m
  have h9 := length_header_bytes m.header
  refine ⟨by simp [AddOrderRequest.bytes, length_bytesOf, h9], ?_, ?_⟩
  · simp only [AddOrderRequest.bytes, List.append_assoc]
    rw [List.take_append_of_le_length (le_of_eq h9.symm), ← h9, List.take_length]
  · simp only [AddOrderRequest.bytes, List.append_assoc]
    rw [← h9, List.drop_left]

/-- C21 on concrete buffers: 8 bytes are left alone, and a 9-byte Quit frame is split off and
answered. -/
theorem C21_header_is_nine_bytes_witness :
    processMessageBuffer noNotify 1 freshSession [1, 0, 0, 0, 9, 0, 0, 0] =
      .ok (freshSession, [1, 0, 0, 0, 9, 0, 0, 0]) ∧
    processMessageBuffer noNotify 2 freshSession quitFrame =
      (processMessage noNotify 2 freshSession quitFrame).bind fun r =>
        processMessageBuffer noNotify 1 r.1 (r.2.drop (ntohl (field 1 4 quitFrame))) :=
  ⟨C21_header_is_nine_bytes.2.2.2.2.1 noNotify 0 freshSession [1, 0, 0, 0, 9, 0, 0, 0]
      (by decide),
   C21_header_is_nine_bytes.2.2.2.2.2 noNotify 1 freshSession quitFrame (by decide)
      (by decide)⟩

/-- C21 as stated fails: the encoded header occupies 9 bytes, not 12, an encoded
`AddOrderRequest` 27 bytes, not 30, and with only 9 bytes in the buffer a complete Quit frame
is already split off and answered. -/
theorem C21_counterexample :
    (MessageHeader.bytes { type := 1, length := 9, sequence := 7 }).length = 9 ∧
    (MessageHeader.bytes { type := 1, length := 9, sequence := 7 }).length ≠ 12 ∧
    sizeofAddOrderRequest ≠ 12 + 18 ∧
    quitFrame.length < 12 ∧
    processMessageBuffer noNotify 2 freshSession quitFrame =
      .ok ({ freshSession with
              sent := [{ data := [3, 0, 0, 0, 9, 0, 0, 0, 0], size := 9 }] }, []) := by
  refine ⟨by decide, by decide, by decide, by decide, by decide⟩

theorem handleAddOrderRequest_eq (notify : Trade → Sent) (fuel : Nat) (s : Session)
    (data : Bytes) (h : sizeofAddOrderRequest ≤ data.length) :
    handleAddOrderRequest notify fuel s data =
      (s.orderbook_.AddOrder fuel (orderOfRequest data)).bind fun r =>
        .ok ({ orderbook_ := r.2, clients := s.clients,
               sent := s.sent ++ [addOrderResponseTo data] ++ r.1.map notify },
             (AddOrderRequest.ofBytes data).toHostOrder.bytes ++
               data.drop sizeofAddOrderRequest) := by
  have hn : ¬ (data.length < sizeofAddOrderRequest) := not_lt.mpr h
  simp only [handleAddOrderRequest, if_neg hn]
  rfl

theorem handleCancelOrderRequest_eq (s : Session) (data : Bytes)
    (h : sizeofCancelOrderRequest ≤ data.length) :
    handleCancelOrderRequest s data =
      (s.orderbook_.CancelOrder (CancelOrderRequest.ofBytes data).toHostOrder.orderId).bind
        fun b =>
          .ok ({ orderbook_ := b, clients := s.clients,
                 sent := s.sent ++ [cancelOrderResponseTo data] },
               (CancelOrderRequest.ofBytes data).toHostOrder.bytes ++
                 data.drop sizeofCancelOrderRequest) := by
  have hn : ¬ (data.length < sizeofCancelOrderRequest) := not_lt.mpr h
  simp only [handleCancelOrderRequest, if_neg hn]
  rfl

theorem handleModifyOrderRequest_eq (notify : Trade → Sent) (fuel : Nat) (s : Session)
    (data : Bytes) (h : sizeofModifyOrderRequest ≤ data.length) :
    handleModifyOrderRequest notify fuel s data =
      (s.orderbook_.MatchOrder fuel (modifyOfRequest data)).bind fun r =>
        .ok ({ orderbook_ := r.2, clients := s.clients,
               sent := s.sent ++ [modifyOrderResponseTo data] ++ r.1.map notify },
             (ModifyOrderRequest.ofBytes data).toHostOrder.bytes ++
               data.drop sizeofModifyOrderRequest) := by
  have hn : ¬ (data.length < sizeofModifyOrderRequest) := not_lt.mpr h
  simp only [handleModifyOrderRequest, if_neg hn]
  rfl

theorem handleAddOrderRequest_ok (notify : Trade → Sent) (fuel : Nat) (s s1 : Session)
    (data data1 : Bytes) (h : handleAddOrderRequest notify fuel s data = .ok (s1, data1)) :
    sizeofAddOrderRequest ≤ data.length ∧
    ∃ r, s.orderbook_.AddOrder fuel (orderOfRequest data) = .ok r ∧
      s1 = { orderbook_ := r.2, clients := s.clients,
             sent := s.sent ++ [addOrderResponseTo data] ++ r.1.map notify } := by
  by_cases hl : data.length < sizeofAddOrderRequest
  · simp [handleAddOrderRequest, hl] at h
  · have hle := not_lt.mp hl
    rw [handleAddOrderRequest_eq notify fuel s data hle] at h
    obtain ⟨r, hr, h2⟩ := Result.bind_eq_ok _ _ _ h
    simp only [Result.ok.injEq, Prod.mk.injEq] at h2
    exact ⟨hle, r, hr, h2.1.symm⟩

theorem handleCancelOrderRequest_ok (s s1 : Session) (data data1 : Bytes)
    (h : handleCancelOrderRequest s data = .ok (s1, data1)) :
    sizeofCancelOrderRequest ≤ data.length ∧
    ∃ b, s.orderbook_.CancelOrder (CancelOrderRequest.ofBytes data).toHostOrder.orderId = .ok b ∧
      s1 = { orderbook_ := b, clients := s.clients,
             sent := s.sent ++ [cancelOrderResponseTo data] } := by
  by_cases hl : data.length < sizeofCancelOrderRequest
  · simp [handleCancelOrderRequest, hl] at h
  · have hle := not_lt.mp hl
    rw [handleCancelOrderRequest_eq s data hle] at h
    obtain ⟨r, hr, h2⟩ := Result.bind_eq_ok _ _ _ h
    simp only [Result.ok.injEq, Prod.mk.injEq] at h2
    exact ⟨hle, r, hr, h2.1.symm⟩

theorem handleModifyOrderRequest_ok (notify : Trade → Sent) (fuel : Nat) (s s1 : Session)
    (data data1 : Bytes) (h : handleModifyOrderRequest notify fuel s data = .ok (s1, data1)) :
    sizeofModifyOrderRequest ≤ data.length ∧
    ∃ r, s.orderbook_.MatchOrder fuel (modifyOfRequest data) = .ok r ∧
      s1 = { orderbook_ := r.2, clients := s.clients,
             sent := s.sent ++ [modifyOrderResponseTo data] ++ r.1.map notify } := by
  by_cases hl : data.length < sizeofModifyOrderRequest
  · simp [handleModifyOrderRequest, hl] at h
  · have hle := not_lt.mp hl
    rw [handleModifyOrderRequest_eq notify fuel s data hle] at h
    obtain ⟨r, hr, h2⟩ := Result.bind_eq_ok _ _ _ h
    simp only [Result.ok.injEq, Prod.mk.injEq] at h2
    exact ⟨hle, r, hr, h2.1.symm⟩

/-- The four sequence bytes of a frame whose image starts with a converted header. -/
theorem wire_sequence (m : MessageHeader) (tail : Bytes) (size : Nat) (hs : 9 ≤ size) :
    ((({ data := m.toNetworkOrder.bytes ++ tail, size := size } : Sent).wire).drop 5).take 4 =
      bytesOf 4 (htonl m.sequence) := by
  have hmin : min 4 (size - 5) = 4 := by omega
  have h5 : (bytesOf 1 m.type ++ bytesOf 4 (htonl m.length)).length = 5 := by
    simp [length_bytesOf]
  simp only [Sent.wire, List.drop_take, List.take_take, hmin, MessageHeader.bytes,
    MessageHeader.toNetworkOrder, List.append_assoc]
  rw [← List.append_assoc, List.drop_left' h5, List.take_left' (length_bytesOf 4 _)]

/-- The type byte of a frame whose image starts with a converted header. -/
theorem wire_type (m : MessageHeader) (tail : Bytes) (size : Nat) (hs : 9 ≤ size) :
    (({ data := m.toNetworkOrder.bytes ++ tail, size := size } : Sent).wire).take 1 =
      [m.type % 256] := by
  have hmin : min 1 size = 1 := by omega
  simp only [Sent.wire, List.take_take, hmin, MessageHeader.bytes,
    MessageHeader.toNetworkOrder, List.append_assoc, bytesOf, List.singleton_append,
    List.take_succ_cons, List.take_zero]
  rfl

/-- The sequence bytes received, after `toHostOrder` and `toNetworkOrder`, are sent back as
they came. -/
theorem sequence_echoed (data : Bytes) (hb : AllBytes data) (hl : 9 ≤ data.length) :
    bytesOf 4 (htonl (ntohl (field 5 4 data))) = (data.drop 5).take 4 := by
  have h1 : htonl (ntohl (field 5 4 data)) = field 5 4 data :=
    htonl_htonl _ (field_u32 5 data hb)
  rw [h1]
  exact bytesOf_field 5 4 data hb (by omega)

theorem wire_sequence_of (r : Sent) (m : MessageHeader)
    (hd : r.data.take 9 = m.toNetworkOrder.bytes) (hs : 9 ≤ r.size) :
    (r.wire.drop 5).take 4 = bytesOf 4 (htonl m.sequence) := by
  have h : r.data = m.toNetworkOrder.bytes ++ r.data.drop 9 := by
    rw [← hd, List.take_append_drop]
  have e : r = { data := m.toNetworkOrder.bytes ++ r.data.drop 9, size := r.size } := by
    cases r
    simp only [Sent.mk.injEq, and_true]
    exact h
  rw [e]
  exact wire_sequence m _ _ hs

theorem wire_type_of (r : Sent) (m : MessageHeader)
    (hd : r.data.take 9 = m.toNetworkOrder.bytes) (hs : 9 ≤ r.size) :
    r.wire.take 1 = [m.type % 256] := by
  have h : r.data = m.toNetworkOrder.bytes ++ r.data.drop 9 := by
    rw [← hd, List.take_append_drop]
  have e : r = { data := m.toNetworkOrder.bytes ++ r.data.drop 9, size := r.size } := by
    cases r
    simp only [Sent.mk.injEq, and_true]
    exact h
  rw [e]
  exact wire_type m _ _ hs

theorem htonl_zero : htonl 0 = 0 := by decide

theorem addOrderResponseTo_header (data : Bytes) :
    (addOrderResponseTo data).data.take 9 =
      (({ type := RSP_ADD_ORDER, length := sizeofAddOrderResponse,
          sequence := ntohl (field 5 4 data) } : MessageHeader).toNetworkOrder).bytes := by
  simp only [addOrderResponseTo, AddOrderResponse.bytes, AddOrderResponse.toNetworkOrder,
    List.append_assoc]
  exact List.take_left' (length_header_bytes _)

theorem cancelOrderResponseTo_header (data : Bytes) :
    (cancelOrderResponseTo data).data.take 9 =
      (({ type := RSP_CANCEL_ORDER, length := sizeofCancelOrderResponse,
          sequence := ntohl (field 5 4 data) } : MessageHeader).toNetworkOrder).bytes := by
  simp only [cancelOrderResponseTo, CancelOrderResponse.bytes,
    CancelOrderResponse.toNetworkOrder, List.append_assoc]
  exact List.take_left' (length_header_bytes _)

theorem modifyOrderResponseTo_header (data : Bytes) :
    (modifyOrderResponseTo data).data.take 9 =
      (({ type := RSP_MODIFY_ORDER, length := ntohl (field 1 4 data),
          sequence := ntohl (field 5 4 data) } : MessageHeader).toNetworkOrder).bytes := by
  simp only [modifyOrderResponseTo, ModifyOrderRequest.bytes,
    ModifyOrderRequest.toNetworkOrder, List.append_assoc]
  exact List.take_left' (length_header_bytes _)

theorem processMessage_quit (notify : Trade → Sent) (fuel : Nat) (s : Session) (data : Bytes)
    (h : field 0 1 data = REQ_QUIT) :
    processMessage notify fuel s data = handleQuitRequest s data := by
  simp [processMessage, MessageHeader.ofBytes, h, REQ_QUIT, REQ_ECHO]

theorem processMessage_listUsers (notify : Trade → Sent) (fuel : Nat) (s : Session)
    (data : Bytes) (h : field 0 1 data = REQ_LISTUSERS) :
    processMessage notify fuel s data = handleListUsersRequest s data := by
  simp [processMessage, MessageHeader.ofBytes, h, REQ_QUIT, REQ_ECHO, REQ_LISTUSERS]

theorem processMessage_addOrder (notify : Trade → Sent) (fuel : Nat) (s : Session)
    (data : Bytes) (h : field 0 1 data = REQ_ADD_ORDER) :
    processMessage notify fuel s data = handleAddOrderRequest notify fuel s data := by
  simp [processMessage, MessageHeader.ofBytes, h, REQ_QUIT, REQ_ECHO, REQ_LISTUSERS,
    REQ_ADD_ORDER]

theorem processMessage_cancelOrder (notify : Trade → Sent) (fuel : Nat) (s : Session)
    (data : Bytes) (h : field 0 1 data = REQ_CANCEL_ORDER) :
    processMessage notify fuel s data = handleCancelOrderRequest s data := by
  simp [processMessage, MessageHeader.ofBytes, h, REQ_QUIT, REQ_ECHO, REQ_LISTUSERS,
    REQ_ADD_ORDER, REQ_CANCEL_ORDER]

theorem processMessage_modifyOrder (notify : Trade → Sent) (fuel : Nat) (s : Session)
    (data : Bytes) (h : field 0 1 data = REQ_MODIFY_ORDER) :
    processMessage notify fuel s data = handleModifyOrderRequest notify fuel s data := by
  simp [processMessage, MessageHeader.ofBytes, h, REQ_QUIT, REQ_ECHO, REQ_LISTUSERS,
    REQ_ADD_ORDER, REQ_CANCEL_ORDER, REQ_MODIFY_ORDER]

theorem processMessage_status (notify : Trade → Sent) (fuel : Nat) (s : Session)
    (data : Bytes) (h : field 0 1 data = REQ_ORDERBOOK_STATUS) :
    processMessage notify fuel s data = handleOrderbookStatusRequest s data := by
  simp [processMessage, MessageHeader.ofBytes, h, REQ_QUIT, REQ_ECHO, REQ_LISTUSERS,
    REQ_ADD_ORDER, REQ_CANCEL_ORDER, REQ_MODIFY_ORDER, REQ_ORDERBOOK_STATUS]

/-- The acknowledgement `handleQuitRequest` sends. -/
theorem handleQuitRequest_eq (s : Session) (data : Bytes) :
    handleQuitRequest s data =
      .ok ({ s with sent := s.sent ++ [{ data := [3, 0, 0, 0, 9, 0, 0, 0, 0], size := 9 }] },
           data) := by
  simp only [handleQuitRequest]
  rfl

theorem handleListUsersRequest_eq (s : Session) (data : Bytes) :
    handleListUsersRequest s data =
      .ok ({ s with sent := s.sent ++ [listUsersResponse s] }, data) := rfl

theorem handleOrderbookStatusRequest_eq (s : Session) (data : Bytes) :
    handleOrderbookStatusRequest s data =
      .ok ({ s with sent := s.sent ++ [statusResponse s] }, data) := rfl

theorem listUsersResponse_header (s : Session) :
    (listUsersResponse s).data.take 9 =
      (({ type := RSP_LISTUSERS, length := sizeofMessageHeader + 4 + 256,
          sequence := 0 } : MessageHeader).toNetworkOrder).bytes := by
  simp only [listUsersResponse, List.append_assoc]
  exact List.take_left' (length_header_bytes _)

theorem statusResponse_header (s : Session) :
    (statusResponse s).data.take 9 =
      (({ type := RSP_ORDERBOOK_STATUS, length := sizeofOrderbookStatusResponse,
          sequence := 0 } : MessageHeader).toNetworkOrder).bytes := by
  simp only [statusResponse, OrderbookStatusResponse.bytes,
    OrderbookStatusResponse.toNetworkOrder, List.append_assoc]
  exact List.take_left' (length_header_bytes _)

/-- C22 (amended): the responses to AddOrder, CancelOrder and ModifyOrder requests carry the
four sequence bytes of the request frame as received; the Quit acknowledgement and the
ListUsers and OrderbookStatus responses carry the sequence 0 whatever the request's
sequence. -/
theorem C22_sequence_echo (notify : Trade → Sent) (fuel : Nat) (s : Session) (data : Bytes)
    (hb : AllBytes data) :
    (∀ s1 d1, field 0 1 data = REQ_ADD_ORDER ∨ field 0 1 data = REQ_CANCEL_ORDER ∨
        field 0 1 data = REQ_MODIFY_ORDER →
      processMessage notify fuel s data = .ok (s1, d1) →
      ∃ resp rest, s1.sent = s.sent ++ resp :: rest ∧
        (resp.wire.drop 5).take 4 = (data.drop 5).take 4) ∧
    (field 0 1 data = REQ_QUIT ∨ field 0 1 data = REQ_LISTUSERS ∨
        field 0 1 data = REQ_ORDERBOOK_STATUS →
      ∃ resp, processMessage notify fuel s data =
          .ok ({ s with sent := s.sent ++ [resp] }, data) ∧
        (resp.wire.drop 5).take 4 = [0, 0, 0, 0]) := by
  constructor
  · intro s1 d1 ht h
    rcases ht with ht | ht | ht
    · rw [processMessage_addOrder notify fuel s data ht] at h
      obtain ⟨hl, r, _, hs⟩ := handleAddOrderRequest_ok notify fuel s s1 data d1 h
      have hl9 : 9 ≤ data.length := le_trans (by decide) hl
      refine ⟨addOrderResponseTo data, r.1.map notify, ?_, ?_⟩
      · rw [hs]; simp
      · rw [wire_sequence_of _ _ (addOrderResponseTo_header data)
          (by show 9 ≤ sizeofAddOrderResponse; decide)]
        exact sequence_echoed data hb hl9
    · rw [processMessage_cancelOrder notify fuel s data ht] at h
      obtain ⟨hl, r, _, hs⟩ := handleCancelOrderRequest_ok s s1 data d1 h
      have hl9 : 9 ≤ data.length := le_trans (by decide) hl
      refine ⟨cancelOrderResponseTo data, [], ?_, ?_⟩
      · rw [hs]
      · rw [wire_sequence_of _ _ (cancelOrderResponseTo_header data)
          (by show 9 ≤ sizeofCancelOrderResponse; decide)]
        exact sequence_echoed data hb hl9
    · rw [processMessage_modifyOrder notify fuel s data ht] at h
      obtain ⟨hl, r, _, hs⟩ := handleModifyOrderRequest_ok notify fuel s s1 data d1 h
      have hl9 : 9 ≤ data.length := le_trans (by decide) hl
      refine ⟨modifyOrderResponseTo data, r.1.map notify, ?_, ?_⟩
      · rw [hs]; simp
      · rw [wire_sequence_of _ _ (modifyOrderResponseTo_header data)
          (by show 9 ≤ sizeofModifyOrderRequest; decide)]
        exact sequence_echoed data hb hl9
  · intro ht
    rcases ht with ht | ht | ht
    · rw [processMessage_quit notify fuel s data ht]
      exact ⟨_, handleQuitRequest_eq s data, by decide⟩
    · rw [processMessage_listUsers notify fuel s data ht]
      refine ⟨_, handleListUsersRequest_eq s data, ?_⟩
      rw [wire_sequence_of _ _ (listUsersResponse_header s)
          (by show 9 ≤ htonl (sizeofMessageHeader + 4 + 256); decide)]
      decide
    · rw [processMessage_status notify fuel s data ht]
      refine ⟨_, handleOrderbookStatusRequest_eq s data, ?_⟩
      rw [wire_sequence_of _ _ (statusResponse_header s)
          (by show 9 ≤ sizeofOrderbookStatusResponse; decide)]
      decide

/-- C22 on a CancelOrder frame with sequence 7 received on a fresh session: the response
carries the sequence bytes 0, 0, 0, 7. -/
theorem C22_sequence_echo_witness :
    AllBytes cancelFrame ∧
    ∃ resp rest,
      ({ freshSession with sent := [cancelOrderResponseTo cancelFrame] } : Session).sent =
        freshSession.sent ++ resp :: rest ∧
      (resp.wire.drop 5).take 4 = (cancelFrame.drop 5).take 4 :=
  ⟨by unfold AllBytes; decide,
   (C22_sequence_echo noNotify 1 freshSession cancelFrame (by unfold AllBytes; decide)).1
     _ [0x12, 17, 0, 0, 0, 7, 0, 0, 0, 5, 0, 0, 0, 0, 0, 0, 0] (Or.inr (Or.inl (by decide)))
     (by decide)⟩

/-- C22 as stated fails: a Quit frame with sequence 7 is acknowledged with sequence 0, and a
frame of unknown type with the sequence bytes 0, 0, 0, 7 is answered by an Error frame with
the sequence bytes 7, 0, 0, 0. -/
theorem C22_counterexample :
    (quitFrame.drop 5).take 4 = [0, 0, 0, 7] ∧
    processMessage noNotify 1 freshSession quitFrame =
      .ok ({ freshSession with
              sent := [{ data := [3, 0, 0, 0, 9, 0, 0, 0, 0], size := 9 }] }, quitFrame) ∧
    (((Sent.wire { data := [3, 0, 0, 0, 9, 0, 0, 0, 0], size := 9 }).drop 5).take 4 =
      [0, 0, 0, 0]) ∧
    (unknownFrame.drop 5).take 4 = [0, 0, 0, 7] ∧
    processMessage noNotify 1 freshSession unknownFrame =
      .ok ({ freshSession with
              sent := [{ data := [0x30, 0, 0, 0, 9, 7, 0, 0, 0], size := 9 }] },
           unknownFrame) ∧
    (((Sent.wire { data := [0x30, 0, 0, 0, 9, 7, 0, 0, 0], size := 9 }).drop 5).take 4 =
      [7, 0, 0, 0]) := by
  refine ⟨by decide, by decide, by decide, by decide, by decide, by decide⟩

set_option maxRecDepth 20000 in
theorem listUsersResponse_fresh_length : (listUsersResponse freshSession).data.length = 512 := by
  decide

/-- C24: `handleListUsersRequest` writes the length 269 = 9 + 4 + 256 into the header, in
network order, and then passes `header->length`, read after the conversion, to `send`: the
byte count is 218169344, taken from a buffer of 512 bytes.  The ModifyOrder response carries
the length field of the request while 26 bytes are sent. -/
theorem C24_list_users_send_size :
    (∀ (s : Session) (data : Bytes),
      handleListUsersRequest s data =
        .ok ({ s with sent := s.sent ++ [listUsersResponse s] }, data) ∧
      ((listUsersResponse s).data.drop 1).take 4 = bigEndian 4 (9 + 4 + 256) ∧
      (listUsersResponse s).size = 218169344) ∧
    (listUsersResponse freshSession).data.length = 512 ∧
    handleModifyOrderRequest noNotify 2 freshSession longModifyFrame =
      .ok ({ freshSession with
              sent := [{ data := [0x15, 0, 0, 0, 30, 0, 0, 0, 7, 0, 0, 0, 0, 0, 0, 0, 5, 0,
                                  0, 0, 0, 100, 0, 0, 0, 10],
                         size := 26 }] },
           [0x14, 30, 0, 0, 0, 7, 0, 0, 0, 5, 0, 0, 0, 0, 0, 0, 0, 0, 100, 0, 0, 0, 10, 0, 0,
            0, 1, 2, 3, 4]) := by
  refine ⟨fun s data => ⟨rfl, ?_, by show htonl (sizeofMessageHeader + 4 + 256) = _; decide⟩,
    listUsersResponse_fresh_length, by decide⟩
  have h : (listUsersResponse s).data.take 9 = [5, 0, 0, 1, 13, 0, 0, 0, 0] := by
    rw [listUsersResponse_header]
    decide
  have e : ((listUsersResponse s).data.drop 1).take 4 =
      (((listUsersResponse s).data.take 9).drop 1).take 4 := by
    rw [List.drop_take, List.take_take]
    rfl
  rw [e, h]
  decide

theorem slice_append (data : Bytes) (a n m : Nat) :
    (data.drop a).take n ++ (data.drop (a + n)).take m = (data.drop a).take (n + m) := by
  rw [List.take_add, List.drop_drop]

theorem htonl_ntohl_field (off : Nat) (data : Bytes) (hb : AllBytes data) :
    htonl (ntohl (field off 4 data)) = field off 4 data :=
  htonl_htonl _ (field_u32 off data hb)

theorem htonll_ntohll_field (off : Nat) (data : Bytes) (hb : AllBytes data) :
    htonll (ntohll (field off 8 data)) = field off 8 data :=
  htonll_htonll _ (field_u64 off data hb)

/-- The image of the ModifyOrder response is the request as received with its first byte
replaced by 0x15. -/
theorem modifyOrderResponseTo_data (data : Bytes) (hb : AllBytes data)
    (hl : sizeofModifyOrderRequest ≤ data.length) :
    (modifyOrderResponseTo data).data = 0x15 :: (data.drop 1).take 25 := by
  have hl26 : 26 ≤ data.length := hl
  simp only [modifyOrderResponseTo, ModifyOrderRequest.bytes, ModifyOrderRequest.toNetworkOrder,
    ModifyOrderRequest.toHostOrder, ModifyOrderRequest.ofBytes, MessageHeader.bytes,
    MessageHeader.toNetworkOrder, MessageHeader.toHostOrder, MessageHeader.ofBytes,
    htonl_ntohl_field _ data hb, htonll_ntohll_field _ data hb]
  rw [bytesOf_field 1 4 data hb (by omega), bytesOf_field 5 4 data hb (by omega),
    bytesOf_field 9 8 data hb (by omega), bytesOf_field 17 1 data hb (by omega),
    bytesOf_field 18 4 data hb (by omega), bytesOf_field 22 4 data hb (by omega)]
  simp only [List.append_assoc]
  rw [slice_append data 18 4 4, slice_append data 17 1 8, slice_append data 9 8 9,
    slice_append data 5 4 17, slice_append data 1 4 21]
  rfl

theorem modifyOrderResponseTo_wire (data : Bytes) (hb : AllBytes data)
    (hl : sizeofModifyOrderRequest ≤ data.length) :
    (modifyOrderResponseTo data).wire = 0x15 :: (data.drop 1).take 25 := by
  have hl26 : 26 ≤ data.length := hl
  have hd := modifyOrderResponseTo_data data hb hl
  unfold Sent.wire
  rw [hd]
  apply List.take_of_length_le
  show (0x15 :: (data.drop 1).take 25).length ≤ 26
  simp only [List.length_cons, List.length_take, List.length_drop]
  omega

theorem addOrderResponseTo_length (data : Bytes) :
    (addOrderResponseTo data).wire.length = 26 := by
  simp [addOrderResponseTo, Sent.wire, AddOrderResponse.bytes, AddOrderResponse.toNetworkOrder,
    length_header_bytes, length_bytesOf, sizeofAddOrderResponse, sizeofMessageHeader]

theorem addOrderResponseTo_type (data : Bytes) :
    (addOrderResponseTo data).wire.take 1 = [0x11] :=
  wire_type_of _ _ (addOrderResponseTo_header data)
    (by show 9 ≤ sizeofAddOrderResponse; decide)

/-- When the engine call of an AddOrder request returns, the calls of `send` the handler
makes are one `AddOrderResponse` (26 bytes, type 0x11) followed by one call per trade the
engine returned, in the engine's order; a ModifyOrder request is answered the same way, its
response being the 26 bytes of the request as received with the type byte replaced by 0x15.
Conversely a handler that returns has written exactly these frames for the trades of a
returned engine call.  The call of `send` per trade is the parameter `notify`. -/
theorem handler_frames_of_engine_result (notify : Trade → Sent) (fuel : Nat) (s : Session)
    (data : Bytes) (hb : AllBytes data) :
    (∀ r, sizeofAddOrderRequest ≤ data.length →
      s.orderbook_.AddOrder fuel (orderOfRequest data) = .ok r →
      handleAddOrderRequest notify fuel s data =
          .ok ({ orderbook_ := r.2, clients := s.clients,
                 sent := s.sent ++ [addOrderResponseTo data] ++ r.1.map notify },
               (AddOrderRequest.ofBytes data).toHostOrder.bytes ++
                 data.drop sizeofAddOrderRequest) ∧
        (addOrderResponseTo data).wire.take 1 = [0x11] ∧
        (addOrderResponseTo data).wire.length = 26 ∧
        (r.1.map notify).length = r.1.length) ∧
    (∀ r, sizeofModifyOrderRequest ≤ data.length →
      s.orderbook_.MatchOrder fuel (modifyOfRequest data) = .ok r →
      handleModifyOrderRequest notify fuel s data =
          .ok ({ orderbook_ := r.2, clients := s.clients,
                 sent := s.sent ++ [modifyOrderResponseTo data] ++ r.1.map notify },
               (ModifyOrderRequest.ofBytes data).toHostOrder.bytes ++
                 data.drop sizeofModifyOrderRequest) ∧
        (modifyOrderResponseTo data).wire = 0x15 :: (data.drop 1).take 25 ∧
        (r.1.map notify).length = r.1.length) ∧
    (∀ s1 d1, handleAddOrderRequest notify fuel s data = .ok (s1, d1) →
      ∃ r, s.orderbook_.AddOrder fuel (orderOfRequest data) = .ok r ∧
        s1.sent = s.sent ++ [addOrderResponseTo data] ++ r.1.map notify) ∧
    (∀ s1 d1, handleModifyOrderRequest notify fuel s data = .ok (s1, d1) →
      ∃ r, s.orderbook_.MatchOrder fuel (modifyOfRequest data) = .ok r ∧
        s1.sent = s.sent ++ [modifyOrderResponseTo data] ++ r.1.map notify) := by
  refine ⟨?_, ?_, ?_, ?_⟩
  · intro r hl hr
    refine ⟨?_, addOrderResponseTo_type data, addOrderResponseTo_length data,
      List.length_map _ _⟩
    rw [handleAddOrderRequest_eq notify fuel s data hl, hr, Result.bind_ok]
  · intro r hl hr
    refine ⟨?_, modifyOrderResponseTo_wire data hb hl, List.length_map _ _⟩
    rw [handleModifyOrderRequest_eq notify fuel s data hl, hr, Result.bind_ok]
  · intro s1 d1 h
    obtain ⟨_, r, hr, hs⟩ := handleAddOrderRequest_ok notify fuel s s1 data d1 h
    exact ⟨r, hr, by rw [hs]⟩
  · intro s1 d1 h
    obtain ⟨_, r, hr, hs⟩ := handleModifyOrderRequest_ok notify fuel s s1 data d1 h
    exact ⟨r, hr, by rw [hs]⟩

theorem ordersAt_map_isSome (f : OrderID × OrderEntry → OrderID × OrderEntry)
    (hf : ∀ e, (f e).1 = e.1) (idx : Index) (orderID : OrderID) :
    (ordersAt (idx.map f) orderID).isSome = (ordersAt idx orderID).isSome := by
  induction idx with
  | nil => rfl
  | cons e rest ih =>
    have h1 := hf e
    rcases hfe : f e with ⟨k1, v1⟩
    obtain ⟨k, v⟩ := e
    rw [hfe] at h1
    simp only at h1
    subst h1
    simp only [List.map_cons, hfe, ordersAt]
    by_cases hq : k1 = orderID
    · simp [hq]
    · simp only [hq, if_false]
      exact ih

theorem ordersContains_ordersSync (idx : Index) (o : Order) (orderID : OrderID) :
    ordersContains (ordersSync idx o) orderID = ordersContains idx orderID := by
  unfold ordersContains ordersSync
  apply ordersAt_map_isSome
  intro e
  split <;> rfl

theorem ordersContains_ordersErase_self (idx : Index) (orderID : OrderID) :
    ordersContains (ordersErase idx orderID) orderID = false := by
  simp [ordersContains, ordersAt_ordersErase_self]

theorem ordersContains_ordersErase_other (idx : Index) (orderID other : OrderID)
    (h : other ≠ orderID) :
    ordersContains (ordersErase idx orderID) other = ordersContains idx other := by
  simp [ordersContains, ordersAt_ordersErase_other idx orderID other h]

theorem ordersContains_erase_erase_left (idx : Index) (a b : OrderID) :
    ordersContains (ordersErase (ordersErase idx a) b) a = false := by
  by_cases h : a = b
  · rw [← h]
    exact ordersContains_ordersErase_self _ _
  · rw [ordersContains_ordersErase_other _ _ _ h]
    exact ordersContains_ordersErase_self _ _

/-- C28: each pass of the inner loop of `MatchOrders` — entered by the outer loop on a book
whose best bid price is not below its best ask price, with B the front of the best bid level
and A the front of the best ask level — returns, with q = min(B.remaining, A.remaining)
taken off both remaining quantities and exactly one trade appended, whose bid part is
(B.id, B.price, q) and whose ask part is (A.id, A.price, q).  An order whose remaining
quantity became 0 is popped from its level and erased from the index; an order that is only
partly filled stays at the front of its level with the rest of its quantity, and (the two
ids being different) its index entry stays. -/
theorem C28_inner_step (bid : Order) (bids : OrderPointers) (ask : Order)
    (asks : OrderPointers) (idx : Index) (ts : Trades) :
    (∀ (fuel : Nat) (bidPrice askPrice : Price) (bidsRest asksRest : Levels),
      ¬ bidPrice < askPrice →
      matchLoop (fuel + 1)
          { bids_ := (bidPrice, bid :: bids) :: bidsRest,
            asks_ := (askPrice, ask :: asks) :: asksRest, orders_ := idx } ts =
        ((innerBody bid bids ask asks idx ts).bind
            (innerLoopN (bids.length + 1 + asks.length))).bind fun s =>
          matchLoop fuel
            { bids_ := (bidPrice, s.bids) :: bidsRest, asks_ := (askPrice, s.asks) :: asksRest,
              orders_ := s.orders_ } s.trades) ∧
    (∃ s, innerBody bid bids ask asks idx ts = .ok s) ∧
    ∀ s, innerBody bid bids ask asks idx ts = .ok s →
      s.trades = ts ++
        [{ bidTrade_ := { orderID_ := bid.orderID_, price_ := bid.price_,
                          quantity_ := min bid.remainingQuantity_ ask.remainingQuantity_ },
           askTrade_ := { orderID_ := ask.orderID_, price_ := ask.price_,
                          quantity_ := min bid.remainingQuantity_ ask.remainingQuantity_ } }] ∧
      (bid.remainingQuantity_ - min bid.remainingQuantity_ ask.remainingQuantity_ = 0 →
        s.bids = bids ∧ ordersContains s.orders_ bid.orderID_ = false) ∧
      (bid.remainingQuantity_ - min bid.remainingQuantity_ ask.remainingQuantity_ ≠ 0 →
        s.bids =
          { bid with
            remainingQuantity_ :=
              bid.remainingQuantity_ - min bid.remainingQuantity_ ask.remainingQuantity_ } ::
            bids ∧
        (bid.orderID_ ≠ ask.orderID_ →
          ordersContains s.orders_ bid.orderID_ = ordersContains idx bid.orderID_)) ∧
      (ask.remainingQuantity_ - min bid.remainingQuantity_ ask.remainingQuantity_ = 0 →
        s.asks = asks ∧ ordersContains s.orders_ ask.orderID_ = false) ∧
      (ask.remainingQuantity_ - min bid.remainingQuantity_ ask.remainingQuantity_ ≠ 0 →
        s.asks =
          { ask with
            remainingQuantity_ :=
              ask.remainingQuantity_ - min bid.remainingQuantity_ ask.remainingQuantity_ } ::
            asks ∧
        (bid.orderID_ ≠ ask.orderID_ →
          ordersContains s.orders_ ask.orderID_ = ordersContains idx ask.orderID_)) := by
  have h1 : ¬ (min bid.remainingQuantity_ ask.remainingQuantity_ > bid.remainingQuantity_) :=
    not_lt.mpr (Nat.min_le_left _ _)
  have h2 : ¬ (min bid.remainingQuantity_ ask.remainingQuantity_ > ask.remainingQuantity_) :=
    not_lt.mpr (Nat.min_le_right _ _)
  obtain ⟨s0, hs0, _⟩ := innerBody_ok bid bids ask asks idx ts
  refine ⟨?_, ⟨s0, hs0⟩, ?_⟩
  · intro fuel bidPrice askPrice bidsRest asksRest hx
    simp only [matchLoop, if_neg hx, innerLoop, List.length_cons]
    rfl
  · intro s h
    simp only [innerBody, Order.Fill, if_neg h1, if_neg h2, Result.bind_ok,
      Result.ok.injEq] at h
    subst h
    simp only [Order.isFilled, beq_iff_eq]
    refine ⟨by trivial, ?_, ?_, ?_, ?_⟩
    · intro hz
      simp only [hz, if_true]
      refine ⟨by trivial, ?_⟩
      split
      · exact ordersContains_erase_erase_left _ _ _
      · exact ordersContains_ordersErase_self _ _
    · intro hz
      simp only [hz, if_false]
      refine ⟨by trivial, ?_⟩
      intro hne
      split
      · rw [ordersContains_ordersErase_other _ _ _ hne, ordersContains_ordersSync,
          ordersContains_ordersSync]
      · rw [ordersContains_ordersSync, ordersContains_ordersSync]
    · intro hz
      simp only [hz, if_true]
      refine ⟨by trivial, ?_⟩
      exact ordersContains_ordersErase_self _ _
    · intro hz
      simp only [hz, if_false]
      refine ⟨by trivial, ?_⟩
      intro hne
      split
      · rw [ordersContains_ordersErase_other _ _ _ (Ne.symm hne), ordersContains_ordersSync,
          ordersContains_ordersSync]
      · rw [ordersContains_ordersSync, ordersContains_ordersSync]

/-- C28 on a buy of 10 at 100 meeting a sell of 4 at 90: one trade (1, 100, 4) / (2, 90, 4). -/
theorem C28_inner_step_witness :
    innerBody (mkOrder .GoodTillCancel .Buy 100 10 1) [] (mkOrder .GoodTillCancel .Sell 90 4 2)
        [] stepState.orders_ [] = .ok stepStateAfter ∧
    stepStateAfter.trades = [] ++
      [{ bidTrade_ := { orderID_ := (mkOrder .GoodTillCancel .Buy 100 10 1).orderID_,
                        price_ := (mkOrder .GoodTillCancel .Buy 100 10 1).price_,
                        quantity_ :=
                          min (mkOrder .GoodTillCancel .Buy 100 10 1).remainingQuantity_
                            (mkOrder .GoodTillCancel .Sell 90 4 2).remainingQuantity_ },
         askTrade_ := { orderID_ := (mkOrder .GoodTillCancel .Sell 90 4 2).orderID_,
                        price_ := (mkOrder .GoodTillCancel .Sell 90 4 2).price_,
                        quantity_ :=
                          min (mkOrder .GoodTillCancel .Buy 100 10 1).remainingQuantity_
                            (mkOrder .GoodTillCancel .Sell 90 4 2).remainingQuantity_ } }] :=
  ⟨by decide,
   ((C28_inner_step (mkOrder .GoodTillCancel .Buy 100 10 1) []
      (mkOrder .GoodTillCancel .Sell 90 4 2) [] stepState.orders_ []).2.2 stepStateAfter
      (by decide)).1⟩

theorem Result.bind_eq_fault {α β : Type} (r : Result α) (k : α → Result β) (f : Fault)
    (h : r.bind k = .fault f) : r = .fault f ∨ ∃ a, r = .ok a ∧ k a = .fault f := by
  cases r with
  | ok a => exact Or.inr ⟨a, rfl, h⟩
  | fault g =>
    simp only [Result.bind_fault, Result.fault.injEq] at h
    exact Or.inl (by rw [h])
  | outOfFuel => cases h

theorem Fill_min_left (bid ask : Order) :
    bid.Fill (min bid.remainingQuantity_ ask.remainingQuantity_) =
      .ok { bid with
            remainingQuantity_ :=
              bid.remainingQuantity_ - min bid.remainingQuantity_ ask.remainingQuantity_ } := by
  have h1 : ¬ (min bid.remainingQuantity_ ask.remainingQuantity_ > bid.remainingQuantity_) :=
    not_lt.mpr (Nat.min_le_left _ _)
  simp only [Order.Fill, if_neg h1]

theorem Fill_min_right (bid ask : Order) :
    ask.Fill (min bid.remainingQuantity_ ask.remainingQuantity_) =
      .ok { ask with
            remainingQuantity_ :=
              ask.remainingQuantity_ - min bid.remainingQuantity_ ask.remainingQuantity_ } := by
  have h2 : ¬ (min bid.remainingQuantity_ ask.remainingQuantity_ > ask.remainingQuantity_) :=
    not_lt.mpr (Nat.min_le_right _ _)
  simp only [Order.Fill, if_neg h2]

/-- The inner loop ends in no fault, whatever the number of passes allowed. -/
theorem innerLoopN_no_fault (n : Nat) :
    ∀ (s : InnerState) (f : Fault), innerLoopN n s ≠ .fault f := by
  induction n with
  | zero =>
    intro s f h
    obtain ⟨bids, asks, idx, ts⟩ := s
    cases bids with
    | nil => simp [innerLoopN] at h
    | cons b bs =>
      cases asks with
      | nil => simp [innerLoopN] at h
      | cons a as => simp [innerLoopN] at h
  | succ n ih =>
    intro s f h
    obtain ⟨bids, asks, idx, ts⟩ := s
    cases bids with
    | nil => simp [innerLoopN] at h
    | cons b bs =>
      cases asks with
      | nil => simp [innerLoopN] at h
      | cons a as =>
        obtain ⟨s1, hs1, _⟩ := innerBody_ok b bs a as idx ts
        simp only [innerLoopN, hs1, Result.bind_ok] at h
        exact ih s1 f h

/-- The outer loop ends in no fault. -/
theorem matchLoop_no_fault (fuel : Nat) :
    ∀ (b : Orderbook) (ts : Trades) (f : Fault), matchLoop fuel b ts ≠ .fault f := by
  induction fuel with
  | zero => intro b ts f h; cases h
  | succ n ih =>
    intro b ts f h
    obtain ⟨bids, asks, idx⟩ := b
    cases bids with
    | nil => simp [matchLoop] at h
    | cons x xs =>
      cases asks with
      | nil => simp [matchLoop] at h
      | cons y ys =>
        obtain ⟨bp, bl⟩ := x
        obtain ⟨ap, al⟩ := y
        by_cases hx : bp < ap
        · simp [matchLoop, hx] at h
        · obtain ⟨s1, hs1⟩ := innerLoop_returns
            { bids := bl, asks := al, orders_ := idx, trades := ts }
          simp only [matchLoop, if_neg hx, hs1, Result.bind_ok] at h
          exact ih _ _ f h

theorem CancelOrder_no_logic_error (b : Orderbook) (orderID : OrderID) :
    b.CancelOrder orderID ≠ .fault .logic_error := by
  intro h
  unfold Orderbook.CancelOrder at h
  split at h
  · cases h
  · simp only at h
    split at h
    · split at h
      · cases h
      · split at h <;> cases h
    · split at h
      · cases h
      · split at h <;> cases h

theorem cleanupBids_no_logic_error (b : Orderbook) :
    cleanupBids b ≠ .fault .logic_error := by
  intro h
  unfold cleanupBids at h
  split at h
  · cases h
  · cases h
  · split at h
    · exact CancelOrder_no_logic_error _ _ h
    · cases h

theorem cleanupAsks_no_logic_error (b : Orderbook) :
    cleanupAsks b ≠ .fault .logic_error := by
  intro h
  unfold cleanupAsks at h
  split at h
  · cases h
  · cases h
  · split at h
    · exact CancelOrder_no_logic_error _ _ h
    · cases h

theorem MatchOrders_no_logic_error (fuel : Nat) (b : Orderbook) :
    b.MatchOrders fuel ≠ .fault .logic_error := by
  intro h
  unfold Orderbook.MatchOrders at h
  rcases Result.bind_eq_fault _ _ _ h with h1 | ⟨r, _, h⟩
  · exact matchLoop_no_fault fuel b [] _ h1
  · rcases Result.bind_eq_fault _ _ _ h with h1 | ⟨b1, _, h⟩
    · exact cleanupBids_no_logic_error _ h1
    · rcases Result.bind_eq_fault _ _ _ h with h1 | ⟨b2, _, h⟩
      · exact cleanupAsks_no_logic_error _ h1
      · cases h

theorem AddOrder_no_logic_error (fuel : Nat) (b : Orderbook) (order : Order) :
    b.AddOrder fuel order ≠ .fault .logic_error := by
  intro h
  unfold Orderbook.AddOrder at h
  split at h
  · cases h
  · split at h
    · cases h
    · exact MatchOrders_no_logic_error _ _ h

theorem MatchOrder_no_logic_error (fuel : Nat) (b : Orderbook) (order : OrderModify) :
    b.MatchOrder fuel order ≠ .fault .logic_error := by
  intro h
  unfold Orderbook.MatchOrder at h
  split at h
  · cases h
  · rcases Result.bind_eq_fault _ _ _ h with h1 | ⟨b1, _, h⟩
    · exact CancelOrder_no_logic_error _ _ h1
    · exact AddOrder_no_logic_error _ _ _ h

/-- C29: in a pass of the matching loop both calls of `Fill` are made with the minimum of
the two remaining quantities, so neither takes its error branch: each returns the order with
that quantity taken off.  The inner loop and the outer loop of `MatchOrders` end in no fault
at all, and `AddOrder`, `MatchOrder` and `CancelOrder` never end with the `std::logic_error`
of `Fill`, for any book, any order and any number of loop iterations. -/
theorem C29_fill_never_throws :
    (∀ bid ask : Order,
      bid.Fill (min bid.remainingQuantity_ ask.remainingQuantity_) =
        .ok { bid with
              remainingQuantity_ :=
                bid.remainingQuantity_ - min bid.remainingQuantity_ ask.remainingQuantity_ } ∧
      ask.Fill (min bid.remainingQuantity_ ask.remainingQuantity_) =
        .ok { ask with
              remainingQuantity_ :=
                ask.remainingQuantity_ -
                  min bid.remainingQuantity_ ask.remainingQuantity_ }) ∧
    (∀ (s : InnerState), ∃ s1, innerLoop s = .ok s1) ∧
    (∀ (fuel : Nat) (b : Orderbook) (ts : Trades) (f : Fault), matchLoop fuel b ts ≠ .fault f) ∧
    (∀ (fuel : Nat) (b : Orderbook) (order : Order),
      b.AddOrder fuel order ≠ .fault .logic_error) ∧
    (∀ (fuel : Nat) (b : Orderbook) (order : OrderModify),
      b.MatchOrder fuel order ≠ .fault .logic_error) ∧
    (∀ (b : Orderbook) (orderID : OrderID), b.CancelOrder orderID ≠ .fault .logic_error) :=
  ⟨fun bid ask => ⟨Fill_min_left bid ask, Fill_min_right bid ask⟩, innerLoop_returns,
   matchLoop_no_fault, AddOrder_no_logic_error, MatchOrder_no_logic_error,
   CancelOrder_no_logic_error⟩

/-- When the inner loop returns, one of the two levels is empty. -/
theorem innerLoopN_ends (n : Nat) :
    ∀ s s1 : InnerState, innerLoopN n s = .ok s1 → s1.bids = [] ∨ s1.asks = [] := by
  induction n with
  | zero =>
    intro s s1 h
    obtain ⟨bids, asks, idx, ts⟩ := s
    cases bids with
    | nil => simp only [innerLoopN, Result.ok.injEq] at h; subst h; exact Or.inl rfl
    | cons b bs =>
      cases asks with
      | nil => simp only [innerLoopN, Result.ok.injEq] at h; subst h; exact Or.inr rfl
      | cons a as => simp [innerLoopN] at h
  | succ n ih =>
    intro s s1 h
    obtain ⟨bids, asks, idx, ts⟩ := s
    cases bids with
    | nil => simp only [innerLoopN, Result.ok.injEq] at h; subst h; exact Or.inl rfl
    | cons b bs =>
      cases asks with
      | nil => simp only [innerLoopN, Result.ok.injEq] at h; subst h; exact Or.inr rfl
      | cons a as =>
        simp only [innerLoopN] at h
        obtain ⟨s2, _, h3⟩ := Result.bind_eq_ok _ _ _ h
        exact ih s2 s1 h3

/-- With one of the two levels empty the inner loop is skipped. -/
theorem innerLoop_idle (s : InnerState) (h : s.bids = [] ∨ s.asks = []) :
    innerLoop s = .ok s := by
  obtain ⟨bids, asks, idx, ts⟩ := s
  unfold innerLoop
  cases bids with
  | nil => simp [innerLoopN]
  | cons b bs =>
    cases asks with
    | nil => simp [innerLoopN]
    | cons a as => simp at h

theorem MatchOrder_ok_trades (fuel : Nat) (b : Orderbook) (order : OrderModify)
    (r : Trades × Orderbook) (h : b.MatchOrder fuel order = .ok r) : r.1 = [] := by
  unfold Orderbook.MatchOrder at h
  split at h
  · cases h; rfl
  · obtain ⟨b1, _, h2⟩ := Result.bind_eq_ok _ _ _ h
    rcases AddOrder_ok fuel b1 _ r h2 with ⟨_, hr⟩ | ⟨_, _, hr, _⟩
    · rw [hr]
    · exact hr

theorem AddOrder_ok_trades (fuel : Nat) (b : Orderbook) (order : Order)
    (r : Trades × Orderbook) (h : b.AddOrder fuel order = .ok r) : r.1 = [] := by
  rcases AddOrder_ok fuel b order r h with ⟨_, hr⟩ | ⟨_, _, hr, _⟩
  · rw [hr]
  · exact hr

/-- C30: the outer loop of `MatchOrders` reaches one of its two `break` statements, for some
number of iterations, iff on entry a side is empty or the best bid price is below the best
ask price; it then leaves at once with the book and the trade list untouched.  With the best
bid price not below the best ask price the inner loop returns with one of the two best
levels empty, the level stays in its map under the same price, the next iteration finds the
same two prices and skips the inner loop, and no number of iterations reaches a `break`.
Hence the trade list of every `AddOrder` or `MatchOrder` call that returns is empty. -/
theorem C30_returns_only_unmatched :
    (∀ (b : Orderbook) (ts : Trades),
      ((∃ fuel r, matchLoop fuel b ts = .ok r) ↔ b.Uncrossed) ∧
      (b.Uncrossed → ∀ fuel, matchLoop (fuel + 1) b ts = .ok (b, ts))) ∧
    (∀ (bidPrice askPrice : Price) (bids asks : OrderPointers) (bidsRest asksRest : Levels)
        (idx : Index) (ts : Trades), ¬ bidPrice < askPrice →
      (∃ s1, innerLoop { bids := bids, asks := asks, orders_ := idx, trades := ts } = .ok s1 ∧
        (s1.bids = [] ∨ s1.asks = []) ∧ innerLoop s1 = .ok s1 ∧
        ∀ fuel, matchLoop (fuel + 1)
            { bids_ := (bidPrice, bids) :: bidsRest, asks_ := (askPrice, asks) :: asksRest,
              orders_ := idx } ts =
          matchLoop fuel
            { bids_ := (bidPrice, s1.bids) :: bidsRest,
              asks_ := (askPrice, s1.asks) :: asksRest, orders_ := s1.orders_ } s1.trades) ∧
      (∀ fuel, matchLoop fuel
          { bids_ := (bidPrice, bids) :: bidsRest, asks_ := (askPrice, asks) :: asksRest,
            orders_ := idx } ts = .outOfFuel) ∧
      (∀ fuel, Orderbook.MatchOrders fuel
          { bids_ := (bidPrice, bids) :: bidsRest, asks_ := (askPrice, asks) :: asksRest,
            orders_ := idx } = .outOfFuel)) ∧
    (∀ (fuel : Nat) (b : Orderbook) (order : Order) (r : Trades × Orderbook),
      b.AddOrder fuel order = .ok r → r.1 = []) ∧
    (∀ (fuel : Nat) (b : Orderbook) (order : OrderModify) (r : Trades × Orderbook),
      b.MatchOrder fuel order = .ok r → r.1 = []) := by
  refine ⟨?_, ?_, AddOrder_ok_trades, MatchOrder_ok_trades⟩
  · intro b ts
    refine ⟨⟨?_, ?_⟩, fun hu fuel => matchLoop_uncrossed fuel b ts hu⟩
    · rintro ⟨fuel, r, h⟩
      exact (matchLoop_ok fuel b ts r h).2
    · intro hu
      exact ⟨1, (b, ts), matchLoop_uncrossed 0 b ts hu⟩
  · intro bidPrice askPrice bids asks bidsRest asksRest idx ts hx
    obtain ⟨s1, hs1⟩ := innerLoop_returns
      { bids := bids, asks := asks, orders_ := idx, trades := ts }
    have hend := innerLoopN_ends _ _ s1 hs1
    refine ⟨⟨s1, hs1, hend, innerLoop_idle s1 hend, ?_⟩,
      fun fuel => matchLoop_crossed fuel _ _ _ _ _ _ _ _ hx,
      fun fuel => MatchOrders_crossed fuel _ _ _ _ _ _ _ hx⟩
    intro fuel
    simp only [matchLoop, if_neg hx, hs1, Result.bind_ok]

/-- C30 on a fresh book: the buy of 10 at 100 crosses nothing, `AddOrder` returns, and its
trade list is empty. -/
theorem C30_returns_only_unmatched_witness :
    Orderbook.empty.AddOrder 1 (mkOrder .GoodTillCancel .Buy 100 10 1) =
      .ok ([], bookOf 100 [mkOrder .GoodTillCancel .Buy 100 10 1] 0 []) ∧
    (([], bookOf 100 [mkOrder .GoodTillCancel .Buy 100 10 1] 0 []) :
      Trades × Orderbook).1 = [] :=
  ⟨by decide,
   C30_returns_only_unmatched.2.2.1 1 Orderbook.empty (mkOrder .GoodTillCancel .Buy 100 10 1)
     ([], bookOf 100 [mkOrder .GoodTillCancel .Buy 100 10 1] 0 []) (by decide)⟩

/-- C29 on the crossed book: the call of `AddOrder` that runs the matching loop does not end
with `std::logic_error`. -/
theorem C29_fill_never_throws_witness :
    crossedBook.AddOrder 3 (mkOrder .GoodTillCancel .Buy 100 10 1) ≠ .fault .logic_error ∧
    (mkOrder .GoodTillCancel .Buy 100 10 1).Fill
        (min (mkOrder .GoodTillCancel .Buy 100 10 1).remainingQuantity_
          (mkOrder .GoodTillCancel .Sell 90 4 2).remainingQuantity_) =
      .ok { (mkOrder .GoodTillCancel .Buy 100 10 1) with
            remainingQuantity_ :=
              (mkOrder .GoodTillCancel .Buy 100 10 1).remainingQuantity_ -
                min (mkOrder .GoodTillCancel .Buy 100 10 1).remainingQuantity_
                  (mkOrder .GoodTillCancel .Sell 90 4 2).remainingQuantity_ } :=
  ⟨C29_fill_never_throws.2.2.2.1 3 crossedBook (mkOrder .GoodTillCancel .Buy 100 10 1),
   (C29_fill_never_throws.1 (mkOrder .GoodTillCancel .Buy 100 10 1)
      (mkOrder .GoodTillCancel .Sell 90 4 2)).1⟩

theorem levelsNonEmpty_reachable (b : Orderbook) (h : Reachable b) : b.LevelsNonEmpty :=
  reachableBy_induction (fun _ => True) (fun _ => True) Orderbook.LevelsNonEmpty
    (fun _ _ => trivial) (fun _ _ _ => trivial)
    (by intro e he; simp [Orderbook.empty] at he)
    (fun b o hp _ _ _ _ => levelsNonEmpty_insertOrder b o hp)
    (fun b i b1 hp hc => levelsNonEmpty_CancelOrder b b1 i hp hc)
    b (reachableBy_of_reachable b h)

theorem uncrossed_reachable (b : Orderbook) (h : Reachable b) : b.Uncrossed := by
  obtain ⟨_, hba⟩ := priceInv_reachable b h
  obtain ⟨bids, asks, idx⟩ := b
  intro bp ap hb ha
  cases bids with
  | nil => simp [bestPrice] at hb
  | cons x xs =>
    cases asks with
    | nil => simp [bestPrice] at ha
    | cons y ys =>
      obtain ⟨kb, lb⟩ := x
      obtain ⟨ka, la⟩ := y
      simp only [bestPrice, Option.some.injEq] at hb ha
      subst hb ha
      exact hba kb (by simp [keys]) ka (by simp [keys])

theorem topOrder_mem_heldBy (m : Levels) (o : Order) (h : topOrder m = some o) :
    o ∈ (m.map Prod.snd).flatten := by
  match m, h with
  | (_, o1 :: _) :: _, h =>
    simp only [topOrder, Option.some.injEq] at h
    subst h
    simp

theorem noFillandKillOnTop_reachable (b : Orderbook) (h : Reachable b) :
    b.NoFillandKillOnTop := by
  have hn := noFak_reachable b h
  constructor
  · intro o ho
    exact hn o (List.mem_append_left _ (topOrder_mem_heldBy _ o ho))
  · intro o ho
    exact hn o (List.mem_append_right _ (topOrder_mem_heldBy _ o ho))

/-- C1: for every book the public calls produce (reached from the empty book by returning
`AddOrder`, `CancelOrder` and `MatchOrder` calls; its levels are then all non-empty) and
every GoodTillCancel order whose id is not in the index and whose price does not cross the
opposite side, `AddOrder` returns (given one iteration of the outer loop) an empty trade
list and the old book with the order inserted: the opposite side is unchanged, the level at
the order's price is the old level (empty if absent) followed by the order, the other levels
of the side are unchanged, and the index is the old index with the entry of the order
added. -/
theorem C1_resting_add (fuel : Nat) (b : Orderbook) (order : Order) (hr : Reachable b)
    (hgtc : order.orderType_ = OrderType.GoodTillCancel)
    (hid : ordersContains b.orders_ order.orderID_ = false)
    (hnc : b.NoCross order.side_ order.price_) :
    b.LevelsNonEmpty ∧
    b.AddOrder (fuel + 1) order = .ok ([], b.insertOrder order) ∧
    (b.insertOrder order).levels order.side_.other = b.levels order.side_.other ∧
    mapAt ((b.insertOrder order).levels order.side_) order.price_ =
      some ((mapAt (b.levels order.side_) order.price_).getD [] ++ [order]) ∧
    ((b.insertOrder order).levels order.side_).filter (fun e => decide (e.1 ≠ order.price_)) =
      (b.levels order.side_).filter (fun e => decide (e.1 ≠ order.price_)) ∧
    (b.insertOrder order).orders_ = b.orders_ ++ [(order.orderID_, { order_ := order })] :=
  ⟨levelsNonEmpty_reachable b hr,
   AddOrder_resting fuel b order (priceInv_reachable b hr).1 (levelsNonEmpty_reachable b hr)
     (uncrossed_reachable b hr) (noFillandKillOnTop_reachable b hr) hgtc hid hnc⟩

/-- C1, scenario 1: on a fresh book `add(GTC, Buy, 100, 10, id=1)` gives no trade and the
snapshot bids=[(100,10)], asks=[]; and on the book that holds this buy and a sell at 101, a
second buy at 100 (id 3) is appended behind the first. -/
theorem C1_resting_add_witness :
    Orderbook.empty.AddOrder 1 (mkOrder .GoodTillCancel .Buy 100 10 1) =
      .ok ([], Orderbook.empty.insertOrder (mkOrder .GoodTillCancel .Buy 100 10 1)) ∧
    (Orderbook.empty.insertOrder (mkOrder .GoodTillCancel .Buy 100 10 1)).GetOrderInfos =
      { bids_ := [{ price_ := 100, quantity_ := 10 }], asks_ := [] } ∧
    quotedBook.AddOrder 1 (mkOrder .GoodTillCancel .Buy 100 5 3) =
      .ok ([], quotedBook.insertOrder (mkOrder .GoodTillCancel .Buy 100 5 3)) ∧
    mapAt (quotedBook.insertOrder (mkOrder .GoodTillCancel .Buy 100 5 3)).bids_ 100 =
      some [mkOrder .GoodTillCancel .Buy 100 10 1, mkOrder .GoodTillCancel .Buy 100 5 3] :=
  ⟨(C1_resting_add 0 Orderbook.empty (mkOrder .GoodTillCancel .Buy 100 10 1) Reachable.empty
      rfl (by decide) (by intro ap h; simp [Orderbook.empty, bestPrice] at h)).2.1,
   by decide,
   (C1_resting_add 0 quotedBook (mkOrder .GoodTillCancel .Buy 100 5 3) quotedBook_reachable
      rfl (by decide)
      (by
        intro ap h
        simp only [quotedBook, bookOf, bestPrice] at h
        simp at h
        subst h
        decide)).2.1,
   by decide⟩

theorem oneBid_reachable : Reachable oneBid :=
  Reachable.step (Op.AddOrder (mkOrder .GoodTillCancel .Buy 100 10 1)) 1
    Reachable.empty (by decide)

/-- On a book that is not uncrossed `MatchOrders` never leaves its outer loop. -/
theorem MatchOrders_of_not_uncrossed (b : Orderbook) (h : ¬ b.Uncrossed) (fuel : Nat) :
    b.MatchOrders fuel = .outOfFuel := by
  obtain ⟨bids, asks, idx⟩ := b
  cases bids with
  | nil =>
    exfalso
    apply h
    intro bp ap hb _
    simp [bestPrice] at hb
  | cons x xs =>
    cases asks with
    | nil =>
      exfalso
      apply h
      intro bp ap _ ha
      simp [bestPrice] at ha
    | cons y ys =>
      obtain ⟨kb, lb⟩ := x
      obtain ⟨ka, la⟩ := y
      apply MatchOrders_crossed
      intro hlt
      apply h
      intro bp ap hb ha
      simp only [bestPrice, Option.some.injEq] at hb ha
      subst hb ha
      exact hlt

/-- A call of `AddOrder` whose order has a fresh id and can match never returns. -/
theorem AddOrder_of_canMatch (b : Orderbook) (order : Order)
    (hid : ordersContains b.orders_ order.orderID_ = false)
    (hm : b.CanMatch order.side_ order.price_ = true) (fuel : Nat) :
    b.AddOrder fuel order = .outOfFuel := by
  have hn : ¬ (order.orderType_ = OrderType.FillandKill ∧
      b.CanMatch order.side_ order.price_ = false) := by
    rw [hm]
    intro h
    cases h.2
  simp only [Orderbook.AddOrder, hid, Bool.false_eq_true, if_false, if_neg hn]
  exact MatchOrders_of_not_uncrossed _ (crossed_insertOrder_of_canMatch b order hm) fuel

/-- C17 (the code at a failing input): the matching itself keeps the balance — across the
inner loop of `MatchOrders` the remaining quantity of the two best levels plus twice the
traded volume is unchanged — but no call of `AddOrder` that matches ever returns its trades:
for every book and every order with a fresh id that can match, `AddOrder` is still inside
the loop of `MatchOrders` after any number of iterations, and a call on a reachable book
that is not rejected and returns has an empty trade list.  On the reachable book holding the
buy of 10 at 100, the sell of 4 at 99 is matched by the inner loop (one trade of 4, the buy
left with 6: 10 + 4 - 6 = 2 x 4) and the call never returns. -/
theorem C17_matching_call_never_returns :
    (∀ s s1 : InnerState, innerLoop s = .ok s1 →
      totalRemaining s1.bids + totalRemaining s1.asks + 2 * tradedVolume s1.trades =
        totalRemaining s.bids + totalRemaining s.asks + 2 * tradedVolume s.trades) ∧
    (∀ (b : Orderbook) (order : Order), ordersContains b.orders_ order.orderID_ = false →
      b.CanMatch order.side_ order.price_ = true →
      ∀ fuel, b.AddOrder fuel order = .outOfFuel) ∧
    (∀ (fuel : Nat) (b : Orderbook) (order : Order) (trades : Trades) (b1 : Orderbook),
      Reachable b → ordersContains b.orders_ order.orderID_ = false →
      ¬ (order.orderType_ = OrderType.FillandKill ∧
        b.CanMatch order.side_ order.price_ = false) →
      b.AddOrder fuel order = .ok (trades, b1) →
      trades = [] ∧
      totalRemaining b.resting + order.remainingQuantity_ = totalRemaining b1.resting) ∧
    Reachable oneBid ∧
    ordersContains oneBid.orders_ (mkOrder .GoodTillCancel .Sell 99 4 2).orderID_ = false ∧
    innerLoop { bids := [mkOrder .GoodTillCancel .Buy 100 10 1],
                asks := [mkOrder .GoodTillCancel .Sell 99 4 2],
                orders_ := (oneBid.insertOrder (mkOrder .GoodTillCancel .Sell 99 4 2)).orders_,
                trades := [] } =
      .ok { bids := [{ (mkOrder .GoodTillCancel .Buy 100 10 1) with remainingQuantity_ := 6 }],
            asks := [],
            orders_ := [(1, { order_ := { (mkOrder .GoodTillCancel .Buy 100 10 1) with
                                          remainingQuantity_ := 6 } })],
            trades := [{ bidTrade_ := { orderID_ := 1, price_ := 100, quantity_ := 4 },
                         askTrade_ := { orderID_ := 2, price_ := 99, quantity_ := 4 } }] } ∧
    (∀ fuel, oneBid.AddOrder fuel (mkOrder .GoodTillCancel .Sell 99 4 2) = .outOfFuel) := by
  refine ⟨fun s s1 h => innerLoopN_conserves _ s s1 h, AddOrder_of_canMatch, ?_,
    oneBid_reachable, by decide, by decide,
    AddOrder_of_canMatch oneBid _ (by decide) (by decide)⟩
  intro fuel b order trades b1 hr hid hfak hret
  have ht : trades = [] := (AddOrder_ok_trades fuel b order _ hret : (trades, b1).1 = [])
  have hb := (AddOrder_returning_balance fuel b order trades b1 hr hid hfak hret).1
  subst ht
  refine ⟨rfl, ?_⟩
  simpa [tradedVolume] using hb

theorem quotingSession_reachable : Reachable quotingSession.orderbook_ :=
  Reachable.step (Op.AddOrder (mkOrder .GoodTillCancel .Buy 100 3 5)) 1
    Reachable.empty (by decide)

/-- A request whose order can match is never answered: the handler is still inside the
engine call, which comes before its first `send`. -/
theorem handleAddOrderRequest_of_canMatch (notify : Trade → Sent) (s : Session) (data : Bytes)
    (hl : sizeofAddOrderRequest ≤ data.length)
    (hid : ordersContains s.orderbook_.orders_ (orderOfRequest data).orderID_ = false)
    (hm : s.orderbook_.CanMatch (orderOfRequest data).side_ (orderOfRequest data).price_ = true)
    (fuel : Nat) : handleAddOrderRequest notify fuel s data = .outOfFuel := by
  rw [handleAddOrderRequest_eq notify fuel s data hl,
    AddOrder_of_canMatch _ _ hid hm fuel, Result.bind_outOfFuel]

theorem handleAddOrderRequest_sent (notify : Trade → Sent) (fuel : Nat) (s s1 : Session)
    (data d1 : Bytes) (h : handleAddOrderRequest notify fuel s data = .ok (s1, d1)) :
    s1.sent = s.sent ++ [addOrderResponseTo data] := by
  obtain ⟨_, r, hr, hs⟩ := handleAddOrderRequest_ok notify fuel s s1 data d1 h
  have ht := AddOrder_ok_trades fuel _ _ r hr
  rw [hs]
  simp [ht]

theorem handleModifyOrderRequest_sent (notify : Trade → Sent) (fuel : Nat) (s s1 : Session)
    (data d1 : Bytes) (h : handleModifyOrderRequest notify fuel s data = .ok (s1, d1)) :
    s1.sent = s.sent ++ [modifyOrderResponseTo data] := by
  obtain ⟨_, r, hr, hs⟩ := handleModifyOrderRequest_ok notify fuel s s1 data d1 h
  have ht := MatchOrder_ok_trades fuel _ _ r hr
  rw [hs]
  simp [ht]

theorem crossingAddFrame_unanswered (notify : Trade → Sent) (fuel : Nat) :
    handleAddOrderRequest notify fuel quotingSession crossingAddFrame = .outOfFuel :=
  handleAddOrderRequest_of_canMatch notify quotingSession crossingAddFrame (by decide)
    (by decide) (by decide) fuel

/-- C25 (the code at a failing input): an AddOrder request whose order (fresh id) can match
is never answered — the handler calls the engine before its first `send`, and that call
never returns — so neither the `AddOrderResponse` nor a notification for the trade is
written; and a handler that does return (AddOrder or ModifyOrder) has written its response
and no notification at all, whatever frame is sent per trade.  On the session whose book
holds the buy of 3 at 100 (id 5), the request to sell 3 at 100 (id 6) makes the inner loop
trade (5, 100, 3) / (6, 100, 3), and neither the handler nor `processMessageBuffer`
returns. -/
theorem C25_crossing_request_unanswered :
    (∀ (notify : Trade → Sent) (s : Session) (data : Bytes),
      sizeofAddOrderRequest ≤ data.length →
      ordersContains s.orderbook_.orders_ (orderOfRequest data).orderID_ = false →
      s.orderbook_.CanMatch (orderOfRequest data).side_ (orderOfRequest data).price_ = true →
      ∀ fuel, handleAddOrderRequest notify fuel s data = .outOfFuel) ∧
    (∀ (notify : Trade → Sent) (fuel : Nat) (s s1 : Session) (data d1 : Bytes),
      handleAddOrderRequest notify fuel s data = .ok (s1, d1) →
      s1.sent = s.sent ++ [addOrderResponseTo data]) ∧
    (∀ (notify : Trade → Sent) (fuel : Nat) (s s1 : Session) (data d1 : Bytes),
      handleModifyOrderRequest notify fuel s data = .ok (s1, d1) →
      s1.sent = s.sent ++ [modifyOrderResponseTo data]) ∧
    Reachable quotingSession.orderbook_ ∧
    orderOfRequest crossingAddFrame = mkOrder .GoodTillCancel .Sell 100 3 6 ∧
    innerLoop { bids := [mkOrder .GoodTillCancel .Buy 100 3 5],
                asks := [mkOrder .GoodTillCancel .Sell 100 3 6],
                orders_ := (quotingSession.orderbook_.insertOrder
                  (mkOrder .GoodTillCancel .Sell 100 3 6)).orders_,
                trades := [] } =
      .ok { bids := [], asks := [], orders_ := [],
            trades := [{ bidTrade_ := { orderID_ := 5, price_ := 100, quantity_ := 3 },
                         askTrade_ := { orderID_ := 6, price_ := 100, quantity_ := 3 } }] } ∧
    (∀ (notify : Trade → Sent) (fuel : Nat),
      handleAddOrderRequest notify fuel quotingSession crossingAddFrame = .outOfFuel) ∧
    (∀ (notify : Trade → Sent) (fuel : Nat),
      processMessageBuffer notify fuel quotingSession crossingAddFrame = .outOfFuel) := by
  refine ⟨handleAddOrderRequest_of_canMatch, handleAddOrderRequest_sent,
    handleModifyOrderRequest_sent, quotingSession_reachable, by decide, by decide,
    crossingAddFrame_unanswered, ?_⟩
  intro notify fuel
  cases fuel with
  | zero => rfl
  | succ n =>
    rw [processMessageBuffer_step notify n quotingSession crossingAddFrame (by decide)
      (by decide), processMessage_addOrder notify (n + 1) quotingSession crossingAddFrame
      (by decide), crossingAddFrame_unanswered, Result.bind_outOfFuel]

end SimpleOrderbook
